import Mathlib

/-!
# dferry argument codec: signature validator, string validators, type table, cursors

A shallow embedding of `serialization/argumentlist.cpp`.

Conventions of the embedding

* A `byte` is a natural number (the value of an `unsigned char`).
* A pointer into a byte buffer is `Option (List byte)`: `none` is the null
  pointer, `some m` is a pointer at which the bytes `m` are stored; bytes past
  the end of `m` read as `0`.  `p + 1` is `m.tail`.
* `assert` is compiled out (`NDEBUG`); where an assertion matters its condition
  is given as a definition of its own, so that it can be stated and checked.
* `int` fields are `Int`.
* Two pointers to one buffer are two copies of its bytes; where the source changes the
  buffer through one of them and reads it through the other, the definition says how the
  copy is brought up to date.
* A value that the source reads without having assigned it is a parameter of the
  definition that reads it.
-/

namespace Dferry

/-- The type `byte` of the sources: an unsigned 8 bit value. -/
abbrev byte := Nat

/-- The code of a character literal of the sources, `ch 'y'` for the C++ literal of the letter y. -/
def ch (c : Char) : byte := c.toNat

/-- The struct `cstring`: `begin` and `length` (the terminating NUL is not counted). -/
structure cstring where
  begin : Option (List byte)
  length : Int
deriving DecidableEq, Repr

/-- The expression `s.begin[i]`. -/
def cstring.get (s : cstring) (i : Nat) : byte :=
  match s.begin with
  | some m => m.getD i 0
  | none => 0

/-- The expression `*s->begin`. -/
def cstring.deref (s : cstring) : byte := s.get 0

/-- The C string literal with the given characters: the characters and a terminating NUL. -/
def cstringOf (cs : List byte) : cstring := ⟨some (cs ++ [0]), cs.length⟩

/-- The C string literal written as text. -/
def lit (t : String) : cstring := cstringOf (t.toList.map ch)

/-- The default constructed `cstring()`: null pointer, length 0. -/
def cstring.null : cstring := ⟨none, 0⟩

/-! ## Nesting -/

/-- The struct `Nesting`: helper to verify the max nesting requirements. -/
structure Nesting where
  array : Int
  paren : Int
  variant : Int
deriving DecidableEq, Repr

namespace Nesting

/-- The constructor `Nesting()`. -/
def init : Nesting := ⟨0, 0, 0⟩

def arrayMax : Int := 32
def parenMax : Int := 32
def totalMax : Int := 64

def total (n : Nesting) : Int := n.array + n.paren + n.variant

/-- `beginArray`: the counters after the call and the returned flag. -/
def beginArray (n : Nesting) : Bool × Nesting :=
  let n1 : Nesting := { n with array := n.array + 1 }
  (decide (n1.array ≤ arrayMax) && decide (n1.total ≤ totalMax), n1)

def endArray (n : Nesting) : Nesting := { n with array := n.array - 1 }

def beginParen (n : Nesting) : Bool × Nesting :=
  let n1 : Nesting := { n with paren := n.paren + 1 }
  (decide (n1.paren ≤ parenMax) && decide (n1.total ≤ totalMax), n1)

def endParen (n : Nesting) : Nesting := { n with paren := n.paren - 1 }

def beginVariant (n : Nesting) : Bool × Nesting :=
  let n1 : Nesting := { n with variant := n.variant + 1 }
  (decide (n1.total ≤ totalMax), n1)

def endVariant (n : Nesting) : Nesting := { n with variant := n.variant - 1 }

end Nesting

/-! ## Signature parsing -/

/-- `chopFirst`: `s->begin++; s->length--`. -/
def chopFirst (s : cstring) : cstring :=
  ⟨s.begin.map List.tail, s.length - 1⟩

/-- The thirteen case labels `'y' 'b' 'n' 'q' 'i' 'u' 'x' 't' 'd' 's' 'o' 'g' 'h'` shared by
`parseBasicType` and `parseSingleCompleteType`. -/
def isBasicLetter (c : byte) : Bool :=
  c == ch 'y' || c == ch 'b' || c == ch 'n' || c == ch 'q' || c == ch 'i' || c == ch 'u' ||
  c == ch 'x' || c == ch 't' || c == ch 'd' || c == ch 's' || c == ch 'o' || c == ch 'g' ||
  c == ch 'h'

/-- `parseBasicType`: the returned flag and the string after the call. -/
def parseBasicType (s : cstring) : Bool × cstring :=
  if s.length < 0 then (false, s)
  else if isBasicLetter s.deref then (true, chopFirst s)
  else (false, s)

/-- What a call of the parser leaves behind: the returned flag, `*s` and `*nest`. -/
abbrev ParseResult := Bool × cstring × Nesting

/-- The loop `while (parseSingleCompleteType(s, nest)) { isEmptyStruct = false; }` of the struct
case; `n` bounds the number of iterations, `none` when the bound is used up.  The result carries
`isEmptyStruct` in place of the flag. -/
def structLoop (parse : cstring → Nesting → Option ParseResult) :
    Nat → cstring → Nesting → Bool → Option ParseResult
  | 0, _, _, _ => none
  | n + 1, s, nest, isEmptyStruct =>
    match parse s nest with
    | none => none
    | some (true, s1, nest1) => structLoop parse n s1 nest1 false
    | some (false, s1, nest1) => some (isEmptyStruct, s1, nest1)

/-- `parseSingleCompleteType(s, nest)`, which recurses on the rest of the string, with a bound
`fuel` on the recursion depth: `none` when the bound is used up (it never is with
`fuel` above the number of bytes at `s->begin`, see `parseSingleCompleteType_fuel`).  The
parser is only ever called with `s->begin` non-null, which is what its `assert` says. -/
def parseSingleCompleteType : Nat → cstring → Nesting → Option ParseResult
  | 0, _, _ => none
  | fuel + 1, s, nest =>
    let c := s.deref
    if isBasicLetter c then
      some (true, chopFirst s, nest)
    else if c == ch 'v' then
      let r := nest.beginVariant
      if !r.1 then some (false, s, r.2)
      else some (true, chopFirst s, r.2.endVariant)
    else if c == ch '(' then
      let r := nest.beginParen
      if !r.1 then some (false, s, r.2)
      else
        match structLoop (parseSingleCompleteType fuel) fuel (chopFirst s) r.2 true with
        | none => none
        | some (isEmptyStruct, s2, nest2) =>
          if s2.length == 0 || s2.deref != ch ')' || isEmptyStruct then some (false, s2, nest2)
          else some (true, chopFirst s2, nest2.endParen)
    else if c == ch 'a' then
      let r := nest.beginArray
      if !r.1 then some (false, s, r.2)
      else
        let s1 := chopFirst s
        if s1.deref == ch '{' then
          -- an "array of dict entries", i.e. a dict
          let r2 := r.2.beginParen
          if !r2.1 || s1.length < 4 then some (false, s1, r2.2)
          else
            let s2 := chopFirst s1
            -- key must be a basic type
            let k := parseBasicType s2
            if !k.1 then some (false, k.2, r2.2)
            else
              -- value can be any type
              match parseSingleCompleteType fuel k.2 r2.2 with
              | none => none
              | some (false, s4, nest4) => some (false, s4, nest4)
              | some (true, s4, nest4) =>
                if s4.length == 0 || s4.deref != ch '}' then some (false, s4, nest4)
                else some (true, chopFirst s4, nest4.endParen.endArray)
        else
          -- regular array
          match parseSingleCompleteType fuel s1 r.2 with
          | none => none
          | some (false, s2, nest2) => some (false, s2, nest2)
          | some (true, s2, nest2) => some (true, s2, nest2.endArray)
    else some (false, s, nest)

/-- The enum `SignatureType`. -/
inductive SignatureType where
  | FullSignature
  | VariantSignature
deriving DecidableEq, Repr

/-- The loop `while (signature.length) { if (!parseSingleCompleteType(..)) return false; }` of
`isSignatureValid`: the flag is `false` when the loop returned `false`, `true` when it ran to
its end. -/
def fullLoop (parse : cstring → Nesting → Option ParseResult) :
    Nat → cstring → Nesting → Option ParseResult
  | 0, _, _ => none
  | n + 1, s, nest =>
    if s.length == 0 then some (true, s, nest)
    else
      match parse s nest with
      | none => none
      | some (false, s1, nest1) => some (false, s1, nest1)
      | some (true, s1, nest1) => fullLoop parse n s1 nest1

/-- The number of bytes stored at `s.begin`. -/
def cstring.size (s : cstring) : Nat :=
  match s.begin with
  | some m => m.length
  | none => 0

/-- The body of `isSignatureValid` up to the three closing asserts: the value that is about to
be returned, and the `Nesting nest` at that point. -/
def isSignatureValidRun (fuel : Nat) (signature : cstring) (type : SignatureType) :
    Option (Bool × Nesting) :=
  let nest := Nesting.init
  if signature.begin.isNone || signature.get signature.length.toNat != 0 then
    some (false, nest)
  else
    match type with
    | .VariantSignature =>
      if signature.length != 0 then
        match parseSingleCompleteType fuel signature nest with
        | none => none
        | some (false, _, nest1) => some (false, nest1)
        | some (true, s1, nest1) =>
          if s1.length != 0 then some (false, nest1) else some (true, nest1)
      else some (true, nest)
    | .FullSignature =>
      match fullLoop (parseSingleCompleteType fuel) fuel signature nest with
      | none => none
      | some (b, _, nest1) => some (b, nest1)

/-- `ArgumentList::isSignatureValid(signature, type)`: the value returned.  The parser gets more
fuel than `signature.begin` holds bytes, so it always returns (`isSignatureValidRun_fuel`) and
the branch `none` is never taken.  Called with one argument, `type` is `FullSignature`, the
default of the declaration as the tests use it. -/
def isSignatureValid (signature : cstring) (type : SignatureType) : Bool :=
  match isSignatureValidRun (signature.size + 1) signature type with
  | some (b, _) => b
  | none => false

/-- The conjunction of `assert(!nest.array)`, `assert(!nest.paren)`, `assert(!nest.variant)`
which `isSignatureValid` makes before `return true`: `true` when none of them fires (also when
they are not reached, on `return false`). -/
def isSignatureValidAsserts (signature : cstring) (type : SignatureType) : Bool :=
  match isSignatureValidRun (signature.size + 1) signature type with
  | some (true, nest) => nest.array == 0 && nest.paren == 0 && nest.variant == 0
  | _ => true

/-! ## String validators -/

/-- The loop `for (int i = 0; i < string.length; i++) { if (string.begin[i] == 0) return false; }`
of `isStringValid`, at index `i` with `n` iterations to go: `false` when it returns `false`,
`true` when it runs to its end. -/
def isStringValidLoop (string : cstring) : Nat → Nat → Bool
  | 0, _ => true
  | n + 1, i => if string.get i == 0 then false else isStringValidLoop string n (i + 1)

/-- `ArgumentList::isStringValid(string)`. -/
def isStringValid (string : cstring) : Bool :=
  if string.begin.isNone || string.get string.length.toNat != 0 then false
  else isStringValidLoop string string.length.toNat 0

/-- `isObjectNameLetter(b)`. -/
def isObjectNameLetter (b : byte) : Bool :=
  (decide (b ≥ ch 'a') && decide (b ≤ ch 'z')) || b == ch '_' ||
  (decide (b ≥ ch 'A') && decide (b ≤ ch 'Z')) || (decide (b ≥ ch '0') && decide (b ≤ ch '9'))

/-- The loop `for (int i = 1; i < path.length; i++)` of `isObjectPathValid`, at index `i` with
`n` iterations to go and the current `lastLetter`: `none` when it returns `false`, the final
`lastLetter` when it runs to its end. -/
def isObjectPathValidLoop (path : cstring) : Nat → Nat → byte → Option byte
  | 0, _, lastLetter => some lastLetter
  | n + 1, i, lastLetter =>
    let currentLetter := path.get i
    if lastLetter == ch '/' then
      if !isObjectNameLetter currentLetter then none
      else isObjectPathValidLoop path n (i + 1) currentLetter
    else
      if currentLetter != ch '/' && !isObjectNameLetter currentLetter then none
      else isObjectPathValidLoop path n (i + 1) currentLetter

/-- `ArgumentList::isObjectPathValid(path)`. -/
def isObjectPathValid (path : cstring) : Bool :=
  if path.begin.isNone || path.get path.length.toNat != 0 then false
  else
    let lastLetter := path.get 0
    if lastLetter != ch '/' then false
    else if path.length == 1 then true -- "/" special case
    else
      match isObjectPathValidLoop path (path.length - 1).toNat 1 lastLetter with
      | none => false
      | some lastLetter => lastLetter != ch '/'

/-! ## Type table -/

/-- The enum `ArgumentList::CursorState`, in the order of `printableState`. -/
inductive CursorState where
  | NotStarted | Finished | NeedMoreData | InvalidData
  | AnyData | DictKey
  | BeginArray | NextArrayEntry | EndArray
  | BeginDict | NextDictEntry | EndDict
  | BeginStruct | EndStruct
  | BeginVariant | EndVariant
  | Byte | Boolean | Int16 | Uint16 | Int32 | Uint32 | Int64 | Uint64 | Double
  | String | ObjectPath | Signature | UnixFd
deriving DecidableEq, Repr

/-- The four outputs of `getTypeInfo`. -/
structure TypeInfo where
  state : CursorState
  alignment : Nat
  isPrimitive : Bool
  isString : Bool
deriving DecidableEq, Repr

/-- `getTypeInfo(letterCode, &typeState, &alignment, &isPrimitiveType, &isStringType)`: the
locals `state`, `align`, `isPrimitive`, `isString` start as `InvalidData`, 4, `true`, `false`
and each case of the switch overwrites some of them. -/
def getTypeInfo (letterCode : byte) : TypeInfo :=
  let d : TypeInfo := ⟨.InvalidData, 4, true, false⟩
  if letterCode = ch 'y' then { d with state := .Byte, alignment := 1 }
  else if letterCode = ch 'b' then { d with state := .Boolean }
  else if letterCode = ch 'n' then { d with state := .Int16, alignment := 2 }
  else if letterCode = ch 'q' then { d with state := .Uint16, alignment := 2 }
  else if letterCode = ch 'i' then { d with state := .Int32 }
  else if letterCode = ch 'u' then { d with state := .Uint32 }
  else if letterCode = ch 'x' then { d with state := .Int64, alignment := 8 }
  else if letterCode = ch 't' then { d with state := .Uint64, alignment := 8 }
  else if letterCode = ch 'd' then { d with state := .Double, alignment := 8 }
  else if letterCode = ch 's' then { d with state := .String, isPrimitive := false, isString := true }
  else if letterCode = ch 'o' then
    { d with state := .ObjectPath, isPrimitive := false, isString := true }
  else if letterCode = ch 'g' then
    { d with state := .Signature, isPrimitive := false, isString := true, alignment := 1 }
  else if letterCode = ch 'h' then { d with state := .UnixFd }
  else if letterCode = ch 'v' then { d with state := .BeginVariant, isPrimitive := false, alignment := 1 }
  else if letterCode = ch '(' then { d with state := .BeginStruct, isPrimitive := false, alignment := 8 }
  else if letterCode = ch ')' then { d with state := .EndStruct, isPrimitive := false, alignment := 1 }
  else if letterCode = ch 'a' then { d with state := .BeginArray, isPrimitive := false }
  else if letterCode = ch '{' then { d with state := .BeginDict, isPrimitive := false, alignment := 8 }
  else if letterCode = ch '}' then { d with state := .EndDict, isPrimitive := false, alignment := 1 }
  else { d with alignment := 1 }

/-- The signature alphabet: the thirteen basic characters and `v ( ) a { }`. -/
def signatureAlphabet : List byte := "ybnqiuxtdsoghv()a\x7b\x7d".toList.map ch


/-! ## The signature grammar of the specification -/

/-- A character of `basic := y|b|n|q|i|u|x|t|d|s|o|g|h`. -/
def IsBasic (c : byte) : Prop := c ∈ "ybnqiuxtdsogh".toList.map ch

/-- The grammar
`complete := basic | 'v' | '(' complete+ ')' | 'a' complete | 'a{' basic complete '}'`
with the nesting limits: `Seq a p k cs` says that `cs` is a concatenation of exactly `k` single
complete types which, standing inside `a` arrays and `p` structs or dict entries, nowhere
nest arrays deeper than 32, structs and dict entries deeper than 32, or arrays, structs, dict
entries and variants together deeper than 64. -/
inductive Seq : Nat → Nat → Nat → List byte → Prop where
  | nil (a p : Nat) : Seq a p 0 []
  | basic (a p k : Nat) (c : byte) (rest : List byte) :
      IsBasic c → Seq a p k rest → Seq a p (k + 1) (c :: rest)
  | variant (a p k : Nat) (rest : List byte) :
      a + p + 1 ≤ 64 → Seq a p k rest → Seq a p (k + 1) (ch 'v' :: rest)
  | struct (a p m k : Nat) (body rest : List byte) :
      p + 1 ≤ 32 → a + (p + 1) ≤ 64 → Seq a (p + 1) (m + 1) body → Seq a p k rest →
      Seq a p (k + 1) (ch '(' :: body ++ ch ')' :: rest)
  | array (a p k : Nat) (t rest : List byte) :
      a + 1 ≤ 32 → (a + 1) + p ≤ 64 → Seq (a + 1) p 1 t → Seq a p k rest →
      Seq a p (k + 1) (ch 'a' :: t ++ rest)
  | dict (a p k : Nat) (key : byte) (t rest : List byte) :
      a + 1 ≤ 32 → p + 1 ≤ 32 → (a + 1) + (p + 1) ≤ 64 → IsBasic key →
      Seq (a + 1) (p + 1) 1 t → Seq a p k rest →
      Seq a p (k + 1) (ch 'a' :: ch '{' :: key :: t ++ ch '}' :: rest)

/-- One single complete type, at the top level. -/
def IsSingleCompleteType (cs : List byte) : Prop := Seq 0 0 1 cs

/-- The grammar `signature := complete*`, at the top level. -/
def IsSignature (cs : List byte) : Prop := ∃ k, Seq 0 0 k cs

/-- The first `k` rounds of the loop of `isSignatureValid` in `FullSignature` mode: the flag is
`false` when the string is used up before or a round fails. -/
def parseTimes (parse : cstring → Nesting → Option ParseResult) :
    Nat → cstring → Nesting → Option ParseResult
  | 0, s, nest => some (true, s, nest)
  | k + 1, s, nest =>
    if s.length == 0 then some (false, s, nest)
    else
      match parse s nest with
      | none => none
      | some (false, s1, nest1) => some (false, s1, nest1)
      | some (true, s1, nest1) => parseTimes parse k s1 nest1

/-- The signature of `n` nested structs around an `i`. -/
def nestedStructs (n : Nat) : List byte :=
  List.replicate n (ch '(') ++ ch 'i' :: List.replicate n (ch ')')

/-- The signature of `n` nested arrays of `i`. -/
def nestedArrays (n : Nat) : List byte := List.replicate n (ch 'a') ++ [ch 'i']

/-- What a terminating call of the parser guarantees about the string it leaves. -/
def ParseOk (s : cstring) (r : Option ParseResult) : Prop :=
  ∃ b s1 nest1, r = some (b, s1, nest1) ∧ s1.size ≤ s.size ∧ (b = true → s1.size < s.size)


/-- The counters of `m` are at most those of `n`. -/
def Nesting.le (m n : Nesting) : Prop :=
  m.array ≤ n.array ∧ m.paren ≤ n.paren ∧ m.variant ≤ n.variant

/-- The characters a single complete type can start with. -/
def isStarter (c : byte) : Bool :=
  isBasicLetter c || c == ch 'v' || c == ch '(' || c == ch 'a'

/-- The string `s1` is the string `s` behind its first characters `cs`. -/
def Advanced (s : cstring) (cs : List byte) (s1 : cstring) : Prop :=
  ∃ m, s.begin = some (cs ++ m) ∧ s1 = ⟨some m, s.length - cs.length⟩

/-- What a call of the parser guarantees when it returns: the counters never go down, and when
they come back as they were (`a` arrays, `p` structs or dict entries, no variant), a call
returning `true` has consumed exactly one single complete type, and a call returning `false`
has consumed nothing and stands at a character no type starts with. -/
def ParseSound (parse : cstring → Nesting → Option ParseResult) : Prop :=
  ∀ s nest b s1 nest1, parse s nest = some (b, s1, nest1) →
    Nesting.le nest nest1 ∧
    (nest1 = nest → ∀ a p : Nat, nest = ⟨a, p, 0⟩ →
      (b = true → ∃ cs, Seq a p 1 cs ∧ Advanced s cs s1) ∧
      (b = false → s1 = s ∧ isStarter s.deref = false))

/-! ## The object path grammar of the specification -/

/-- A character of `[A-Za-z0-9_]`. -/
def IsNameChar (c : byte) : Prop :=
  (ch 'A' ≤ c ∧ c ≤ ch 'Z') ∨ (ch 'a' ≤ c ∧ c ≤ ch 'z') ∨ (ch '0' ≤ c ∧ c ≤ ch '9') ∨ c = ch '_'

/-- One or more segments, each a `/` followed by one or more characters of `[A-Za-z0-9_]`. -/
inductive Segments : List byte → Prop where
  | one (w : List byte) : w ≠ [] → (∀ c ∈ w, IsNameChar c) → Segments (ch '/' :: w)
  | cons (w rest : List byte) : w ≠ [] → (∀ c ∈ w, IsNameChar c) → Segments rest →
      Segments (ch '/' :: w ++ rest)

/-- The object path grammar `/ | (/ [A-Za-z0-9_]+)+`. -/
def IsObjectPath (p : List byte) : Prop := p = [ch '/'] ∨ Segments p

/-- What may follow inside an object path: the rest `w` of the current segment (not empty right
after a `/`), then zero or more segments. -/
def PathTail (afterSlash : Bool) (t : List byte) : Prop :=
  ∃ w, (afterSlash = true → w ≠ []) ∧ (∀ c ∈ w, IsNameChar c) ∧
    (t = w ∨ ∃ rest, Segments rest ∧ t = w ++ rest)

/-! ## ArgumentList and its cursors

Sums with an operand of type `uint32` are taken modulo `2^32`; other sums and all
comparisons of positions and lengths are taken in `Int`. -/

/-- The struct `array`: `begin` and `length`. -/
structure array where
  begin : Option (List byte)
  length : Int
deriving DecidableEq, Repr

/-- The default constructed `array()`: null pointer, length 0. -/
def array.null : array := ⟨none, 0⟩

/-- The expression `a.begin[i]`. -/
def array.get (a : array) (i : Nat) : byte :=
  match a.begin with
  | some m => m.getD i 0
  | none => 0

/-- The pointer `a.begin + i`. -/
def array.ptr (a : array) (i : Nat) : Option (List byte) := a.begin.map (List.drop i)

/-- The data members of `ArgumentList`. -/
structure ArgumentList where
  m_isByteSwapped : Bool
  m_readCursorCount : Int
  m_hasWriteCursor : Bool
  m_signature : cstring
  m_data : array
deriving DecidableEq, Repr

/-- The constructor `ArgumentList::ArgumentList()`. -/
def ArgumentList.empty : ArgumentList := ⟨false, 0, false, cstring.null, array.null⟩

/-- The constructor `ArgumentList::ArgumentList(signature, data, isByteSwapped)`. -/
def ArgumentList.of (signature : cstring) (data : array) (isByteSwapped : Bool) : ArgumentList :=
  ⟨isByteSwapped, 0, false, signature, data⟩

/-- A value reduced to `uint32`. -/
def u32 (x : Int) : Nat := (x % 4294967296).toNat

/-- A `uint32` converted to `int`. -/
def i32 (x : Nat) : Int :=
  if x % 4294967296 < 2147483648 then (x % 4294967296 : Nat) else (x % 4294967296 : Nat) - 4294967296

/-- `align(index, alignment)`: `const int maxStepUp = alignment - 1;
return (index + maxStepUp) & ~maxStepUp;` on `uint32` arguments, returning `int`. -/
def align (index alignment : Nat) : Int :=
  let maxStepUp : Int := i32 (u32 ((alignment : Int) - 1))
  i32 (Nat.land (u32 ((index : Int) + maxStepUp)) (u32 (-maxStepUp - 1)))

/-- Modelled from the spec: the readers of `basictypeio.h` ("primitive read/write at aligned
offsets with optional byte-swapping"), which is not among the sources.  The unsigned value of
the `n` bytes at `data.begin + pos`, least significant byte first, or most significant byte
first when `isByteSwapped`. -/
def readUnsigned (n : Nat) (data : array) (pos : Int) (isByteSwapped : Bool) : Nat :=
  let bytes := (List.range n).map (fun i => data.get (pos.toNat + i) % 256)
  (if isByteSwapped then bytes.reverse else bytes).foldr (fun b acc => b + 256 * acc) 0

/-- Modelled from the spec: the signed readers of `basictypeio.h`, two's complement. -/
def readSigned (n : Nat) (data : array) (pos : Int) (isByteSwapped : Bool) : Int :=
  let u := readUnsigned n data pos isByteSwapped
  if u < 2 ^ (8 * n - 1) then (u : Int) else (u : Int) - 2 ^ (8 * n)

/-- The frames of `m_aggregateStack` of the reader: `aggregateType` with the member of the
union that goes with it, `arr` (`dataEnd`, `containedTypeBegin`) for arrays and dicts, `var`
(`prevSignature`, `prevSignaturePosition`) for variants. -/
inductive AggregateInfo where
  | struct
  | variant (prevSignature : cstring) (prevSignaturePosition : Int)
  | array (isDict : Bool) (dataEnd : Int) (containedTypeBegin : Int)
deriving DecidableEq, Repr

/-- The member `aggregateType` of a frame. -/
def AggregateInfo.aggregateType : AggregateInfo → CursorState
  | .struct => .BeginStruct
  | .variant _ _ => .BeginVariant
  | .array true _ _ => .BeginDict
  | .array false _ _ => .BeginArray

/-- The value members `m_Byte`, `m_Boolean`, ..., `m_String` of a cursor, of which the last one
written is meaningful; `indeterminate` is the value of an uninitialised local. -/
inductive Value where
  | unset
  | Byte (v : byte)
  | Boolean (v : Bool)
  | Int16 (v : Int)
  | Uint16 (v : Nat)
  | Int32 (v : Int)
  | Uint32 (v : Nat)
  | Int64 (v : Int)
  | Uint64 (v : Nat)
  | Double (bits : Nat)
  | String (v : cstring)
  | indeterminate
deriving DecidableEq, Repr

/-- The data members of `ArgumentList::ReadCursor`.  `m_argList` is the pointer (`none` is
null) with the `ArgumentList` it points to as it was when the cursor was made;
`m_aggregateStack` has its `back()` first. -/
structure ReadCursor where
  m_argList : Option ArgumentList
  m_state : CursorState
  m_nesting : Nesting
  m_signature : cstring
  m_data : array
  m_signaturePosition : Int
  m_dataPosition : Int
  m_zeroLengthArrayNesting : Int
  m_aggregateStack : List AggregateInfo
  m_value : Value
deriving DecidableEq, Repr

namespace ReadCursor

/-- The expression `m_argList->m_isByteSwapped`. -/
def isByteSwapped (c : ReadCursor) : Bool :=
  match c.m_argList with
  | some al => al.m_isByteSwapped
  | none => false

/-- `ReadCursor::doReadPrimitiveType()`: the returned state and the cursor with the value
member written. -/
def doReadPrimitiveType (c : ReadCursor) : CursorState × ReadCursor :=
  let pos := c.m_dataPosition
  let sw := c.isByteSwapped
  match c.m_state with
  | .Byte => (c.m_state, { c with m_value := .Byte (c.m_data.get pos.toNat) })
  | .Boolean =>
    let num := readUnsigned 4 c.m_data pos sw
    let c1 := { c with m_value := .Boolean (num == 1) }
    if num > 1 then (.InvalidData, c1) else (c.m_state, c1)
  | .Int16 => (c.m_state, { c with m_value := .Int16 (readSigned 2 c.m_data pos sw) })
  | .Uint16 => (c.m_state, { c with m_value := .Uint16 (readUnsigned 2 c.m_data pos sw) })
  | .Int32 => (c.m_state, { c with m_value := .Int32 (readSigned 4 c.m_data pos sw) })
  | .Uint32 => (c.m_state, { c with m_value := .Uint32 (readUnsigned 4 c.m_data pos sw) })
  | .Int64 => (c.m_state, { c with m_value := .Int64 (readSigned 8 c.m_data pos sw) })
  | .Uint64 => (c.m_state, { c with m_value := .Uint64 (readUnsigned 8 c.m_data pos sw) })
  | .Double => (c.m_state, { c with m_value := .Double (readUnsigned 8 c.m_data pos sw) })
  | .UnixFd => (c.m_state, { c with m_value := .indeterminate })
  | _ => (.InvalidData, c)

/-- `ReadCursor::doReadString(lengthPrefixSize)`: the returned state and the cursor after the
call. -/
def doReadString (c : ReadCursor) (lengthPrefixSize : Int) : CursorState × ReadCursor :=
  let stringLength : Nat :=
    if lengthPrefixSize == 1 then (1 + c.m_data.get c.m_dataPosition.toNat) % 4294967296
    else (1 + readUnsigned 4 c.m_data c.m_dataPosition c.isByteSwapped) % 4294967296
  let c1 := { c with m_dataPosition := c.m_dataPosition + lengthPrefixSize }
  if (c1.m_dataPosition + (stringLength : Int)) % 4294967296 > c1.m_data.length then (.NeedMoreData, c1)
  else
    let str : cstring := ⟨c1.m_data.ptr c1.m_dataPosition.toNat, stringLength⟩
    let c2 := { c1 with m_value := .String str,
                        m_dataPosition := (c1.m_dataPosition + (stringLength : Int)) % 4294967296 }
    let isValidString :=
      if c2.m_state == .String then isStringValid str
      else if c2.m_state == .ObjectPath then isObjectPathValid str
      else if c2.m_state == .Signature then isSignatureValid str .FullSignature
      else false
    if !isValidString then (.InvalidData, c2) else (c2.m_state, c2)

/-- The code at the label `out_needMoreData` of `advanceState`. -/
def outNeedMoreData (c : ReadCursor) (savedSignaturePosition savedDataPosition : Int) :
    ReadCursor :=
  { c with m_state := if c.m_nesting.array != 0 then .InvalidData else .NeedMoreData,
           m_signaturePosition := savedSignaturePosition,
           m_dataPosition := savedDataPosition }

/-- The case `BeginStruct` of the switch over aggregates in `advanceState`. -/
def beginStructCase (c : ReadCursor) : ReadCursor :=
  let n := c.m_nesting.beginParen
  if !n.1 then { c with m_nesting := n.2, m_state := .InvalidData }
  else { c with m_nesting := n.2, m_aggregateStack := .struct :: c.m_aggregateStack }

/-- The case `EndStruct` of the switch over aggregates in `advanceState`. -/
def endStructCase (c : ReadCursor) : ReadCursor :=
  { c with m_nesting := c.m_nesting.endParen, m_aggregateStack := c.m_aggregateStack.tail }

/-- The inline signature of a variant, as the case `BeginVariant` reads it: the local
`signature` and the cursor with `m_dataPosition` moved behind it (inside a zero-length array
the signature is `cstring("", 1)` and nothing is read). -/
def readVariantSignature (c : ReadCursor) : cstring × ReadCursor :=
  if c.m_zeroLengthArrayNesting != 0 then (⟨some [0], 1⟩, c)
  else
    let len : Int := (c.m_data.get c.m_dataPosition.toNat : Int) + 1
    (⟨c.m_data.ptr (c.m_dataPosition + 1).toNat, len⟩,
      { c with m_dataPosition := c.m_dataPosition + 1 + len })

/-- The case `BeginVariant` of the switch over aggregates in `advanceState`. -/
def beginVariantCase (c : ReadCursor) (savedSignaturePosition savedDataPosition : Int) :
    ReadCursor :=
  if c.m_dataPosition >= c.m_data.length then
    outNeedMoreData c savedSignaturePosition savedDataPosition
  else
    let signature := (readVariantSignature c).1
    let c1 := (readVariantSignature c).2
    if c.m_zeroLengthArrayNesting == 0 && decide (c1.m_dataPosition > c1.m_data.length) then
      outNeedMoreData c1 savedSignaturePosition savedDataPosition
    else
      -- do not clobber nesting before potentially going to out_needMoreData!
      let n := c1.m_nesting.beginVariant
      if !n.1 then { c1 with m_nesting := n.2, m_state := .InvalidData }
      else if !isSignatureValid signature .VariantSignature then
        { c1 with m_nesting := n.2, m_state := .InvalidData }
      else
        { c1 with m_nesting := n.2,
                  m_aggregateStack :=
                    .variant c1.m_signature c1.m_signaturePosition :: c1.m_aggregateStack,
                  m_signature := signature,
                  m_signaturePosition := -1 }

/-- The end of the case `BeginArray`, from `bool nestOk = m_nesting->beginArray();` on;
`isDict` is `firstElementType == BeginDict`. -/
def pushArray (c : ReadCursor) (isDict : Bool) (arrayLength : Nat) (dataEnd : Int) : ReadCursor :=
  let n1 := c.m_nesting.beginArray
  let c1 := { c with m_nesting := n1.2 }
  -- `nestOk = nestOk && m_nesting->beginParen()` calls `beginParen` only when `nestOk`
  let c2 := if isDict then
      { c1 with m_signaturePosition := c1.m_signaturePosition + 1,
                m_nesting := if n1.1 then c1.m_nesting.beginParen.2 else c1.m_nesting }
    else c1
  let nestOk := if isDict then n1.1 && c1.m_nesting.beginParen.1 else n1.1
  if !nestOk then { c2 with m_state := .InvalidData }
  else
    { c2 with m_zeroLengthArrayNesting :=
                if arrayLength == 0 then c2.m_zeroLengthArrayNesting + 1
                else c2.m_zeroLengthArrayNesting,
              m_aggregateStack := .array isDict dataEnd c2.m_signaturePosition :: c2.m_aggregateStack }

/-- The middle of the case `BeginArray`, from the second call of `getTypeInfo` on; the
cursor stands behind the length field and `arrayLength` is the length read. -/
def enterArray (c : ReadCursor) (arrayLength : Nat)
    (savedSignaturePosition savedDataPosition : Int) : ReadCursor :=
  let first := getTypeInfo (c.m_signature.get (c.m_signaturePosition + 1).toNat)
  let isDict := first.state == .BeginDict
  let c1 := { c with m_state := if isDict then .BeginDict else .BeginArray }
  -- ### are we supposed to align m_dataPosition if the array is empty?
  let c2 := if c1.m_zeroLengthArrayNesting != 0 then c1
    else { c1 with m_dataPosition := align (u32 c1.m_dataPosition) first.alignment }
  let dataEnd : Int := (c2.m_dataPosition + (arrayLength : Int)) % 4294967296
  if dataEnd > c2.m_data.length then outNeedMoreData c2 savedSignaturePosition savedDataPosition
  else pushArray c2 isDict arrayLength dataEnd

/-- The case `BeginArray` of the switch over aggregates in `advanceState`. -/
def beginArrayCase (c : ReadCursor) (savedSignaturePosition savedDataPosition : Int) :
    ReadCursor :=
  if c.m_zeroLengthArrayNesting != 0 then
    enterArray c 0 savedSignaturePosition savedDataPosition
  else if c.m_dataPosition + 4 > c.m_data.length then
    outNeedMoreData c savedSignaturePosition savedDataPosition
  else
    let arrayLength := readUnsigned 4 c.m_data c.m_dataPosition c.isByteSwapped
    if arrayLength > 67108864 then { c with m_state := .InvalidData }
    else
      enterArray { c with m_dataPosition := c.m_dataPosition + 4 } arrayLength
        savedSignaturePosition savedDataPosition

/-- The switch over aggregates at the end of `advanceState`. -/
def advanceStateAggregate (c : ReadCursor) (savedSignaturePosition savedDataPosition : Int) :
    ReadCursor :=
  match c.m_state with
  | .BeginStruct => beginStructCase c
  | .EndStruct => endStructCase c
  | .BeginVariant => beginVariantCase c savedSignaturePosition savedDataPosition
  | .BeginArray => beginArrayCase c savedSignaturePosition savedDataPosition
  | _ => c

/-- The branch `if (isPrimitiveType)` of `advanceState`. -/
def readPrimitiveCase (c : ReadCursor) (alignment : Nat) : ReadCursor :=
  { (doReadPrimitiveType c).2 with
    m_state := (doReadPrimitiveType c).1,
    m_dataPosition := ((doReadPrimitiveType c).2.m_dataPosition + (alignment : Int)) % 4294967296 }

/-- The branch `if (isStringType)` of `advanceState`. -/
def readStringCase (c : ReadCursor) (alignment : Nat)
    (savedSignaturePosition savedDataPosition : Int) : ReadCursor :=
  let c1 := { (doReadString c alignment).2 with m_state := (doReadString c alignment).1 }
  if c1.m_state == .NeedMoreData then outNeedMoreData c1 savedSignaturePosition savedDataPosition
  else c1

/-- The part of `advanceState` behind the alignment of `m_dataPosition`; `ti` is what
`getTypeInfo` gave for the current signature character. -/
def advanceStateData (c : ReadCursor) (ti : TypeInfo)
    (savedSignaturePosition savedDataPosition : Int) : ReadCursor :=
  if ((ti.isPrimitive || ti.isString) &&
        decide ((c.m_dataPosition + (ti.alignment : Int)) % 4294967296 > c.m_data.length))
      || decide (c.m_dataPosition > c.m_data.length) then
    outNeedMoreData c savedSignaturePosition savedDataPosition
  else if ti.isPrimitive then readPrimitiveCase c ti.alignment
  else if ti.isString then readStringCase c ti.alignment savedSignaturePosition savedDataPosition
  else advanceStateAggregate c savedSignaturePosition savedDataPosition

/-- The part of `advanceState` from the call of `getTypeInfo` on. -/
def advanceStateType (c : ReadCursor) (savedSignaturePosition savedDataPosition : Int) :
    ReadCursor :=
  let ti := getTypeInfo (c.m_signature.get c.m_signaturePosition.toNat)
  let c1 := { c with m_state := ti.state }
  if c1.m_state == .InvalidData then c1
  -- in a zero-length array only the types are iterated, no data is read
  else if c1.m_zeroLengthArrayNesting != 0 && (ti.isPrimitive || ti.isString) then c1
  else
    advanceStateData { c1 with m_dataPosition := align (u32 c1.m_dataPosition) ti.alignment } ti
      savedSignaturePosition savedDataPosition

/-- `ReadCursor::advanceState()`. -/
def advanceState (c : ReadCursor) : ReadCursor :=
  if c.m_state == .InvalidData then c -- nonrecoverable...
  else
    let savedSignaturePosition := c.m_signaturePosition
    let savedDataPosition := c.m_dataPosition
    let c := { c with m_signaturePosition := c.m_signaturePosition + 1 }
    match c.m_aggregateStack with
    | [] =>
      if c.m_signaturePosition >= c.m_signature.length then { c with m_state := .Finished }
      else advanceStateType c savedSignaturePosition savedDataPosition
    | .struct :: _ => advanceStateType c savedSignaturePosition savedDataPosition
    | .variant prevSignature prevSignaturePosition :: rest =>
      if c.m_signaturePosition >= c.m_signature.length then
        { c with m_state := .EndVariant,
                 m_nesting := c.m_nesting.endVariant,
                 m_signature := prevSignature,
                 m_signaturePosition := prevSignaturePosition + 1,
                 m_aggregateStack := rest }
      else advanceStateType c savedSignaturePosition savedDataPosition
    | .array isDict dataEnd containedTypeBegin :: _ =>
      let isEndOfEntry :=
        if isDict then c.m_signature.get c.m_signaturePosition.toNat == ch '}'
        else decide (c.m_signaturePosition > containedTypeBegin + 1)
      if isEndOfEntry then
        { c with m_state := if isDict then .NextDictEntry else .NextArrayEntry }
      else if c.m_dataPosition >= dataEnd then { c with m_state := .InvalidData }
      else advanceStateType c savedSignaturePosition savedDataPosition

/-- The constructor `ReadCursor::ReadCursor(al)`. -/
def create (al : Option ArgumentList) : ReadCursor :=
  let c : ReadCursor :=
    { m_argList := al, m_state := .NotStarted, m_nesting := Nesting.init,
      m_signature := cstring.null, m_data := array.null,
      m_signaturePosition := -1, m_dataPosition := 0, m_zeroLengthArrayNesting := 0,
      m_aggregateStack := [], m_value := .unset }
  match al with
  | some a =>
    let c := { c with m_signature := a.m_signature, m_data := a.m_data }
    let c := if !isSignatureValid c.m_signature .FullSignature then
      { c with m_state := .InvalidData } else c
    advanceState c
  | none => { c with m_state := .InvalidData }

/-- Modelled from the spec: `isValid()` of the header, not among the sources ("the source uses a
pointer-null sentinel to mean invalid cursor"): the cursor holds an `ArgumentList`. -/
def isValid (c : ReadCursor) : Bool := c.m_argList.isSome

/-- `ReadCursor::replaceData(data)`. -/
def replaceData (c : ReadCursor) (data : array) : ReadCursor := { c with m_data := data }

end ReadCursor

/-- Modelled from the spec: the constant `maxSignatureLength` of the header, which is not among
the sources ("max signature length 255"). -/
def maxSignatureLength : Nat := 255

/-- Modelled from the spec: the member `size` of an `ElementInfo` of the header, which is not
among the sources ("`size` is either a byte count to copy from a scratch buffer or one of three
sentinels"); `bytes n` stands for a size that is at most `ElementInfo::LargestSize`. -/
inductive ElementSize where
  | bytes (n : Nat)
  | ArrayLengthField
  | ArrayLengthEndMark
  | VariantSignature
deriving DecidableEq, Repr

/-- Modelled from the spec: `ElementInfo` of the header ("an append-only log of tuples
`(alignment, size)`"). -/
structure ElementInfo where
  alignment : Nat
  size : ElementSize
deriving DecidableEq, Repr

/-- Modelled from the spec: the frames of `m_aggregateStack` of the writer, whose struct
`AggregateInfo` is in the header, not among the sources ("for Array/Dict: `containedTypeBegin`
... For the Writer, additionally `dataBegin`"; "for Variant: saved outer signature (begin +
length + position) and, in the Writer, an index into the pending variant-signature table").
A struct frame holds the `sct.containedTypeBegin` that the source assigns.
`arrContainedTypeBegin` of a variant frame stands for what `aggregateInfo.arr.containedTypeBegin`
yields on a variant frame: the source reads it in its check of the next type but assigns only
the members `var` of the uninitialised local it pushes, so the value is indeterminate. -/
inductive WriteAggregateInfo where
  | struct (containedTypeBegin : Int)
  | variant (prevSignature : cstring) (prevSignaturePosition : Int) (signatureIndex : Nat)
      (arrContainedTypeBegin : Int)
  | array (isDict : Bool) (dataBegin : Int) (containedTypeBegin : Int)
deriving DecidableEq, Repr

/-- The member `aggregateType` of a frame of the writer. -/
def WriteAggregateInfo.aggregateType : WriteAggregateInfo → CursorState
  | .struct _ => .BeginStruct
  | .variant _ _ _ _ => .BeginVariant
  | .array isDict _ _ => if isDict then .BeginDict else .BeginArray

/-- The data members of `ArgumentList::WriteCursor`; `m_aggregateStack` has its `back()`
first, `m_elements` and `m_variantSignatures` have their element 0 first, and `m_value` stands
for the value members `m_Byte`, ..., `m_String`, of which the one last assigned is kept. -/
structure WriteCursor where
  m_argList : Option ArgumentList
  m_state : CursorState
  m_nesting : Nesting
  m_signature : cstring
  m_signaturePosition : Int
  m_data : array
  m_dataPosition : Int
  m_zeroLengthArrayNesting : Int
  m_elements : List ElementInfo
  m_variantSignatures : List cstring
  m_aggregateStack : List WriteAggregateInfo
  m_value : Value
deriving DecidableEq, Repr

namespace WriteCursor

/-- The constructor `WriteCursor::WriteCursor(al)`; the two `malloc`ed buffers are taken to be
zero filled, the vectors start empty. -/
def create (al : Option ArgumentList) : WriteCursor :=
  { m_argList := al, m_state := .AnyData, m_nesting := Nesting.init,
    m_signature := ⟨some (List.replicate (maxSignatureLength + 1) 0), 0⟩,
    m_signaturePosition := 0,
    m_data := ⟨some (List.replicate 16384 0), 0⟩,
    m_dataPosition := 0, m_zeroLengthArrayNesting := 0,
    m_elements := [], m_variantSignatures := [], m_aggregateStack := [], m_value := .unset }

/-- Modelled from the spec: `isValid()` of the header, as for the reader. -/
def isValid (c : WriteCursor) : Bool := c.m_argList.isSome

/-- The bytes `bs` stored at `buffer + pos`, as `memcpy` and the loops of `finish` do.  Bytes
that would fall behind the end of the buffer are not kept: the source stores them past the
block without a check, so `store` is the source's store only where the bytes fit the block. -/
def store : List byte → Nat → List byte → List byte
  | [], _, _ => []
  | b :: buffer, 0, [] => b :: buffer
  | _ :: buffer, 0, x :: bs => x :: store buffer 0 bs
  | b :: buffer, pos + 1, bs => b :: store buffer pos bs

/-- The `n` bytes at `p`, zero where the memory behind `p` is not modelled. -/
def load (p : Option (List byte)) (n : Nat) : List byte :=
  (List.range n).map (fun i => (p.getD []).getD i 0)

/-- Modelled from the spec: `basic::writeUint32` of `basictypeio.h`, which is not among the
sources: the four bytes of a `uint32`, least significant byte first. -/
def writeUint32 (v : Nat) : List byte :=
  [v % 256, v / 256 % 256, v / 65536 % 256, v / 16777216 % 256]

/-- The struct `ArrayLengthField` of `finish`. -/
structure ArrayLengthField where
  lengthFieldPosition : Nat
  dataStartPosition : Nat
deriving DecidableEq, Repr

/-- The locals of `finish` that its loop changes, with `m_dataPosition`. -/
structure FinishState where
  buffer : List byte
  bufferPos : Int
  dataPosition : Int
  variantSignatureIndex : Nat
  lengthFieldStack : List ArrayLengthField
deriving DecidableEq, Repr

/-- The loop `for (int i = 0; i < count; i++)` of `finish` over the elements from `i` on.  The
result is `none` where the source reads behind the end of a vector (`m_elements[i + 1]`,
`lengthFieldStack.back()`, `m_variantSignatures[variantSignatureIndex++]`) or copies from a null
pointer. -/
def finishLoop (data : array) (variantSignatures : List cstring) :
    List ElementInfo → FinishState → Option FinishState
  | [], s => some s
  | ei :: rest, s =>
    match ei.size with
    | .bytes size =>
      let padStart := s.bufferPos
      let bufferPos := align (u32 s.bufferPos) ei.alignment
      let buffer := store s.buffer padStart.toNat (List.replicate (bufferPos - padStart).toNat 0)
      let dataPosition := align (u32 s.dataPosition) ei.alignment
      let buffer := store buffer bufferPos.toNat (load (data.ptr dataPosition.toNat) size)
      finishLoop data variantSignatures rest
        { s with buffer := buffer, bufferPos := bufferPos + size,
                 dataPosition := dataPosition + size }
    | .ArrayLengthField =>
      match rest with
      | [] => none
      | next :: _ =>
        let bufferPos := align (u32 s.bufferPos) 4
        let lengthFieldPosition := u32 bufferPos
        let bufferPos := bufferPos + 4
        -- array data starts aligned to the first array element
        let bufferPos := align (u32 bufferPos) next.alignment
        let al : ArrayLengthField := ⟨lengthFieldPosition, u32 bufferPos⟩
        finishLoop data variantSignatures rest
          { s with bufferPos := bufferPos, lengthFieldStack := al :: s.lengthFieldStack }
    | .ArrayLengthEndMark =>
      match s.lengthFieldStack with
      | [] => none
      | al :: stack =>
        let buffer := store s.buffer al.lengthFieldPosition
          (writeUint32 (u32 (s.bufferPos - al.dataStartPosition)))
        finishLoop data variantSignatures rest
          { s with buffer := buffer, lengthFieldStack := stack }
    | .VariantSignature =>
      match variantSignatures.get? s.variantSignatureIndex with
      | none => none
      | some signature =>
        match signature.begin with
        | none => none
        | some _ =>
          let bufferPos := align (u32 s.bufferPos) ei.alignment
          let dataPosition := align (u32 s.dataPosition) ei.alignment
          let buffer := store s.buffer bufferPos.toNat
            (load signature.begin (signature.length + 1).toNat)
          finishLoop data variantSignatures rest
            { s with buffer := buffer, bufferPos := bufferPos + (signature.length + 1),
                     dataPosition := dataPosition,
                     variantSignatureIndex := s.variantSignatureIndex + 1 }

/-- `WriteCursor::finish()`: the cursor and its `ArgumentList` after the call; the `malloc`ed
buffer is taken to be zero filled.  The result is `none` where `finishLoop` gives `none` and for
a cursor without `ArgumentList`, whose null `m_argList` the source dereferences. -/
def finish (c : WriteCursor) : Option (WriteCursor × ArgumentList) :=
  match c.m_argList with
  | none => none
  | some al =>
    let signature : cstring :=
      ⟨c.m_signature.begin.map (fun m => m.set c.m_signaturePosition.toNat 0),
        c.m_signaturePosition⟩
    match finishLoop c.m_data c.m_variantSignatures c.m_elements
        ⟨List.replicate 16384 0, 0, 0, 0, []⟩ with
    | none => none
    | some s =>
      let al1 := { al with m_signature := signature, m_data := ⟨some s.buffer, s.bufferPos⟩ }
      some ({ c with m_argList := some al1, m_signature := signature,
                     m_dataPosition := s.dataPosition, m_elements := [],
                     m_variantSignatures := [] }, al1)

end WriteCursor

namespace ArgumentList

/-- `ArgumentList::beginRead()`: the cursor returned and the `ArgumentList` after the call. -/
def beginRead (self : ArgumentList) : ReadCursor × ArgumentList :=
  if !self.m_hasWriteCursor then
    let self1 := { self with m_readCursorCount := self.m_readCursorCount + 1 }
    (ReadCursor.create (some self1), self1)
  else (ReadCursor.create none, self)

/-- `ArgumentList::beginWrite()`: the cursor returned and the `ArgumentList` after the call. -/
def beginWrite (self : ArgumentList) : WriteCursor × ArgumentList :=
  if self.m_readCursorCount == 0 && !self.m_hasWriteCursor then
    let self1 := { self with m_hasWriteCursor := true }
    (WriteCursor.create (some self1), self1)
  else (WriteCursor.create none, self)

/-- `n` calls of `beginRead` in a row: the cursors returned, first call first, and the
`ArgumentList` after them. -/
def beginReads : Nat → ArgumentList → List ReadCursor × ArgumentList
  | 0, self => ([], self)
  | n + 1, self =>
    let r := self.beginRead
    let rs := beginReads n r.2
    (r.1 :: rs.1, rs.2)

end ArgumentList

namespace ReadCursor

/-- `ReadCursor::advanceStateFrom(expectedState)`. -/
def advanceStateFrom (c : ReadCursor) (expectedState : CursorState) : ReadCursor :=
  if c.m_state == expectedState then advanceState c else { c with m_state := .InvalidData }

/-- The block of `beginArrayOrDict` that skips an empty array whose emptiness the caller does
not ask for (`m_zeroLengthArrayNesting` not zero and `isEmpty` null): the element type is parsed
again to find its end.  The parser gets more fuel than `temp` holds bytes, so the branch `none`
is never taken. -/
def skipEmptyArray (c : ReadCursor) (isDict : Bool) : ReadCursor :=
  let temp : cstring :=
    ⟨c.m_signature.begin.map (List.drop c.m_signaturePosition.toNat),
      c.m_signature.length - c.m_signaturePosition⟩
  -- fix up nesting before and after we re-parse the beginning of the array signature
  let c1 := if isDict then
      { c with m_nesting := c.m_nesting.endParen, m_signaturePosition := c.m_signaturePosition - 1 }
    else c
  let c2 := { c1 with m_nesting := c1.m_nesting.endArray }
  match parseSingleCompleteType (temp.size + 1) temp c2.m_nesting with
  | none => { c2 with m_state := .InvalidData }
  | some (false, _, nest) => { c2 with m_nesting := nest, m_state := .InvalidData }
  | some (true, temp1, nest) =>
    let c3 := { c2 with m_nesting := nest.beginArray.2 }
    let c4 := if isDict then { c3 with m_nesting := c3.m_nesting.beginParen.2 } else c3
    { c4 with m_signaturePosition := c4.m_signature.length - temp1.length - 1,
              m_state := if isDict then .NextDictEntry else .NextArrayEntry }

/-- `ReadCursor::beginArrayOrDict(isDict, isEmpty)`: the cursor after the call and what is
stored in `*isEmpty`; `hasIsEmpty` says that the pointer `isEmpty` is not null. -/
def beginArrayOrDict (c : ReadCursor) (isDict : Bool) (hasIsEmpty : Bool) :
    ReadCursor × Option Bool :=
  let isEmpty := if hasIsEmpty then some (c.m_zeroLengthArrayNesting != 0) else none
  if c.m_zeroLengthArrayNesting != 0 && !hasIsEmpty then (skipEmptyArray c isDict, isEmpty)
  else ({ c with m_state := if isDict then .NextDictEntry else .NextArrayEntry }, isEmpty)

/-- `ReadCursor::beginArray(isEmpty)`. -/
def beginArray (c : ReadCursor) (hasIsEmpty : Bool) : ReadCursor × Option Bool :=
  if c.m_state == .BeginArray then beginArrayOrDict c false hasIsEmpty
  else ({ c with m_state := .InvalidData }, none)

/-- The end of `nextArrayOrDictEntry`, behind the comment "no more iterations". -/
def closeArrayOrDict (c : ReadCursor) (isDict : Bool) : Bool × ReadCursor :=
  let c1 := { c with m_state := if isDict then .EndDict else .EndArray,
                     m_signaturePosition := c.m_signaturePosition - 1 }
  let c2 := if isDict then
      { c1 with m_nesting := c1.m_nesting.endParen,
                m_signaturePosition := c1.m_signaturePosition + 1 }
    else c1
  (false, { c2 with m_nesting := c2.m_nesting.endArray,
                    m_aggregateStack := c2.m_aggregateStack.tail })

/-- `ReadCursor::nextArrayOrDictEntry(isDict)`: the returned flag and the cursor after the
call.  The source asserts that the innermost frame is an array or dict frame and reads its
member `arr`; for any other stack the cursor is left as it is and `false` is returned. -/
def nextArrayOrDictEntry (c : ReadCursor) (isDict : Bool) : Bool × ReadCursor :=
  match c.m_aggregateStack with
  | .array _ dataEnd containedTypeBegin :: _ =>
    if c.m_zeroLengthArrayNesting != 0 then
      if c.m_signaturePosition <= containedTypeBegin then
        -- do one iteration to read the types
        (true, c)
      else
        -- second iteration or skipping an empty array
        closeArrayOrDict
          { c with m_zeroLengthArrayNesting := c.m_zeroLengthArrayNesting - 1 } isDict
    else if c.m_dataPosition < dataEnd then
      -- rewind to start of contained type and read the data there
      let c1 := advanceState { c with m_signaturePosition := containedTypeBegin }
      (c1.m_state != .InvalidData, c1)
    else closeArrayOrDict c isDict
  | _ => (false, c)

/-- `ReadCursor::nextArrayEntry()`. -/
def nextArrayEntry (c : ReadCursor) : Bool × ReadCursor :=
  if c.m_state == .NextArrayEntry then nextArrayOrDictEntry c false
  else (false, { c with m_state := .InvalidData })

/-- `ReadCursor::endArray()`. -/
def endArray (c : ReadCursor) : ReadCursor := advanceStateFrom c .EndArray

/-- `ReadCursor::beginDict(isEmpty)` (declared `bool`, returns no value). -/
def beginDict (c : ReadCursor) (hasIsEmpty : Bool) : ReadCursor × Option Bool :=
  if c.m_state == .BeginDict then beginArrayOrDict c true hasIsEmpty
  else ({ c with m_state := .InvalidData }, none)

/-- `ReadCursor::nextDictEntry()`. -/
def nextDictEntry (c : ReadCursor) : Bool × ReadCursor :=
  if c.m_state == .NextDictEntry then nextArrayOrDictEntry c true
  else (false, { c with m_state := .InvalidData })

/-- `ReadCursor::endDict()` (declared `bool`, returns no value). -/
def endDict (c : ReadCursor) : ReadCursor := advanceStateFrom c .EndDict

/-- `ReadCursor::beginStruct()` (declared `bool`, returns no value). -/
def beginStruct (c : ReadCursor) : ReadCursor := advanceStateFrom c .BeginStruct

/-- `ReadCursor::endStruct()` (declared `bool`, returns no value). -/
def endStruct (c : ReadCursor) : ReadCursor := advanceStateFrom c .EndStruct

/-- `ReadCursor::beginVariant()` (declared `bool`, returns no value). -/
def beginVariant (c : ReadCursor) : ReadCursor := advanceStateFrom c .BeginVariant

/-- `ReadCursor::endVariant()` (declared `bool`, returns no value). -/
def endVariant (c : ReadCursor) : ReadCursor := advanceStateFrom c .EndVariant

/-- Modelled from the spec: the scalar readers `readByte()`, ..., `readUnixFd()` of the header,
which is not among the sources ("call the corresponding `readX()` which returns the decoded
value and advances to the next state"). -/
def readScalar (c : ReadCursor) : Value × ReadCursor := (c.m_value, advanceState c)

end ReadCursor

/-- A call a client can make on a `ReadCursor`: `advanceState`, one of the ten begin, next and
end transitions, or `replaceData`. -/
inductive ReaderCall where
  | advanceState
  | beginArray (hasIsEmpty : Bool)
  | nextArrayEntry
  | endArray
  | beginDict (hasIsEmpty : Bool)
  | nextDictEntry
  | endDict
  | beginStruct
  | endStruct
  | beginVariant
  | endVariant
  | replaceData (data : array)
deriving DecidableEq, Repr

/-- The cursor after a call. -/
def ReadCursor.call (c : ReadCursor) : ReaderCall → ReadCursor
  | .advanceState => c.advanceState
  | .beginArray h => (c.beginArray h).1
  | .nextArrayEntry => c.nextArrayEntry.2
  | .endArray => c.endArray
  | .beginDict h => (c.beginDict h).1
  | .nextDictEntry => c.nextDictEntry.2
  | .endDict => c.endDict
  | .beginStruct => c.beginStruct
  | .endStruct => c.endStruct
  | .beginVariant => c.beginVariant
  | .endVariant => c.endVariant
  | .replaceData data => c.replaceData data

/-- The state a begin, next or end transition requires; `none` for `advanceState` and
`replaceData`, which require none. -/
def ReaderCall.required : ReaderCall → Option CursorState
  | .advanceState => none
  | .beginArray _ => some .BeginArray
  | .nextArrayEntry => some .NextArrayEntry
  | .endArray => some .EndArray
  | .beginDict _ => some .BeginDict
  | .nextDictEntry => some .NextDictEntry
  | .endDict => some .EndDict
  | .beginStruct => some .BeginStruct
  | .endStruct => some .EndStruct
  | .beginVariant => some .BeginVariant
  | .endVariant => some .EndVariant
  | .replaceData _ => none

/-- The cursor `c` differs from `c0` at most in `m_state`, `m_signaturePosition` and
`m_dataPosition`, the three members that the code at `out_needMoreData` assigns. -/
def ReadCursor.Restorable (c0 c : ReadCursor) : Prop :=
  c.m_argList = c0.m_argList ∧ c.m_nesting = c0.m_nesting ∧ c.m_signature = c0.m_signature ∧
  c.m_data = c0.m_data ∧ c.m_zeroLengthArrayNesting = c0.m_zeroLengthArrayNesting ∧
  c.m_aggregateStack = c0.m_aggregateStack ∧ c.m_value = c0.m_value

/-- The checks of `advanceState` ahead of its call of `getTypeInfo` all pass: the cursor is not
in state `InvalidData`, and the step ends neither the argument list nor a variant nor an array
or dict entry, and in an array or dict the data position is before `dataEnd`.  The call then
goes on to the type at `m_signaturePosition + 1`. -/
def ReadCursor.reachesType (c : ReadCursor) : Bool :=
  c.m_state != .InvalidData &&
  match c.m_aggregateStack with
  | [] => decide (c.m_signaturePosition + 1 < c.m_signature.length)
  | .struct :: _ => true
  | .variant _ _ :: _ => decide (c.m_signaturePosition + 1 < c.m_signature.length)
  | .array isDict dataEnd containedTypeBegin :: _ =>
    !(if isDict then c.m_signature.get (c.m_signaturePosition + 1).toNat == ch '}'
      else decide (c.m_signaturePosition + 1 > containedTypeBegin + 1)) &&
    decide (c.m_dataPosition < dataEnd)

/-! ## Argument lists used as examples -/

/-- The argument list with signature `(i)` and data `05 00 00 00`: a struct of one `int32`. -/
def structOfInt : ArgumentList := ArgumentList.of (lit "(i)") ⟨some [5, 0, 0, 0], 4⟩ false

/-- The argument list `structOfInt` with none of its data yet. -/
def structOfIntNoData : ArgumentList := ArgumentList.of (lit "(i)") ⟨some [], 0⟩ false

/-- The argument list with signature `s` and data `01 00 00 00 'a' 00`: the string `a`. -/
def stringA : ArgumentList := ArgumentList.of (lit "s") ⟨some [1, 0, 0, 0, 97, 0], 6⟩ false

/-- The argument list with signature `o` and data `01 00 00 00 '/' 00`: the object path `/`. -/
def objectPathRoot : ArgumentList := ArgumentList.of (lit "o") ⟨some [1, 0, 0, 0, 47, 0], 6⟩ false

/-- The argument list with signature `g` and data `01 'i' 00`: the signature `i`. -/
def signatureI : ArgumentList := ArgumentList.of (lit "g") ⟨some [1, 105, 0], 3⟩ false

/-- The argument list with signature `s` and data `01 00 00 00 'a' 'b' 00`: the length field
says 1, two characters follow. -/
def stringMalformed : ArgumentList :=
  ArgumentList.of (lit "s") ⟨some [1, 0, 0, 0, 97, 98, 0], 7⟩ false

/-- The argument list with signature `vi`: a variant with inline signature `(ygd)` holding the
byte 7, the signature `i` and the double with all bytes zero, and behind it the `int32` 9. -/
def variantThenInt : ArgumentList :=
  ArgumentList.of (lit "vi")
    ⟨some [5, 40, 121, 103, 100, 41, 0, 0,
           7, 1, 105, 0, 0, 0, 0, 0,
           0, 0, 0, 0, 0, 0, 0, 0,
           9, 0, 0, 0], 28⟩ false

/-- The argument list with signature `v`: a variant with inline signature `i` holding 5. -/
def variantOfInt : ArgumentList :=
  ArgumentList.of (lit "v") ⟨some [1, 105, 0, 0, 5, 0, 0, 0], 8⟩ false

/-- The argument list with signature `ai` and data `00 00 00 00`: an empty array of `int32`. -/
def emptyIntArray : ArgumentList := ArgumentList.of (lit "ai") ⟨some [0, 0, 0, 0], 4⟩ false

/-- The argument list with signature `ai` and the array of the two `int32` 1 and 2. -/
def twoIntArray : ArgumentList :=
  ArgumentList.of (lit "ai") ⟨some [8, 0, 0, 0, 1, 0, 0, 0, 2, 0, 0, 0], 12⟩ false

/-! ## The writer's state machine -/

/-- The value member `m_Byte`; a member other than the one last assigned reads as 0. -/
def Value.byteOf : Value → byte
  | .Byte v => v
  | _ => 0

/-- The value member `m_Boolean`. -/
def Value.boolOf : Value → Bool
  | .Boolean v => v
  | _ => false

/-- The signed value members `m_Int16`, `m_Int32`, `m_Int64`. -/
def Value.intOf : Value → Int
  | .Int16 v => v
  | .Int32 v => v
  | .Int64 v => v
  | _ => 0

/-- The unsigned value members `m_Uint16`, `m_Uint32`, `m_Uint64` and the bits of
`m_Double`. -/
def Value.natOf : Value → Nat
  | .Uint16 v => v
  | .Uint32 v => v
  | .Uint64 v => v
  | .Double bits => bits
  | _ => 0

/-- The value member `m_String`. -/
def Value.stringOf : Value → cstring
  | .String v => v
  | _ => cstring.null

/-- Modelled from the spec: the writers of `basictypeio.h`, which is not among the sources:
the `n` bytes of an unsigned value, least significant byte first. -/
def writeUnsigned (n : Nat) (v : Nat) : List byte :=
  (List.range n).map (fun i => v / 256 ^ i % 256)

/-- Modelled from the spec: the signed writers of `basictypeio.h`, two's complement. -/
def writeSigned (n : Nat) (v : Int) : List byte :=
  writeUnsigned n (v % 2 ^ (8 * n)).toNat

/-- Modelled from the spec: the constant `ElementInfo::LargestSize` of the header, which is not
among the sources ("chunks of `(1, ≤LargestSize)` for the bytes (chunked because ElementInfo's
size field is small)"); the spec gives no value, 60 is taken. -/
def ElementInfo.LargestSize : Nat := 60

/-- The bytes `bs` stored at `a.begin + pos`. -/
def array.store (a : array) (pos : Int) (bs : List byte) : array :=
  { a with begin := a.begin.map (fun m => WriteCursor.store m pos.toNat bs) }

namespace WriteCursor

/-- The statement `m_state = InvalidData; return;` of the macro `VALID_IF`. -/
def invalid (c : WriteCursor) : WriteCursor := { c with m_state := .InvalidData }

/-- The bytes that `doWritePrimitiveType` stores for the state of the cursor; `none` in the
`default` case.  The `index` of the case `UnixFd` is an uninitialised local and taken to
be 0. -/
def primitiveBytes (c : WriteCursor) : Option (List byte) :=
  match c.m_state with
  | .Byte => some [c.m_value.byteOf]
  | .Boolean => some (writeUint32 (if c.m_value.boolOf then 1 else 0))
  | .Int16 => some (writeSigned 2 c.m_value.intOf)
  | .Uint16 => some (writeUnsigned 2 c.m_value.natOf)
  | .Int32 => some (writeSigned 4 c.m_value.intOf)
  | .Uint32 => some (writeUnsigned 4 c.m_value.natOf)
  | .Int64 => some (writeSigned 8 c.m_value.intOf)
  | .Uint64 => some (writeUnsigned 8 c.m_value.natOf)
  | .Double => some (writeUnsigned 8 c.m_value.natOf)
  | .UnixFd => some (writeUint32 0)
  | _ => none

/-- `WriteCursor::doWritePrimitiveType(alignAndSize)`: the returned state and the cursor after
the call. -/
def doWritePrimitiveType (c : WriteCursor) (alignAndSize : Nat) : CursorState × WriteCursor :=
  match c.primitiveBytes with
  | none => (.InvalidData, c)
  | some bs =>
    (c.m_state,
      { c with m_data := c.m_data.store c.m_dataPosition bs,
               m_dataPosition := (c.m_dataPosition + (alignAndSize : Int)) % 4294967296,
               m_elements := c.m_elements ++ [⟨alignAndSize, .bytes alignAndSize⟩] })

/-- The loop `for (uint32 l = m_String.length; l; )` of `doWriteString`: the chunks pushed for
`l` bytes; `fuel` bounds the number of rounds and `l` rounds are enough. -/
def stringChunks : Nat → Nat → List ElementInfo
  | 0, _ => []
  | fuel + 1, l =>
    if l = 0 then []
    else
      let chunkSize := min l ElementInfo.LargestSize
      ⟨1, .bytes chunkSize⟩ :: stringChunks fuel (l - chunkSize)

/-- `WriteCursor::doWriteString(lengthPrefixSize)`: the returned state and the cursor after
the call. -/
def doWriteString (c : WriteCursor) (lengthPrefixSize : Nat) : CursorState × WriteCursor :=
  let str := c.m_value.stringOf
  let isValidString :=
    if c.m_state == .String then isStringValid str
    else if c.m_state == .ObjectPath then isObjectPathValid str
    else if c.m_state == .Signature then isSignatureValid str .FullSignature
    else false
  if !isValidString then (.InvalidData, c)
  else
    let lengthBytes :=
      if lengthPrefixSize == 1 then [(u32 str.length) % 256] else writeUint32 (u32 str.length)
    let c1 := { c with m_data := c.m_data.store c.m_dataPosition lengthBytes,
                       m_dataPosition := c.m_dataPosition + (lengthPrefixSize : Int) }
    let c2 := { c1 with m_data := c1.m_data.store c1.m_dataPosition (load str.begin str.length.toNat),
                        m_dataPosition := c1.m_dataPosition + str.length }
    (c2.m_state,
      { c2 with m_elements := c2.m_elements ++ [⟨lengthPrefixSize, .bytes lengthPrefixSize⟩]
                  ++ stringChunks (u32 str.length) (u32 str.length) })

end WriteCursor

namespace WriteCursor

/-- The checks of the aggregate rules in the branch `isWritingSignature` of `advanceState`:
false where a `VALID_IF` of the switch over the innermost frame fails. -/
def aggregateRulesOk (c : WriteCursor) (isPrimitiveType isStringType : Bool) : Bool :=
  match c.m_aggregateStack with
  | .variant _ _ _ containedTypeBegin :: _ =>
    -- arrays and variants may contain just one single complete type
    if c.m_signaturePosition > containedTypeBegin + 1 then c.m_state == .EndVariant else true
  | .array false _ containedTypeBegin :: _ =>
    if c.m_signaturePosition > containedTypeBegin + 1 then c.m_state == .EndArray else true
  | .array true _ containedTypeBegin :: _ =>
    if c.m_signaturePosition == containedTypeBegin && !(isPrimitiveType || isStringType) then
      false
    -- first type has been checked already, second must be present. no third type allowed.
    else if c.m_signaturePosition > containedTypeBegin + 2 then c.m_state == .EndDict
    else true
  | _ => true

/-- The loop `m_signature.begin[m_signaturePosition++] = signatureFragment.begin[i]` that
extends the signature. -/
def extendSignature : List byte → WriteCursor → WriteCursor
  | [], c => c
  | b :: rest, c =>
    extendSignature rest
      { c with m_signature :=
                 { c.m_signature with
                   begin := c.m_signature.begin.map (fun m => m.set c.m_signaturePosition.toNat b) },
               m_signaturePosition := c.m_signaturePosition + 1 }

/-- The loop `VALID_IF(m_signature.begin[m_signaturePosition++] == signatureFragment.begin[i])`
that compares with the signature of the first iteration: the cursor after it and whether every
`VALID_IF` held. -/
def matchSignature : List byte → WriteCursor → Bool × WriteCursor
  | [], c => (true, c)
  | b :: rest, c =>
    let c1 := { c with m_signaturePosition := c.m_signaturePosition + 1 }
    if c.m_signature.get c.m_signaturePosition.toNat == b then matchSignature rest c1
    else (false, c1.invalid)

/-- The part of `advanceState` that deals with the signature, from `bool isWritingSignature`
on: the cursor after it and whether every `VALID_IF` held. -/
def advanceStateSignature (c : WriteCursor) (signatureFragment : List byte)
    (isPrimitiveType isStringType : Bool) : Bool × WriteCursor :=
  let isWritingSignature := c.m_signaturePosition == c.m_signature.length
  if isWritingSignature then
    -- signature additions must conform to syntax
    if !decide (c.m_signaturePosition + (signatureFragment.length : Int) ≤ maxSignatureLength)
    then (false, c.invalid)
    else if !c.aggregateRulesOk isPrimitiveType isStringType then (false, c.invalid)
    else
      -- finally, extend the signature
      let c1 := extendSignature signatureFragment c
      (true, { c1 with m_signature :=
                 { c1.m_signature with
                   length := c1.m_signature.length + (signatureFragment.length : Int) } })
  else
    -- signature must match first iteration (of an array/dict)
    if !decide (c.m_signaturePosition + (signatureFragment.length : Int) ≤ c.m_signature.length)
    then (false, c.invalid)
    else matchSignature signatureFragment c

/-- The case `BeginStruct` of the switch over aggregates in `advanceState`, with the closing
`m_state = AnyData`. -/
def beginStructCase (c : WriteCursor) : WriteCursor :=
  let n := c.m_nesting.beginParen
  if !n.1 then { c with m_nesting := n.2, m_state := .InvalidData }
  else
    { c with m_nesting := n.2,
             m_aggregateStack := .struct c.m_signaturePosition :: c.m_aggregateStack,
             m_elements := c.m_elements ++ [⟨8, .bytes 0⟩], -- align only
             m_state := .AnyData }

/-- The case `EndStruct`. -/
def endStructCase (c : WriteCursor) : WriteCursor :=
  let c1 := { c with m_nesting := c.m_nesting.endParen }
  match c1.m_aggregateStack with
  | .struct containedTypeBegin :: rest =>
    -- no empty structs
    if c1.m_signaturePosition > containedTypeBegin + 1 then
      { c1 with m_aggregateStack := rest, m_state := .AnyData }
    else c1.invalid
  | _ => c1.invalid

/-- The case `BeginVariant`; `indeterminate` is the value that the member
`arr.containedTypeBegin` of the frame pushed will be read with. -/
def beginVariantCase (c : WriteCursor) (indeterminate : Int) : WriteCursor :=
  let n := c.m_nesting.beginVariant
  if !n.1 then { c with m_nesting := n.2, m_state := .InvalidData }
  else
    let str : cstring := ⟨some (List.replicate (maxSignatureLength + 1) 0), 0⟩
    { c with m_nesting := n.2,
             m_aggregateStack :=
               (.variant c.m_signature c.m_signaturePosition c.m_variantSignatures.length
                 indeterminate) :: c.m_aggregateStack,
             -- arrange for finish() to take a signature from m_variantSignatures
             m_elements := c.m_elements ++ [⟨1, .VariantSignature⟩],
             m_variantSignatures := c.m_variantSignatures ++ [str],
             m_signature := str,
             m_signaturePosition := 0,
             m_state := .AnyData }

/-- The case `EndVariant`.  The entry of `m_variantSignatures` points to the buffer that
`m_signature` points to; the model copies the bytes of the buffer into the entry here, where
the source assigns the length of the entry. -/
def endVariantCase (c : WriteCursor) : WriteCursor :=
  let c1 := { c with m_nesting := c.m_nesting.endVariant }
  match c1.m_aggregateStack with
  | .variant prevSignature prevSignaturePosition signatureIndex _ :: rest =>
    let buffer := c1.m_signature.begin.map (fun m => m.set c1.m_signaturePosition.toNat 0)
    { c1 with m_variantSignatures :=
                c1.m_variantSignatures.set signatureIndex ⟨buffer, c1.m_signaturePosition + 1⟩,
              m_signature := prevSignature,
              m_signaturePosition := prevSignaturePosition,
              m_aggregateStack := rest,
              m_state := .AnyData }
  | _ => c1.invalid

/-- The cases `BeginDict` and `BeginArray`. -/
def beginArrayCase (c : WriteCursor) : WriteCursor :=
  let n := c.m_nesting.beginVariant
  let c1 := { c with m_nesting := n.2 }
  if !n.1 then c1.invalid
  else if c1.m_state == .BeginDict && !c1.m_nesting.beginParen.1 then
    { c1 with m_nesting := c1.m_nesting.beginParen.2, m_state := .InvalidData }
  else
    let c2 : WriteCursor := if c1.m_state == .BeginDict then
        { c1 with m_nesting := c1.m_nesting.beginParen.2 } else c1
    let frame : WriteAggregateInfo :=
      .array (c2.m_state == .BeginDict) c2.m_dataPosition c2.m_signaturePosition
    let c3 : WriteCursor :=
      { c2 with m_aggregateStack := frame :: c2.m_aggregateStack,
                m_elements := c2.m_elements ++ [⟨4, .ArrayLengthField⟩] }
    if c3.m_state == .BeginDict then
      { c3 with m_elements := c3.m_elements ++ [⟨8, .bytes 0⟩], -- align only
                m_state := .DictKey }
    else { c3 with m_state := .AnyData }

/-- The cases `EndDict` and `EndArray`. -/
def endArrayCase (c : WriteCursor) : WriteCursor :=
  let isDict := c.m_state == .BeginDict
  let c1 : WriteCursor := if isDict then { c with m_nesting := c.m_nesting.endParen } else c
  let c2 : WriteCursor := { c1 with m_nesting := c1.m_nesting.endArray }
  match c2.m_aggregateStack with
  | [] => c2.invalid
  | top :: rest =>
    if top.aggregateType == (if isDict then .BeginDict else .BeginArray) then
      { c2 with m_aggregateStack := rest,
                m_zeroLengthArrayNesting :=
                  if c2.m_zeroLengthArrayNesting != 0 then c2.m_zeroLengthArrayNesting - 1
                  else c2.m_zeroLengthArrayNesting,
                m_elements := c2.m_elements ++ [⟨1, .ArrayLengthEndMark⟩],
                m_state := .AnyData }
    else c2.invalid

/-- The switch over aggregates at the end of `advanceState`, with the closing
`m_state = AnyData`. -/
def advanceStateAggregate (c : WriteCursor) (indeterminate : Int) : WriteCursor :=
  match c.m_state with
  | .BeginStruct => beginStructCase c
  | .EndStruct => endStructCase c
  | .BeginVariant => beginVariantCase c indeterminate
  | .EndVariant => endVariantCase c
  | .BeginDict => beginArrayCase c
  | .BeginArray => beginArrayCase c
  | .EndDict => endArrayCase c
  | .EndArray => endArrayCase c
  | _ => { c with m_state := .AnyData }

/-- `WriteCursor::advanceState(signatureFragment, newState)`; `indeterminate` is used by the
case `BeginVariant` only. -/
def advanceState (c : WriteCursor) (signatureFragment : List byte) (newState : CursorState)
    (indeterminate : Int) : WriteCursor :=
  if c.m_state == .InvalidData then c
  else
    let c1 := { c with m_state := newState }
    let ti : TypeInfo :=
      if signatureFragment.length != 0 then getTypeInfo (signatureFragment.headD 0)
      else ⟨.InvalidData, 1, false, false⟩
    let r := advanceStateSignature c1 signatureFragment ti.isPrimitive ti.isString
    if !r.1 then r.2
    else if ti.isPrimitive then
      { (doWritePrimitiveType r.2 ti.alignment).2 with
        m_state := (doWritePrimitiveType r.2 ti.alignment).1 }
    else if ti.isString then
      { (doWriteString r.2 ti.alignment).2 with m_state := (doWriteString r.2 ti.alignment).1 }
    else advanceStateAggregate r.2 indeterminate

end WriteCursor

namespace WriteCursor

/-- `WriteCursor::beginArrayOrDict(isDict, isEmpty)`. -/
def beginArrayOrDict (c : WriteCursor) (isDict isEmpty : Bool) : WriteCursor :=
  -- can't create an array with contents during type-only iteration
  if !(c.m_zeroLengthArrayNesting == 0 || isEmpty) then c.invalid
  else if !isEmpty && !(c.m_zeroLengthArrayNesting == 0) then c.invalid
  else
    let c1 : WriteCursor :=
      if isEmpty then { c with m_zeroLengthArrayNesting := c.m_zeroLengthArrayNesting + 1 }
      else c
    if isDict then advanceState c1 [ch 'a', ch '{'] .BeginDict 0
    else advanceState c1 [ch 'a'] .BeginArray 0

/-- `WriteCursor::beginArray(isEmpty)`. -/
def beginArray (c : WriteCursor) (isEmpty : Bool) : WriteCursor := beginArrayOrDict c false isEmpty

/-- `WriteCursor::nextArrayOrDictEntry(isDict)`. -/
def nextArrayOrDictEntry (c : WriteCursor) (isDict : Bool) : WriteCursor :=
  match c.m_aggregateStack with
  | [] => c.invalid
  | top :: _ =>
    if !(top.aggregateType == (if isDict then .BeginDict else .BeginArray)) then c.invalid
    else
      match top with
      | .array _ _ containedTypeBegin =>
        if c.m_zeroLengthArrayNesting != 0 then
          -- allow one iteration to write the types
          if c.m_signaturePosition == containedTypeBegin then c else c.invalid
        else if c.m_signaturePosition == containedTypeBegin then
          { c with m_signaturePosition := containedTypeBegin }
        else if isDict && !decide (c.m_signaturePosition > containedTypeBegin + 1) then
          -- a dict must have a key and value
          c.invalid
        else { c with m_signaturePosition := containedTypeBegin }
      | _ => c.invalid

/-- `WriteCursor::nextArrayEntry()`. -/
def nextArrayEntry (c : WriteCursor) : WriteCursor := nextArrayOrDictEntry c false

/-- `WriteCursor::endArray()`. -/
def endArray (c : WriteCursor) : WriteCursor := advanceState c [] .EndArray 0

/-- `WriteCursor::beginDict(isEmpty)`. -/
def beginDict (c : WriteCursor) (isEmpty : Bool) : WriteCursor := beginArrayOrDict c true isEmpty

/-- `WriteCursor::nextDictEntry()`. -/
def nextDictEntry (c : WriteCursor) : WriteCursor := nextArrayOrDictEntry c true

/-- `WriteCursor::endDict()`. -/
def endDict (c : WriteCursor) : WriteCursor := advanceState c [ch '}'] .EndDict 0

/-- `WriteCursor::beginStruct()`. -/
def beginStruct (c : WriteCursor) : WriteCursor := advanceState c [ch '('] .BeginStruct 0

/-- `WriteCursor::endStruct()`. -/
def endStruct (c : WriteCursor) : WriteCursor := advanceState c [ch ')'] .EndStruct 0

/-- `WriteCursor::beginVariant()`; `indeterminate` is the value that the member
`arr.containedTypeBegin` of the variant frame pushed will be read with. -/
def beginVariant (c : WriteCursor) (indeterminate : Int) : WriteCursor :=
  advanceState c [ch 'v'] .BeginVariant indeterminate

/-- `WriteCursor::endVariant()`. -/
def endVariant (c : WriteCursor) : WriteCursor := advanceState c [] .EndVariant 0

/-- `WriteCursor::writeByte(b)`. -/
def writeByte (c : WriteCursor) (b : byte) : WriteCursor :=
  advanceState { c with m_value := .Byte b } [ch 'y'] .Byte 0

/-- `WriteCursor::writeBoolean(b)`. -/
def writeBoolean (c : WriteCursor) (b : Bool) : WriteCursor :=
  advanceState { c with m_value := .Boolean b } [ch 'b'] .Boolean 0

/-- `WriteCursor::writeInt16(i)`. -/
def writeInt16 (c : WriteCursor) (i : Int) : WriteCursor :=
  advanceState { c with m_value := .Int16 i } [ch 'n'] .Int16 0

/-- `WriteCursor::writeUint16(i)`. -/
def writeUint16 (c : WriteCursor) (i : Nat) : WriteCursor :=
  advanceState { c with m_value := .Uint16 i } [ch 'q'] .Uint16 0

/-- `WriteCursor::writeInt32(i)`. -/
def writeInt32 (c : WriteCursor) (i : Int) : WriteCursor :=
  advanceState { c with m_value := .Int32 i } [ch 'i'] .Int32 0

/-- `WriteCursor::writeUint32(i)`. -/
def writeUint32Value (c : WriteCursor) (i : Nat) : WriteCursor :=
  advanceState { c with m_value := .Uint32 i } [ch 'u'] .Uint32 0

/-- `WriteCursor::writeInt64(i)`. -/
def writeInt64 (c : WriteCursor) (i : Int) : WriteCursor :=
  advanceState { c with m_value := .Int64 i } [ch 'x'] .Int64 0

/-- `WriteCursor::writeUint64(i)`. -/
def writeUint64 (c : WriteCursor) (i : Nat) : WriteCursor :=
  advanceState { c with m_value := .Uint64 i } [ch 't'] .Uint64 0

/-- `WriteCursor::writeDouble(d)`; the double is given by its bits. -/
def writeDouble (c : WriteCursor) (bits : Nat) : WriteCursor :=
  advanceState { c with m_value := .Double bits } [ch 'd'] .Double 0

/-- `WriteCursor::writeString(string)`. -/
def writeString (c : WriteCursor) (string : cstring) : WriteCursor :=
  advanceState { c with m_value := .String string } [ch 's'] .String 0

/-- `WriteCursor::writeObjectPath(objectPath)`. -/
def writeObjectPath (c : WriteCursor) (objectPath : cstring) : WriteCursor :=
  advanceState { c with m_value := .String objectPath } [ch 'o'] .ObjectPath 0

/-- `WriteCursor::writeSignature(signature)`. -/
def writeSignature (c : WriteCursor) (signature : cstring) : WriteCursor :=
  advanceState { c with m_value := .String signature } [ch 'g'] .Signature 0

/-- `WriteCursor::writeUnixFd(fd)`, which assigns `m_Uint32`. -/
def writeUnixFd (c : WriteCursor) (fd : Nat) : WriteCursor :=
  advanceState { c with m_value := .Uint32 fd } [ch 'h'] .UnixFd 0

end WriteCursor

/-! ## The round trip of the test

`doRoundtrip` of `tests/serialization/argumentlist.cpp`: a reader is driven over an argument
list and every event is mirrored into a writer on a fresh `ArgumentList`. -/

/-- `arraysEqual(a1, a2)` of the test. -/
def arraysEqual (a1 a2 : array) : Bool :=
  if a1.length != a2.length then false
  else (List.range a1.length.toNat).all (fun i => a1.get i == a2.get i)

/-- `stringsEqual(s1, s2)` of the test. -/
def stringsEqual (s1 s2 : cstring) : Bool :=
  arraysEqual ⟨s1.begin, s1.length⟩ ⟨s2.begin, s2.length⟩

/-- How the loop of `doRoundtrip` ends: the reader reached `Finished` and `finish` was called
(`copy` is the `ArgumentList` written, `writer` the cursor after `finish`), or a `TEST` in the
loop failed, or the rounds allowed were used up. -/
inductive RoundtripResult where
  | finished (copy : ArgumentList) (writer : WriteCursor)
  | testFailed
  | unfinished
deriving DecidableEq, Repr

/-- The loop `while (!isDone)` of `doRoundtrip`, for at most `fuel` rounds; `indeterminate` is
passed to `WriteCursor::beginVariant`.  A failing `TEST` ends the loop. -/
def doRoundtripLoop : Nat → ReadCursor → WriteCursor → Int → RoundtripResult
  | 0, _, _, _ => .unfinished
  | fuel + 1, reader, writer, u =>
    if writer.m_state == .InvalidData then .testFailed
    else
      match reader.m_state with
      | .Finished =>
        match writer.finish with
        | some (w, copy) => .finished copy w
        | none => .testFailed
      | .NeedMoreData => .testFailed
      | .BeginStruct => doRoundtripLoop fuel reader.beginStruct writer.beginStruct u
      | .EndStruct => doRoundtripLoop fuel reader.endStruct writer.endStruct u
      | .BeginVariant => doRoundtripLoop fuel reader.beginVariant (writer.beginVariant u) u
      | .EndVariant => doRoundtripLoop fuel reader.endVariant writer.endVariant u
      | .BeginArray =>
        doRoundtripLoop fuel (reader.beginArray true).1
          (writer.beginArray ((reader.beginArray true).2.getD false)) u
      | .NextArrayEntry =>
        if reader.nextArrayEntry.1 then
          doRoundtripLoop fuel reader.nextArrayEntry.2 writer.nextArrayEntry u
        else doRoundtripLoop fuel reader.nextArrayEntry.2 writer.endArray u
      | .EndArray => doRoundtripLoop fuel reader.endArray writer u
      | .BeginDict =>
        doRoundtripLoop fuel (reader.beginDict true).1
          (writer.beginDict ((reader.beginDict true).2.getD false)) u
      | .NextDictEntry =>
        if reader.nextDictEntry.1 then
          doRoundtripLoop fuel reader.nextDictEntry.2 writer.nextDictEntry u
        else doRoundtripLoop fuel reader.nextDictEntry.2 writer.endDict u
      | .EndDict => doRoundtripLoop fuel reader.endDict writer u
      | .Byte =>
        doRoundtripLoop fuel reader.readScalar.2 (writer.writeByte reader.readScalar.1.byteOf) u
      | .Boolean =>
        doRoundtripLoop fuel reader.readScalar.2
          (writer.writeBoolean reader.readScalar.1.boolOf) u
      | .Int16 =>
        doRoundtripLoop fuel reader.readScalar.2 (writer.writeInt16 reader.readScalar.1.intOf) u
      | .Uint16 =>
        doRoundtripLoop fuel reader.readScalar.2 (writer.writeUint16 reader.readScalar.1.natOf) u
      | .Int32 =>
        doRoundtripLoop fuel reader.readScalar.2 (writer.writeInt32 reader.readScalar.1.intOf) u
      | .Uint32 =>
        doRoundtripLoop fuel reader.readScalar.2
          (writer.writeUint32Value reader.readScalar.1.natOf) u
      | .Int64 =>
        doRoundtripLoop fuel reader.readScalar.2 (writer.writeInt64 reader.readScalar.1.intOf) u
      | .Uint64 =>
        doRoundtripLoop fuel reader.readScalar.2 (writer.writeUint64 reader.readScalar.1.natOf) u
      | .Double =>
        doRoundtripLoop fuel reader.readScalar.2 (writer.writeDouble reader.readScalar.1.natOf) u
      | .String =>
        doRoundtripLoop fuel reader.readScalar.2
          (writer.writeString reader.readScalar.1.stringOf) u
      | .ObjectPath =>
        doRoundtripLoop fuel reader.readScalar.2
          (writer.writeObjectPath reader.readScalar.1.stringOf) u
      | .Signature =>
        doRoundtripLoop fuel reader.readScalar.2
          (writer.writeSignature reader.readScalar.1.stringOf) u
      | .UnixFd =>
        doRoundtripLoop fuel reader.readScalar.2 (writer.writeUnixFd reader.readScalar.1.natOf) u
      | _ => .testFailed

/-- The loop of `doRoundtrip(arg)` with its reader on `arg` and its writer on the fresh
`ArgumentList copy`. -/
def roundtripCopy (arg : ArgumentList) (fuel : Nat) (indeterminate : Int) : RoundtripResult :=
  doRoundtripLoop fuel arg.beginRead.1 ArgumentList.empty.beginWrite.1 indeterminate

/-- `doRoundtrip(arg)`: whether the loop ends with `finish` and the three closing `TEST`s on
the copy, signature valid, signatures equal and data equal, pass. -/
def doRoundtrip (arg : ArgumentList) (fuel : Nat) (indeterminate : Int) : Bool :=
  match roundtripCopy arg fuel indeterminate with
  | .finished copy _ =>
    isSignatureValid copy.m_signature .FullSignature &&
      stringsEqual arg.m_signature copy.m_signature && arraysEqual arg.m_data copy.m_data
  | _ => false

/-- The argument list with signature `i` and data `05 00 00 00`. -/
def oneInt : ArgumentList := ArgumentList.of (lit "i") ⟨some [5, 0, 0, 0], 4⟩ false

/-- The argument list with signature `yi`: the byte 1, three bytes of padding and the
`int32` 5. -/
def byteThenInt : ArgumentList :=
  ArgumentList.of (lit "yi") ⟨some [1, 0, 0, 0, 5, 0, 0, 0], 8⟩ false

/-- The `ArgumentList` copy that the loop of `doRoundtrip` ended with, if it ended with
`finish`. -/
def RoundtripResult.copy : RoundtripResult → Option ArgumentList
  | .finished copy _ => some copy
  | _ => none

/-- The writer that the loop of `doRoundtrip` ended with, if it ended with `finish`. -/
def RoundtripResult.writer : RoundtripResult → Option WriteCursor
  | .finished _ writer => some writer
  | _ => none

/-- The first `n` bytes of an array. -/
def array.bytes (a : array) (n : Nat) : List byte := (List.range n).map a.get

/-- The writer of `ArgumentList copy; copy.beginWrite()`: a writer on a fresh
`ArgumentList`. -/
def freshWriter : WriteCursor := ArgumentList.empty.beginWrite.1

/-- A write, begin, next or end operation of the `WriteCursor` with its arguments;
`beginVariant` has the indeterminate value of its frame as argument. -/
inductive WriterCall where
  | writeByte (b : byte)
  | writeBoolean (b : Bool)
  | writeInt16 (i : Int)
  | writeUint16 (i : Nat)
  | writeInt32 (i : Int)
  | writeUint32 (i : Nat)
  | writeInt64 (i : Int)
  | writeUint64 (i : Nat)
  | writeDouble (bits : Nat)
  | writeString (string : cstring)
  | writeObjectPath (objectPath : cstring)
  | writeSignature (signature : cstring)
  | writeUnixFd (fd : Nat)
  | beginArray (isEmpty : Bool)
  | nextArrayEntry
  | endArray
  | beginDict (isEmpty : Bool)
  | nextDictEntry
  | endDict
  | beginStruct
  | endStruct
  | beginVariant (indeterminate : Int)
  | endVariant
deriving DecidableEq, Repr

/-- The cursor after an operation. -/
def WriteCursor.call (c : WriteCursor) : WriterCall → WriteCursor
  | .writeByte b => c.writeByte b
  | .writeBoolean b => c.writeBoolean b
  | .writeInt16 i => c.writeInt16 i
  | .writeUint16 i => c.writeUint16 i
  | .writeInt32 i => c.writeInt32 i
  | .writeUint32 i => c.writeUint32Value i
  | .writeInt64 i => c.writeInt64 i
  | .writeUint64 i => c.writeUint64 i
  | .writeDouble bits => c.writeDouble bits
  | .writeString s => c.writeString s
  | .writeObjectPath s => c.writeObjectPath s
  | .writeSignature s => c.writeSignature s
  | .writeUnixFd fd => c.writeUnixFd fd
  | .beginArray e => c.beginArray e
  | .nextArrayEntry => c.nextArrayEntry
  | .endArray => c.endArray
  | .beginDict e => c.beginDict e
  | .nextDictEntry => c.nextDictEntry
  | .endDict => c.endDict
  | .beginStruct => c.beginStruct
  | .endStruct => c.endStruct
  | .beginVariant u => c.beginVariant u
  | .endVariant => c.endVariant

/-- The operations that go to `advanceState` at once; the others are `beginArray`,
`beginDict`, `nextArrayEntry` and `nextDictEntry`. -/
def WriterCall.isAdvance : WriterCall → Bool
  | .beginArray _ => false
  | .nextArrayEntry => false
  | .beginDict _ => false
  | .nextDictEntry => false
  | _ => true

/-- The operations that write a basic value. -/
def WriterCall.isBasicWrite : WriterCall → Bool
  | .writeByte _ | .writeBoolean _ | .writeInt16 _ | .writeUint16 _ | .writeInt32 _
  | .writeUint32 _ | .writeInt64 _ | .writeUint64 _ | .writeDouble _ | .writeString _
  | .writeObjectPath _ | .writeSignature _ | .writeUnixFd _ => true
  | _ => false

/-- The cursor after `n` rounds of `beginArray(false); nextArrayEntry()`: `n` nested arrays. -/
def WriteCursor.nestArrays : Nat → WriteCursor → WriteCursor
  | 0, c => c
  | n + 1, c => nestArrays n (c.beginArray false).nextArrayEntry

/-- The cursor after `n` rounds of `beginDict(false); nextDictEntry(); writeInt32(0)`: `n`
dicts nested as values, each with its key written. -/
def WriteCursor.nestDicts : Nat → WriteCursor → WriteCursor
  | 0, c => c
  | n + 1, c => nestDicts n ((c.beginDict false).nextDictEntry.writeInt32 0)

/-- The cursor after `n` calls of `beginVariant()`, each frame with the indeterminate
value `u`. -/
def WriteCursor.nestVariants : Nat → Int → WriteCursor → WriteCursor
  | 0, _, c => c
  | n + 1, u, c => nestVariants n u (c.beginVariant u)

/-- The content of a write is valid: a string for `writeString`, an object path for
`writeObjectPath`, a signature for `writeSignature`; the other operations have no content
to check. -/
def WriterCall.hasValidContent : WriterCall → Bool
  | .writeString s => isStringValid s
  | .writeObjectPath s => isObjectPathValid s
  | .writeSignature s => isSignatureValid s .FullSignature
  | _ => true

/-- `WriteCursor::finish()` with the bytes `buffer` in the buffer that its `malloc(16384)`
returns: the source does not initialise the buffer, and `finish` is `finishFrom` with zeros. -/
def WriteCursor.finishFrom (c : WriteCursor) (buffer : List byte) :
    Option (WriteCursor × ArgumentList) :=
  match c.m_argList with
  | none => none
  | some al =>
    let signature : cstring :=
      ⟨c.m_signature.begin.map (fun m => m.set c.m_signaturePosition.toNat 0),
        c.m_signaturePosition⟩
    match finishLoop c.m_data c.m_variantSignatures c.m_elements ⟨buffer, 0, 0, 0, []⟩ with
    | none => none
    | some s =>
      let al1 := { al with m_signature := signature, m_data := ⟨some s.buffer, s.bufferPos⟩ }
      some ({ c with m_argList := some al1, m_signature := signature,
                     m_dataPosition := s.dataPosition, m_elements := [],
                     m_variantSignatures := [] }, al1)

/-- The signature and the data that `finish` installed: the length of the signature with its
first `n` bytes, and the length of the data with their first `m` bytes. -/
def installed (r : Option (WriteCursor × ArgumentList)) (n m : Nat) :
    Option ((Int × List byte) × (Int × List byte)) :=
  r.map (fun r => ((r.2.m_signature.length, (List.range n).map r.2.m_signature.get),
    (r.2.m_data.length, r.2.m_data.bytes m)))

/-- The indices into `m_data.begin` of the bytes that `doReadString(lengthPrefixSize)` reads, in
the order of the reads, up to and including the first read of the validator that it calls: the
bytes of the length prefix and, unless `NeedMoreData` is returned, the byte
`m_String.begin[m_String.length]` that `isStringValid`, `isObjectPathValid` and
`isSignatureValid` all read first (`string.begin[string.length] != 0`). -/
def ReadCursor.doReadStringReads (c : ReadCursor) (lengthPrefixSize : Int) : List Int :=
  let stringLength : Nat :=
    if lengthPrefixSize == 1 then (1 + c.m_data.get c.m_dataPosition.toNat) % 4294967296
    else (1 + readUnsigned 4 c.m_data c.m_dataPosition c.isByteSwapped) % 4294967296
  let lengthReads : List Int :=
    (List.range (if lengthPrefixSize == 1 then 1 else 4)).map (fun i => c.m_dataPosition + (i : Int))
  let c1 := { c with m_dataPosition := c.m_dataPosition + lengthPrefixSize }
  if (c1.m_dataPosition + (stringLength : Int)) % 4294967296 > c1.m_data.length then lengthReads
  else if (c1.m_state == .String || c1.m_state == .ObjectPath || c1.m_state == .Signature) &&
      (c1.m_data.ptr c1.m_dataPosition.toNat).isSome then
    lengthReads ++ [c1.m_dataPosition + (stringLength : Int)]
  else lengthReads

/-- The indices into `m_data.begin` of the bytes that the case `BeginVariant` of `advanceState`
reads, in the order of the reads, up to and including the first read of `isSignatureValid`:
the length byte of the inline signature and, when the validator is called, the byte
`signature.begin[signature.length]`.  Inside a zero-length array the signature is a string
literal and the data are not read. -/
def ReadCursor.beginVariantCaseReads (c : ReadCursor) : List Int :=
  if c.m_dataPosition >= c.m_data.length then []
  else if c.m_zeroLengthArrayNesting != 0 then []
  else
    let signature := (readVariantSignature c).1
    let c1 := (readVariantSignature c).2
    if c1.m_dataPosition > c1.m_data.length then [c.m_dataPosition]
    else if !c1.m_nesting.beginVariant.1 then [c.m_dataPosition]
    else if signature.begin.isSome then [c.m_dataPosition, c.m_dataPosition + 1 + signature.length]
    else [c.m_dataPosition]

/-- The cursor of the constructor `ReadCursor(al)` where its `advanceState()` has set `m_state`
from the first character of a signature that `isSignatureValid` accepted and has aligned
`m_dataPosition`, which stays 0: the cursor on which the data of the first type are read. -/
def ReadCursor.atFirstType (al : ArgumentList) : ReadCursor :=
  { m_argList := some al, m_state := (getTypeInfo (al.m_signature.get 0)).state,
    m_nesting := Nesting.init, m_signature := al.m_signature, m_data := al.m_data,
    m_signaturePosition := 0, m_dataPosition := 0, m_zeroLengthArrayNesting := 0,
    m_aggregateStack := [], m_value := .unset }

/-- The argument list with signature `s` and data `ff ff ff ff`: a length prefix of
`0xFFFFFFFF` and nothing behind it. -/
def stringLengthMax : ArgumentList :=
  ArgumentList.of (lit "s") ⟨some [255, 255, 255, 255], 4⟩ false

/-- The argument list with signature `v` and data `01 'i' 00`: the inline signature `i` of a
variant, which ends at the last byte of the data. -/
def variantSignatureOnly : ArgumentList := ArgumentList.of (lit "v") ⟨some [1, 105, 0], 3⟩ false

/-- The agreement of the nesting counters of a reader with its aggregate stack, in the words of
the specification: `array` is the number of array and dict frames, `paren` the number of struct
and dict frames, `variant` the number of variant frames. -/
def ReadCursor.nestingAgrees (c : ReadCursor) : Bool :=
  c.m_nesting.array == ((c.m_aggregateStack.filter (fun f =>
      f.aggregateType == .BeginArray || f.aggregateType == .BeginDict)).length : Int) &&
  c.m_nesting.paren == ((c.m_aggregateStack.filter (fun f =>
      f.aggregateType == .BeginStruct || f.aggregateType == .BeginDict)).length : Int) &&
  c.m_nesting.variant == ((c.m_aggregateStack.filter (fun f =>
      f.aggregateType == .BeginVariant)).length : Int)

/-- The argument list with signature `(ia)`, which `isSignatureValid` accepts, and data
`05 00 00 00 04 00 00 00 07 00 00 00`: the `int32` 5 and an array of 4 bytes. -/
def structUnclosedArray : ArgumentList :=
  ArgumentList.of (lit "(ia)") ⟨some [5, 0, 0, 0, 4, 0, 0, 0, 7, 0, 0, 0], 12⟩ false

/-- The cursor after `n` calls of `writeByte(0)`. -/
def WriteCursor.writeBytes : Nat → WriteCursor → WriteCursor
  | 0, c => c
  | n + 1, c => writeBytes n (c.writeByte 0)

/-- The bytes of the scratch buffer from the data position of `c` to the data position of
`c1` lie inside the block that `m_data.begin` of `c` points to, the 16384 bytes of the
constructor's `malloc(16384)`: a write that takes `c` to `c1` has stored its bytes inside the
block.  The source does not check this ("TODO extend m_data before it overflows!") and writes
past the block otherwise, which `store` does not follow. -/
def WriteCursor.staysInBuffer (c c1 : WriteCursor) : Bool :=
  decide (0 ≤ c.m_dataPosition) &&
    decide (c1.m_dataPosition ≤ ((c.m_data.begin.getD []).length : Int))

/-! # Theorems -/

/-! ## The signature validator -/

theorem isBasicLetter_iff (c : byte) : isBasicLetter c = true ↔ IsBasic c := by
  have h : "ybnqiuxtdsogh".toList.map ch = [ch 'y', ch 'b', ch 'n', ch 'q', ch 'i', ch 'u',
      ch 'x', ch 't', ch 'd', ch 's', ch 'o', ch 'g', ch 'h'] := by decide
  simp only [isBasicLetter, IsBasic, h, Bool.or_eq_true, beq_iff_eq, List.mem_cons,
    List.mem_singleton, List.not_mem_nil, or_false, or_assoc]

theorem structLoop_of_parseTimes (parse : cstring → Nesting → Option ParseResult) (k : Nat) :
    ∀ (s : cstring) (nest : Nesting) (s1 : cstring) (nest1 : Nesting) (n : Nat) (e : Bool),
    parseTimes parse k s nest = some (true, s1, nest1) →
    structLoop parse (n + k) s nest e = structLoop parse n s1 nest1 (e && k == 0) := by
  induction k with
  | zero =>
    intro s nest s1 nest1 n e h
    simp only [parseTimes, Option.some.injEq, Prod.mk.injEq, true_and] at h
    obtain ⟨rfl, rfl⟩ := h
    simp
  | succ k ih =>
    intro s nest s1 nest1 n e h
    simp only [parseTimes] at h
    split at h
    · simp at h
    · rw [← Nat.add_assoc]
      simp only [structLoop]
      split at h
      · simp at h
      · simp at h
      · rename_i s2 nest2 hp
        rw [hp]
        simp only
        rw [ih _ _ _ _ n false h]
        simp

theorem fullLoop_of_parseTimes (parse : cstring → Nesting → Option ParseResult) (k : Nat) :
    ∀ (s : cstring) (nest : Nesting) (s1 : cstring) (nest1 : Nesting) (n : Nat),
    parseTimes parse k s nest = some (true, s1, nest1) →
    fullLoop parse (n + k) s nest = fullLoop parse n s1 nest1 := by
  induction k with
  | zero =>
    intro s nest s1 nest1 n h
    simp only [parseTimes, Option.some.injEq, Prod.mk.injEq, true_and] at h
    obtain ⟨rfl, rfl⟩ := h
    simp
  | succ k ih =>
    intro s nest s1 nest1 n h
    simp only [parseTimes] at h
    split at h
    · simp at h
    · rename_i hlen
      rw [← Nat.add_assoc]
      simp only [fullLoop, hlen]
      split at h
      · simp at h
      · simp at h
      · rename_i s2 nest2 hp
        simp only [Bool.false_eq_true, if_false]
        exact ih _ _ _ _ n h


theorem Seq.count_le {a p k : Nat} {cs : List byte} (h : Seq a p k cs) : k ≤ cs.length := by
  induction h with
  | nil => simp
  | basic a p k c rest _ _ ih => simp; omega
  | variant a p k rest _ _ ih => simp; omega
  | struct a p m k body rest _ _ _ _ ih1 ih2 => simp; omega
  | array a p k t rest _ _ _ _ ih1 ih2 => simp; omega
  | dict a p k key t rest _ _ _ _ _ _ ih1 ih2 => simp; omega

theorem not_isBasicLetter_special : isBasicLetter (ch 'v') = false ∧ isBasicLetter (ch '(') = false ∧
    isBasicLetter (ch ')') = false ∧ isBasicLetter (ch 'a') = false ∧
    isBasicLetter (ch '{') = false ∧ isBasicLetter (ch '}') = false ∧ isBasicLetter 0 = false := by
  decide

/-- A sequence of at least one type starts with a basic character, `v`, `(` or `a`. -/
theorem Seq.head_ne {a p k : Nat} {cs : List byte} (h : Seq a p (k + 1) cs) :
    ∃ c rest, cs = c :: rest ∧ c ≠ ch '{' := by
  cases h with
  | basic _ _ _ c rest hc _ =>
    refine ⟨c, rest, rfl, ?_⟩
    rintro rfl
    have := (isBasicLetter_iff _).2 hc
    rw [not_isBasicLetter_special.2.2.2.2.1] at this
    exact absurd this (by simp)
  | variant _ _ _ rest _ _ => exact ⟨_, _, rfl, by decide⟩
  | struct _ _ m _ body rest _ _ _ _ => exact ⟨_, _, rfl, by decide⟩
  | array _ _ _ t rest _ _ _ _ => exact ⟨_, _, rfl, by decide⟩
  | dict _ _ _ key t rest _ _ _ _ _ _ => exact ⟨_, _, rfl, by decide⟩

theorem parse_basic (f : Nat) (c : byte) (m : List byte) (len : Int) (nest : Nesting)
    (hc : isBasicLetter c = true) :
    parseSingleCompleteType (f + 1) ⟨some (c :: m), len⟩ nest =
      some (true, ⟨some m, len - 1⟩, nest) := by
  simp [parseSingleCompleteType, cstring.deref, cstring.get, hc, chopFirst]

theorem Nesting.endVariant_beginVariant (n : Nesting) : n.beginVariant.2.endVariant = n := by
  cases n; simp [Nesting.beginVariant, Nesting.endVariant]

theorem Nesting.endParen_beginParen (n : Nesting) : n.beginParen.2.endParen = n := by
  cases n; simp [Nesting.beginParen, Nesting.endParen]

theorem Nesting.endArray_beginArray (n : Nesting) : n.beginArray.2.endArray = n := by
  cases n; simp [Nesting.beginArray, Nesting.endArray]

theorem parse_variant (f : Nat) (m : List byte) (len : Int) (nest : Nesting)
    (hv : nest.beginVariant.1 = true) :
    parseSingleCompleteType (f + 1) ⟨some (ch 'v' :: m), len⟩ nest =
      some (true, ⟨some m, len - 1⟩, nest) := by
  simp [parseSingleCompleteType, cstring.deref, cstring.get, chopFirst,
    not_isBasicLetter_special.1, hv, Nesting.endVariant_beginVariant]

/-- The parser fails at a closing bracket and at the terminator, changing nothing. -/
theorem parse_stop (f : Nat) (c : byte) (m : List byte) (len : Int) (nest : Nesting)
    (hc : c = ch ')' ∨ c = ch '}' ∨ c = 0) :
    parseSingleCompleteType (f + 1) ⟨some (c :: m), len⟩ nest =
      some (false, ⟨some (c :: m), len⟩, nest) := by
  have e : ∀ d : byte, (d = ch ')' ∨ d = ch '}' ∨ d = 0) → isBasicLetter d = false ∧
      (d == ch 'v') = false ∧ (d == ch '(') = false ∧ (d == ch 'a') = false := by
    intro d hd
    rcases hd with rfl | rfl | rfl <;> decide
  obtain ⟨e1, e2, e3, e4⟩ := e c hc
  simp [parseSingleCompleteType, cstring.deref, cstring.get, e1, e2, e3, e4]

theorem parse_struct (f : Nat) (m : List byte) (len : Int) (nest : Nesting) (s2 : cstring)
    (nest2 : Nesting) (hb : nest.beginParen.1 = true)
    (hloop : structLoop (parseSingleCompleteType f) f ⟨some m, len - 1⟩ nest.beginParen.2 true =
      some (false, s2, nest2))
    (hlen : s2.length ≠ 0) (hd : s2.deref = ch ')') :
    parseSingleCompleteType (f + 1) ⟨some (ch '(' :: m), len⟩ nest =
      some (true, chopFirst s2, nest2.endParen) := by
  have e1 : (ch '(' == ch 'v') = false := by decide
  simp [parseSingleCompleteType, cstring.deref, cstring.get, not_isBasicLetter_special, e1, hb,
    chopFirst, hloop, hlen]
  simp [cstring.deref, cstring.get] at hd
  simp [hd]

theorem parse_array (f : Nat) (m : List byte) (len : Int) (nest : Nesting) (s2 : cstring)
    (nest2 : Nesting) (hb : nest.beginArray.1 = true) (hm : (m.getD 0 0 == ch '{') = false)
    (hp : parseSingleCompleteType f ⟨some m, len - 1⟩ nest.beginArray.2 = some (true, s2, nest2)) :
    parseSingleCompleteType (f + 1) ⟨some (ch 'a' :: m), len⟩ nest =
      some (true, s2, nest2.endArray) := by
  have e1 : (ch 'a' == ch 'v') = false := by decide
  have e2 : (ch 'a' == ch '(') = false := by decide
  simp [parseSingleCompleteType, cstring.deref, cstring.get, not_isBasicLetter_special, e1, e2, hb,
    chopFirst, hp]
  simp at hm
  simp [hm, hp]

theorem parse_dict (f : Nat) (key : byte) (m : List byte) (len : Int) (nest : Nesting)
    (s2 : cstring) (nest2 : Nesting) (hb : nest.beginArray.1 = true)
    (hb2 : nest.beginArray.2.beginParen.1 = true) (hl : 5 ≤ len)
    (hk : isBasicLetter key = true)
    (hp : parseSingleCompleteType f ⟨some m, len - 1 - 1 - 1⟩ nest.beginArray.2.beginParen.2 =
      some (true, s2, nest2))
    (hlen : s2.length ≠ 0) (hd : s2.deref = ch '}') :
    parseSingleCompleteType (f + 1) ⟨some (ch 'a' :: ch '{' :: key :: m), len⟩ nest =
      some (true, chopFirst s2, nest2.endParen.endArray) := by
  have e1 : (ch 'a' == ch 'v') = false := by decide
  have e2 : (ch 'a' == ch '(') = false := by decide
  have h4 : ¬ (len - 1 < 4) := by omega
  have h0 : ¬ (len - 1 - 1 < 0) := by omega
  simp [parseSingleCompleteType, cstring.deref, cstring.get, not_isBasicLetter_special, e1, e2, hb,
    chopFirst, hb2, parseBasicType, hk, h4, h0, hp, hlen]
  simp [cstring.deref, cstring.get] at hd
  simp [hd]

theorem parseTimes_succ_of_parse (parse : cstring → Nesting → Option ParseResult) (k : Nat)
    (s : cstring) (nest : Nesting) (s1 : cstring) (nest1 : Nesting) (hl : s.length ≠ 0)
    (hp : parse s nest = some (true, s1, nest1)) :
    parseTimes parse (k + 1) s nest = parseTimes parse k s1 nest1 := by
  simp [parseTimes, hl, hp]

theorem beginParen_ok (a p : Nat) (h1 : p + 1 ≤ 32) (h2 : a + (p + 1) ≤ 64) :
    Nesting.beginParen ⟨a, p, 0⟩ = (true, ⟨a, ((p + 1 : Nat) : Int), 0⟩) := by
  simp only [Nesting.beginParen, Nesting.total, Nesting.parenMax, Nesting.totalMax, Prod.mk.injEq,
    Bool.and_eq_true, decide_eq_true_eq, Nesting.mk.injEq]
  push_cast
  refine ⟨⟨?_, ?_⟩, ?_⟩ <;> first | omega | simp

theorem beginArray_ok (a p : Nat) (h1 : a + 1 ≤ 32) (h2 : (a + 1) + p ≤ 64) :
    Nesting.beginArray ⟨a, p, 0⟩ = (true, ⟨((a + 1 : Nat) : Int), p, 0⟩) := by
  simp only [Nesting.beginArray, Nesting.total, Nesting.arrayMax, Nesting.totalMax, Prod.mk.injEq,
    Bool.and_eq_true, decide_eq_true_eq, Nesting.mk.injEq]
  push_cast
  refine ⟨⟨?_, ?_⟩, ?_⟩ <;> first | omega | simp

theorem beginVariant_ok (a p : Nat) (h : a + p + 1 ≤ 64) :
    (Nesting.beginVariant ⟨a, p, 0⟩).1 = true := by
  simp only [Nesting.beginVariant, Nesting.total, Nesting.totalMax, decide_eq_true_eq]
  push_cast
  omega

theorem parse_of_parseTimes_one (parse : cstring → Nesting → Option ParseResult)
    (s : cstring) (nest : Nesting) (s1 : cstring) (nest1 : Nesting)
    (h : parseTimes parse 1 s nest = some (true, s1, nest1)) :
    parse s nest = some (true, s1, nest1) := by
  simp only [parseTimes] at h
  split at h
  · simp at h
  · split at h
    · simp at h
    · simp at h
    · rename_i hp
      rw [hp, ← h]

/-- The parser accepts what the grammar derives: `k` rounds of parsing consume a sequence of
`k` complete types and leave the rest of the string and the counters as they were. -/
theorem parseTimes_of_seq {a p k : Nat} {cs : List byte} (h : Seq a p k cs) :
    ∀ (tail : List byte) (len : Int) (fuel : Nat), (cs ++ tail).length < fuel →
      (cs.length : Int) ≤ len →
      parseTimes (parseSingleCompleteType fuel) k ⟨some (cs ++ tail), len⟩ ⟨a, p, 0⟩ =
        some (true, ⟨some tail, len - cs.length⟩, ⟨a, p, 0⟩) := by
  induction h with
  | nil a p => intro tail len fuel _ _; simp [parseTimes]
  | basic a p k c rest hc _ ih =>
    intro tail len fuel hf hl
    obtain ⟨f, rfl⟩ : ∃ f, fuel = f + 1 := ⟨fuel - 1, by omega⟩
    simp only [List.length_cons, List.cons_append, Nat.cast_add, Nat.cast_one] at hf hl
    rw [List.cons_append, parseTimes_succ_of_parse _ _ _ _ _ _ (by show len ≠ 0; omega)
      (parse_basic f c _ len _ ((isBasicLetter_iff c).2 hc)),
      ih tail (len - 1) (f + 1) (by omega) (by omega)]
    simp only [List.length_cons, Nat.cast_add, Nat.cast_one, Option.some.injEq, Prod.mk.injEq,
      cstring.mk.injEq, true_and, and_true]
    omega
  | variant a p k rest hv _ ih =>
    intro tail len fuel hf hl
    obtain ⟨f, rfl⟩ : ∃ f, fuel = f + 1 := ⟨fuel - 1, by omega⟩
    simp only [List.length_cons, List.cons_append, Nat.cast_add, Nat.cast_one] at hf hl
    rw [List.cons_append, parseTimes_succ_of_parse _ _ _ _ _ _ (by show len ≠ 0; omega)
      (parse_variant f _ len _ (beginVariant_ok a p hv)),
      ih tail (len - 1) (f + 1) (by omega) (by omega)]
    simp only [List.length_cons, Nat.cast_add, Nat.cast_one, Option.some.injEq, Prod.mk.injEq,
      cstring.mk.injEq, true_and, and_true]
    omega
  | struct a p m k body rest hp1 hp2 hbody _ ih1 ih2 =>
    intro tail len fuel hf hl
    obtain ⟨f, rfl⟩ : ∃ f, fuel = f + 1 := ⟨fuel - 1, by omega⟩
    have hcnt := hbody.count_le
    simp only [List.length_cons, List.cons_append, List.length_append, List.append_assoc,
      Nat.cast_add, Nat.cast_one] at hf hl
    have hin := ih1 (ch ')' :: (rest ++ tail)) (len - 1) f
      (by simp only [List.length_append, List.length_cons]; omega) (by omega)
    obtain ⟨n, hn⟩ : ∃ n, f = (n + 1) + (m + 1) := ⟨f - (m + 1) - 1, by omega⟩
    have hloop : structLoop (parseSingleCompleteType f) f
        ⟨some (body ++ ch ')' :: (rest ++ tail)), len - 1⟩ ⟨a, ((p + 1 : Nat) : Int), 0⟩ true =
        some (false, ⟨some (ch ')' :: (rest ++ tail)), len - 1 - body.length⟩,
          ⟨a, ((p + 1 : Nat) : Int), 0⟩) := by
      have h2 := structLoop_of_parseTimes (parseSingleCompleteType f) (m + 1) _ _ _ _ (n + 1) true hin
      rw [← hn] at h2
      rw [h2]
      simp only [structLoop]
      obtain ⟨f2, rfl⟩ : ∃ f2, f = f2 + 1 := ⟨f - 1, by omega⟩
      rw [parse_stop f2 _ _ _ _ (Or.inl rfl)]
      simp
    have hb := beginParen_ok a p hp1 hp2
    have hstep := parse_struct f (body ++ ch ')' :: (rest ++ tail)) len ⟨a, p, 0⟩ _ _
      (by rw [hb]) (by rw [hb]; exact hloop) (by show len - 1 - (body.length : Int) ≠ 0; omega)
      (by simp [cstring.deref, cstring.get])
    simp only [List.cons_append, List.append_assoc]
    rw [parseTimes_succ_of_parse _ _ _ _ _ _ (by show len ≠ 0; omega) hstep]
    have e : Nesting.endParen ⟨a, ((p + 1 : Nat) : Int), 0⟩ = ⟨a, p, 0⟩ := by
      simp [Nesting.endParen]
    simp only [chopFirst, Option.map_some', List.tail_cons, e]
    rw [ih2 tail _ (f + 1) (by simp only [List.length_append]; omega) (by omega)]
    simp only [List.length_cons, List.length_append, Nat.cast_add, Nat.cast_one, Option.some.injEq,
      Prod.mk.injEq, cstring.mk.injEq, true_and, and_true]
    omega
  | array a p k t rest ha1 ha2 ht _ ih1 ih2 =>
    intro tail len fuel hf hl
    obtain ⟨f, rfl⟩ : ∃ f, fuel = f + 1 := ⟨fuel - 1, by omega⟩
    have hcnt := ht.count_le
    obtain ⟨c0, t0, ht0, hc0⟩ := ht.head_ne
    simp only [List.length_cons, List.cons_append, List.length_append, List.append_assoc,
      Nat.cast_add, Nat.cast_one] at hf hl
    have hin := ih1 (rest ++ tail) (len - 1) f
      (by simp only [List.length_append]; omega) (by omega)
    have hp := parse_of_parseTimes_one _ _ _ _ _ hin
    have hb := beginArray_ok a p ha1 ha2
    have hstep := parse_array f (t ++ (rest ++ tail)) len ⟨a, p, 0⟩ _ _ (by rw [hb])
      (by subst ht0; simpa using hc0) (by rw [hb]; exact hp)
    simp only [List.cons_append, List.append_assoc]
    rw [parseTimes_succ_of_parse _ _ _ _ _ _ (by show len ≠ 0; omega) hstep]
    have e : Nesting.endArray ⟨((a + 1 : Nat) : Int), p, 0⟩ = ⟨a, p, 0⟩ := by
      simp [Nesting.endArray]
    simp only [e]
    rw [ih2 tail _ (f + 1) (by simp only [List.length_append]; omega) (by omega)]
    simp only [List.length_cons, List.length_append, Nat.cast_add, Nat.cast_one, Option.some.injEq,
      Prod.mk.injEq, cstring.mk.injEq, true_and, and_true]
    omega
  | dict a p k key t rest ha1 hp1 ht1 hkey ht _ ih1 ih2 =>
    intro tail len fuel hf hl
    obtain ⟨f, rfl⟩ : ∃ f, fuel = f + 1 := ⟨fuel - 1, by omega⟩
    have hcnt := ht.count_le
    simp only [List.length_cons, List.cons_append, List.length_append, List.append_assoc,
      Nat.cast_add, Nat.cast_one] at hf hl
    have hin := ih1 (ch '}' :: (rest ++ tail)) (len - 1 - 1 - 1) f
      (by simp only [List.length_append, List.length_cons]; omega) (by omega)
    have hp := parse_of_parseTimes_one _ _ _ _ _ hin
    have hb := beginArray_ok a p ha1 (by omega)
    have hb2 := beginParen_ok (a + 1) p hp1 (by omega)
    have hstep := parse_dict f key (t ++ ch '}' :: (rest ++ tail)) len ⟨a, p, 0⟩ _ _ (by rw [hb])
      (by rw [hb]; simp only; rw [hb2]) (by omega) ((isBasicLetter_iff key).2 hkey)
      (by rw [hb]; simp only; rw [hb2]; exact hp)
      (by show len - 1 - 1 - 1 - (t.length : Int) ≠ 0; omega)
      (by simp [cstring.deref, cstring.get])
    simp only [List.cons_append, List.append_assoc]
    rw [parseTimes_succ_of_parse _ _ _ _ _ _ (by show len ≠ 0; omega) hstep]
    have e : Nesting.endArray (Nesting.endParen ⟨((a + 1 : Nat) : Int), ((p + 1 : Nat) : Int), 0⟩) =
        ⟨a, p, 0⟩ := by
      simp [Nesting.endArray, Nesting.endParen]
    simp only [chopFirst, Option.map_some', List.tail_cons, e]
    rw [ih2 tail _ (f + 1) (by simp only [List.length_append]; omega) (by omega)]
    simp only [List.length_cons, List.length_append, Nat.cast_add, Nat.cast_one, Option.some.injEq,
      Prod.mk.injEq, cstring.mk.injEq, true_and, and_true]
    omega

theorem size_chopFirst_lt (s : cstring) (h : s.deref ≠ 0) : (chopFirst s).size < s.size := by
  obtain ⟨b, len⟩ := s
  cases b with
  | none => simp [cstring.deref, cstring.get] at h
  | some m =>
    cases m with
    | nil => simp [cstring.deref, cstring.get] at h
    | cons c m => simp [chopFirst, cstring.size]

theorem structLoop_total (parse : cstring → Nesting → Option ParseResult) (F : Nat)
    (hparse : ∀ s nest, s.size < F → ParseOk s (parse s nest)) :
    ∀ (n : Nat) (s : cstring) (nest : Nesting) (e : Bool), s.size < n → s.size < F →
      ∃ e1 s1 nest1, structLoop parse n s nest e = some (e1, s1, nest1) ∧ s1.size ≤ s.size := by
  intro n
  induction n with
  | zero => intro s nest e h; omega
  | succ n ih =>
    intro s nest e h hF
    obtain ⟨b, s1, nest1, hp, h1, h2⟩ := hparse s nest hF
    simp only [structLoop, hp]
    cases b with
    | false => exact ⟨e, s1, nest1, rfl, h1⟩
    | true =>
      obtain ⟨e2, s2, nest2, hl, h3⟩ := ih s1 nest1 false (by have := h2 rfl; omega)
        (by have := h2 rfl; omega)
      exact ⟨e2, s2, nest2, hl, by have := h2 rfl; omega⟩

theorem fullLoop_total (parse : cstring → Nesting → Option ParseResult) (F : Nat)
    (hparse : ∀ s nest, s.size < F → ParseOk s (parse s nest)) :
    ∀ (n : Nat) (s : cstring) (nest : Nesting), s.size < n → s.size < F →
      ∃ r, fullLoop parse n s nest = some r := by
  intro n
  induction n with
  | zero => intro s nest h; omega
  | succ n ih =>
    intro s nest h hF
    simp only [fullLoop]
    split
    · exact ⟨_, rfl⟩
    · obtain ⟨b, s1, nest1, hp, h1, h2⟩ := hparse s nest hF
      rw [hp]
      cases b with
      | false => exact ⟨_, rfl⟩
      | true => exact ih s1 nest1 (by have := h2 rfl; omega) (by have := h2 rfl; omega)

theorem ch_ne_zero : isBasicLetter 0 = false ∧ ch 'v' ≠ 0 ∧ ch '(' ≠ 0 ∧ ch ')' ≠ 0 ∧ ch 'a' ≠ 0 ∧
    ch '{' ≠ 0 ∧ ch '}' ≠ 0 := by decide

/-- The parser returns whenever `fuel` exceeds the number of bytes at `s->begin`; the string it
leaves is no longer than before, and shorter when it returns `true`. -/
theorem parseSingleCompleteType_fuel (fuel : Nat) :
    ∀ (s : cstring) (nest : Nesting), s.size < fuel →
      ParseOk s (parseSingleCompleteType fuel s nest) := by
  induction fuel with
  | zero => intro s nest h; omega
  | succ f ih =>
    intro s nest h
    have hz : ∀ c : byte, s.deref = c → c ≠ 0 → (chopFirst s).size < s.size := by
      intro c hc hne
      exact size_chopFirst_lt s (by rw [hc]; exact hne)
    simp only [parseSingleCompleteType]
    split
    · rename_i hb
      have hne : s.deref ≠ 0 := by
        intro e0; rw [e0, ch_ne_zero.1] at hb; exact absurd hb (by simp)
      have := size_chopFirst_lt s hne
      exact ⟨true, _, _, rfl, by omega, fun _ => this⟩
    · split
      · rename_i hv
        have := hz _ (by simpa using hv) ch_ne_zero.2.1
        split
        · exact ⟨false, _, _, rfl, le_refl _, by simp⟩
        · exact ⟨true, _, _, rfl, by omega, fun _ => this⟩
      · split
        · rename_i hv
          have hlt := hz _ (by simpa using hv) ch_ne_zero.2.2.1
          split
          · exact ⟨false, _, _, rfl, le_refl _, by simp⟩
          · obtain ⟨e1, s1, nest1, hl, h1⟩ := structLoop_total (parseSingleCompleteType f) f ih f
              (chopFirst s) nest.beginParen.2 true (by omega) (by omega)
            rw [hl]
            simp only
            split
            · exact ⟨false, _, _, rfl, by omega, by simp⟩
            · rename_i hc
              simp only [Bool.or_eq_true, not_or, bne_iff_ne, ne_eq, Decidable.not_not] at hc
              have := size_chopFirst_lt s1 (by rw [hc.1.2]; exact ch_ne_zero.2.2.2.1)
              exact ⟨true, _, _, rfl, by omega, fun _ => by omega⟩
        · split
          · rename_i hv
            have hlt := hz _ (by simpa using hv) ch_ne_zero.2.2.2.2.1
            split
            · exact ⟨false, _, _, rfl, le_refl _, by simp⟩
            · split
              · rename_i hd
                have hlt2 := size_chopFirst_lt (chopFirst s)
                  (by rw [show (chopFirst s).deref = ch '{' from by simpa using hd]
                      exact ch_ne_zero.2.2.2.2.2.1)
                split
                · exact ⟨false, _, _, rfl, by omega, by simp⟩
                · have hk : (parseBasicType (chopFirst (chopFirst s))).2.size ≤
                      (chopFirst (chopFirst s)).size := by
                    simp only [parseBasicType]
                    split
                    · exact le_refl _
                    · split
                      · rename_i hb
                        have hne : (chopFirst (chopFirst s)).deref ≠ 0 := by
                          intro e0; rw [e0, ch_ne_zero.1] at hb; exact absurd hb (by simp)
                        exact le_of_lt (size_chopFirst_lt _ hne)
                      · exact le_refl _
                  split
                  · exact ⟨false, _, _, rfl, by omega, by simp⟩
                  · obtain ⟨b, s4, nest4, hp, h1, h2⟩ :=
                      ih (parseBasicType (chopFirst (chopFirst s))).2
                        (nest.beginArray.2.beginParen.2) (by omega)
                    rw [hp]
                    cases b with
                    | false => exact ⟨false, _, _, rfl, by omega, by simp⟩
                    | true =>
                      simp only
                      split
                      · exact ⟨false, _, _, rfl, by omega, by simp⟩
                      · rename_i hc
                        simp only [Bool.or_eq_true, not_or, bne_iff_ne, ne_eq,
                          Decidable.not_not] at hc
                        have := size_chopFirst_lt s4 (by rw [hc.2]; exact ch_ne_zero.2.2.2.2.2.2)
                        exact ⟨true, _, _, rfl, by omega, fun _ => by omega⟩
              · obtain ⟨b, s2, nest2, hp, h1, h2⟩ := ih (chopFirst s) nest.beginArray.2 (by omega)
                rw [hp]
                cases b with
                | false => exact ⟨false, _, _, rfl, by omega, by simp⟩
                | true => exact ⟨true, _, _, rfl, by omega, fun _ => by omega⟩
          · exact ⟨false, _, _, rfl, le_refl _, by simp⟩

/-- `isSignatureValid` returns: the bound it gives the parser is never used up. -/
theorem isSignatureValidRun_fuel (signature : cstring) (type : SignatureType) :
    ∃ r, isSignatureValidRun (signature.size + 1) signature type = some r := by
  unfold isSignatureValidRun
  simp only
  split
  · exact ⟨_, rfl⟩
  · cases type with
    | VariantSignature =>
      simp only
      split
      · obtain ⟨b, s1, nest1, hp, -, -⟩ :=
          parseSingleCompleteType_fuel (signature.size + 1) signature Nesting.init (by omega)
        rw [hp]
        cases b with
        | false => exact ⟨_, rfl⟩
        | true =>
          simp only
          split <;> exact ⟨_, rfl⟩
      · exact ⟨_, rfl⟩
    | FullSignature =>
      simp only
      obtain ⟨r, hr⟩ := fullLoop_total (parseSingleCompleteType (signature.size + 1))
        (signature.size + 1) (parseSingleCompleteType_fuel _) (signature.size + 1) signature
        Nesting.init (by omega) (by omega)
      rw [hr]
      exact ⟨_, rfl⟩

/-! ## String validators and the type table -/

theorem ch_vals : ch 'y' = 121 ∧ ch 'b' = 98 ∧ ch 'n' = 110 ∧ ch 'q' = 113 ∧ ch 'i' = 105 ∧
    ch 'u' = 117 ∧ ch 'x' = 120 ∧ ch 't' = 116 ∧ ch 'd' = 100 ∧ ch 's' = 115 ∧ ch 'o' = 111 ∧
    ch 'g' = 103 ∧ ch 'h' = 104 ∧ ch 'v' = 118 ∧ ch '(' = 40 ∧ ch ')' = 41 ∧ ch 'a' = 97 ∧
    ch '{' = 123 ∧ ch '}' = 125 ∧ ch '/' = 47 ∧ ch '_' = 95 ∧ ch 'z' = 122 ∧ ch 'A' = 65 ∧
    ch 'Z' = 90 ∧ ch '0' = 48 ∧ ch '9' = 57 := by decide

/-- C8: `getTypeInfo` gives alignment 1 to `y` and `g`, 2 to `n` and `q`, 4 to `b`, `i`, `u`,
`s`, `o`, `h`, and 8 to `x`, `t`, `d`, `(` and `{`, each of these characters with its own cursor
state, and every byte outside the signature alphabet gets state `InvalidData` and
alignment 1. -/
theorem getTypeInfo_table :
    (∀ e ∈ [('y', CursorState.Byte, 1), ('g', .Signature, 1), ('n', .Int16, 2), ('q', .Uint16, 2),
        ('b', .Boolean, 4), ('i', .Int32, 4), ('u', .Uint32, 4), ('s', .String, 4),
        ('o', .ObjectPath, 4), ('h', .UnixFd, 4), ('x', .Int64, 8), ('t', .Uint64, 8),
        ('d', .Double, 8), ('(', .BeginStruct, 8), ('{', .BeginDict, 8)],
      (getTypeInfo (ch e.1)).state = e.2.1 ∧ (getTypeInfo (ch e.1)).alignment = e.2.2) ∧
    (∀ c : byte, c ∉ signatureAlphabet →
      (getTypeInfo c).state = .InvalidData ∧ (getTypeInfo c).alignment = 1) := by
  refine ⟨by decide, ?_⟩
  intro c hc
  have h : signatureAlphabet = [121, 98, 110, 113, 105, 117, 120, 116, 100, 115, 111, 103, 104,
      118, 40, 41, 97, 123, 125] := by decide
  rw [h] at hc
  simp only [List.mem_cons, List.mem_singleton, not_or, List.not_mem_nil, or_false] at hc
  obtain ⟨h1, h2, h3, h4, h5, h6, h7, h8, h9, h10, h11, h12, h13, h14, h15, h16, h17, h18, h19⟩ := hc
  obtain ⟨e1, e2, e3, e4, e5, e6, e7, e8, e9, e10, e11, e12, e13, e14, e15, e16, e17, e18, e19, -⟩ := ch_vals
  simp [getTypeInfo, *]

theorem getTypeInfo_table_witness :
    (getTypeInfo 0).state = .InvalidData ∧ (getTypeInfo 0).alignment = 1 :=
  getTypeInfo_table.2 0 (by decide)

theorem isStringValidLoop_iff (s : cstring) (n i : Nat) :
    isStringValidLoop s n i = true ↔ ∀ j, i ≤ j → j < i + n → s.get j ≠ 0 := by
  induction n generalizing i with
  | zero => simp [isStringValidLoop]; intro j h1 h2; omega
  | succ n ih =>
    simp only [isStringValidLoop]
    by_cases h : s.get i = 0
    · simp [h]
      exact ⟨i, le_refl _, by omega, h⟩
    · simp [h, ih]
      constructor
      · intro H j h1 h2
        rcases Nat.eq_or_lt_of_le h1 with e | l
        · subst e; exact h
        · exact H j l (by omega)
      · intro H j h1 h2
        exact H j (by omega) (by omega)

theorem isStringValid_iff (begin : Option (List byte)) (length : Nat) :
    isStringValid ⟨begin, length⟩ = true ↔
      begin ≠ none ∧ cstring.get ⟨begin, length⟩ length = 0 ∧
        ∀ i, i < length → cstring.get ⟨begin, length⟩ i ≠ 0 := by
  unfold isStringValid
  cases begin with
  | none => simp
  | some m =>
    by_cases h : cstring.get ⟨some m, length⟩ length = 0
    · simp [h, isStringValidLoop_iff]
    · simp [h]

theorem isObjectNameLetter_iff (c : byte) : isObjectNameLetter c = true ↔ IsNameChar c := by
  simp only [isObjectNameLetter, IsNameChar, Bool.or_eq_true, Bool.and_eq_true, decide_eq_true_eq,
    beq_iff_eq, ge_iff_le]
  tauto

theorem not_isNameChar_slash : ¬ IsNameChar (ch '/') := by
  unfold IsNameChar; decide

theorem getD_append_length (pre : List byte) (c : byte) (t : List byte) :
    (pre ++ c :: t).getD pre.length 0 = c := by
  induction pre with
  | nil => simp
  | cons a pre ih => simpa using ih

theorem Segments.head {t : List byte} (h : Segments t) : ∃ w t2, w ≠ [] ∧ (∀ c ∈ w, IsNameChar c) ∧
    t = ch '/' :: w ++ t2 ∧ (t2 = [] ∨ Segments t2) := by
  cases h with
  | one w hw hl => exact ⟨w, [], hw, hl, by simp, Or.inl rfl⟩
  | cons w rest hw hl hr => exact ⟨w, rest, hw, hl, rfl, Or.inr hr⟩

theorem pathTail_nil (b : Bool) : PathTail b [] ↔ b = false := by
  constructor
  · rintro ⟨w, hw, -, h | ⟨rest, hr, h⟩⟩
    · cases b <;> simp_all
    · obtain ⟨w2, t2, -, -, e, -⟩ := hr.head
      subst e
      simp at h
  · rintro rfl
    exact ⟨[], by simp, by simp, Or.inl rfl⟩

theorem pathTail_cons_letter (b : Bool) (c : byte) (t : List byte) (hc : IsNameChar c) :
    PathTail b (c :: t) ↔ PathTail false t := by
  have hne : c ≠ ch '/' := fun e => not_isNameChar_slash (e ▸ hc)
  constructor
  · rintro ⟨w, hw, hl, h⟩
    cases w with
    | nil =>
      rcases h with h | ⟨rest, hr, h⟩
      · simp at h
      · obtain ⟨w2, t2, -, -, e, -⟩ := hr.head
        subst e
        simp at h
        exact absurd h.1 hne
    | cons d w =>
      refine ⟨w, by simp, fun x hx => hl x (List.mem_cons_of_mem _ hx), ?_⟩
      rcases h with h | ⟨rest, hr, h⟩
      · left; simpa using (List.cons.inj h).2
      · right; exact ⟨rest, hr, by simpa using (List.cons.inj h).2⟩
  · rintro ⟨w, -, hl, h⟩
    refine ⟨c :: w, by simp, ?_, ?_⟩
    · intro x hx
      rcases List.mem_cons.1 hx with e | hx
      · exact e ▸ hc
      · exact hl x hx
    · rcases h with h | ⟨rest, hr, h⟩
      · left; simp [h]
      · right; exact ⟨rest, hr, by simp [h]⟩

theorem pathTail_cons_slash (t : List byte) :
    PathTail false (ch '/' :: t) ↔ PathTail true t := by
  constructor
  · rintro ⟨w, -, hl, h⟩
    cases w with
    | nil =>
      rcases h with h | ⟨rest, hr, h⟩
      · simp at h
      · obtain ⟨w2, t2, hw2, hl2, e, h2⟩ := hr.head
        subst e
        simp at h
        refine ⟨w2, fun _ => hw2, hl2, ?_⟩
        rcases h2 with h2 | h2
        · left; simp [h, h2]
        · right; exact ⟨t2, h2, h⟩
    | cons d w =>
      exfalso
      have hd : d = ch '/' := by
        rcases h with h | ⟨rest, hr, h⟩
        · exact ((List.cons.inj h).1).symm
        · exact ((List.cons.inj h).1).symm
      exact not_isNameChar_slash (hd ▸ hl d (List.mem_cons_self _ _))
  · rintro ⟨w, hw, hl, h⟩
    refine ⟨[], by simp, by simp, Or.inr ⟨ch '/' :: t, ?_, by simp⟩⟩
    rcases h with h | ⟨rest, hr, h⟩
    · subst h; exact Segments.one _ (hw rfl) hl
    · subst h; exact Segments.cons _ _ (hw rfl) hl hr

theorem pathTail_true_cons (c : byte) (t : List byte) (hc : ¬ IsNameChar c) :
    ¬ PathTail true (c :: t) := by
  rintro ⟨w, hw, hl, h⟩
  cases w with
  | nil => exact hw rfl rfl
  | cons d w =>
    have hd : d = c := by
      rcases h with h | ⟨rest, hr, h⟩
      · exact ((List.cons.inj h).1).symm
      · exact ((List.cons.inj h).1).symm
    exact hc (hd ▸ hl d (List.mem_cons_self _ _))

theorem pathTail_false_cons (c : byte) (t : List byte) (hc : ¬ IsNameChar c) (hs : c ≠ ch '/') :
    ¬ PathTail false (c :: t) := by
  rintro ⟨w, -, hl, h⟩
  cases w with
  | nil =>
    rcases h with h | ⟨rest, hr, h⟩
    · simp at h
    · obtain ⟨w2, t2, -, -, e, -⟩ := hr.head
      subst e
      simp at h
      exact hs h.1
  | cons d w =>
    have hd : d = c := by
      rcases h with h | ⟨rest, hr, h⟩
      · exact ((List.cons.inj h).1).symm
      · exact ((List.cons.inj h).1).symm
    exact hc (hd ▸ hl d (List.mem_cons_self _ _))

/-- The loop of `isObjectPathValid` over the characters `t` that follow `pre`. -/
theorem isObjectPathValidLoop_spec (t : List byte) : ∀ (pre : List byte) (last : byte) (len : Int),
    (last = ch '/' ∨ IsNameChar last) →
    ((∃ l, isObjectPathValidLoop ⟨some (pre ++ t ++ [0]), len⟩ t.length pre.length last = some l ∧
        l ≠ ch '/') ↔ PathTail (last == ch '/') t) := by
  induction t with
  | nil =>
    intro pre last len hlast
    simp only [List.length_nil, isObjectPathValidLoop, pathTail_nil]
    simp
  | cons c t ih =>
    intro pre last len hlast
    have hget : cstring.get ⟨some (pre ++ c :: t ++ [0]), len⟩ pre.length = c := by
      simp only [cstring.get, List.append_assoc, List.cons_append, getD_append_length]
    have hbuf : pre ++ c :: t ++ [0] = (pre ++ [c]) ++ t ++ [0] := by simp
    have hlen : pre.length + 1 = (pre ++ [c]).length := by simp
    simp only [List.length_cons, isObjectPathValidLoop, hget]
    by_cases hc : IsNameChar c
    · have hc2 := (isObjectNameLetter_iff c).2 hc
      have hne : c ≠ ch '/' := fun e => not_isNameChar_slash (e ▸ hc)
      simp only [hc2, Bool.not_true, Bool.false_eq_true, if_false, Bool.and_false, ite_self]
      rw [hbuf, hlen, ih (pre ++ [c]) c len (Or.inr hc), pathTail_cons_letter _ _ _ hc]
      rw [beq_false_of_ne hne]
    · have hc2 : isObjectNameLetter c = false := by
        rw [← Bool.not_eq_true, isObjectNameLetter_iff]; exact hc
      by_cases hl : last = ch '/'
      · subst hl
        simp only [hc2, beq_self_eq_true, if_true, Bool.not_false]
        simp only [reduceCtorEq, false_and, exists_false, false_iff]
        exact pathTail_true_cons c t hc
      · have hl2 : (last == ch '/') = false := by simpa using hl
        simp only [hl2, Bool.false_eq_true, if_false, hc2, Bool.not_false, Bool.and_true]
        by_cases hs : c = ch '/'
        · subst hs
          simp only [bne_self_eq_false, Bool.false_eq_true, if_false]
          rw [hbuf, hlen, ih (pre ++ [ch '/']) (ch '/') len (Or.inl rfl), pathTail_cons_slash]
          simp
        · have hs2 : (c != ch '/') = true := by simpa using hs
          simp only [hs2, if_true, reduceCtorEq, false_and, exists_false, false_iff]
          exact pathTail_false_cons c t hc hs

theorem isObjectPathValid_cstringOf (cs : List byte) :
    isObjectPathValid (cstringOf cs) = true ↔ IsObjectPath cs := by
  have hterm : cstring.get (cstringOf cs) (cstringOf cs).length.toNat = 0 := by
    simp [cstringOf, cstring.get, List.getD_eq_getElem?_getD]
  unfold isObjectPathValid
  simp only [hterm]
  cases cs with
  | nil =>
    have : ch '/' ≠ 0 := by decide
    simp [cstringOf, cstring.get, IsObjectPath, Ne.symm this]
    intro h
    obtain ⟨w, t2, -, -, e, -⟩ := h.head
    simp at e
  | cons c t =>
    have h0 : cstring.get (cstringOf (c :: t)) 0 = c := by simp [cstringOf, cstring.get]
    simp only [h0]
    by_cases hc : c = ch '/'
    · subst hc
      cases t with
      | nil => simp [cstringOf, IsObjectPath]
      | cons d t =>
        have hl : ((cstringOf (ch '/' :: d :: t)).length == 1) = false := by
          simp [cstringOf]; omega
        have hn : ((cstringOf (ch '/' :: d :: t)).length - 1).toNat = (d :: t).length := by
          simp [cstringOf]
        have key := isObjectPathValidLoop_spec (d :: t) [ch '/'] (ch '/')
          (cstringOf (ch '/' :: d :: t)).length (Or.inl rfl)
        simp only [hl, hn]
        have hb : cstringOf (ch '/' :: d :: t) =
            ⟨some ([ch '/'] ++ (d :: t) ++ [0]), (cstringOf (ch '/' :: d :: t)).length⟩ := by
          simp [cstringOf]
        rw [hb]
        simp only [List.length_singleton] at key
        have e1 : ∀ (r : Option byte), ((match r with
            | none => false
            | some lastLetter => lastLetter != ch '/') = true) ↔ ∃ l, r = some l ∧ l ≠ ch '/' := by
          intro r; cases r <;> simp
        simp only [Option.isNone_some, bne_self_eq_false, Bool.or_false, Bool.false_eq_true,
          if_false]
        rw [e1, key]
        simp only [beq_self_eq_true, IsObjectPath]
        constructor
        · rintro ⟨w, hw, hl, h | ⟨rest, hr, h⟩⟩
          · right; rw [h]; exact Segments.one _ (hw rfl) hl
          · right; rw [h]; exact Segments.cons _ _ (hw rfl) hl hr
        · rintro (h | h)
          · simp at h
          · obtain ⟨w, t2, hw, hl, e, h2⟩ := h.head
            have e2 : d :: t = w ++ t2 := by simpa using e
            rcases h2 with h2 | h2
            · exact ⟨w, fun _ => hw, hl, Or.inl (by simp [e2, h2])⟩
            · exact ⟨w, fun _ => hw, hl, Or.inr ⟨t2, h2, e2⟩⟩
    · have : ¬ IsObjectPath (c :: t) := by
        rintro (h | h)
        · exact hc (List.cons.inj h).1
        · obtain ⟨w, t2, -, -, e, -⟩ := h.head
          exact hc (List.cons.inj e).1
      simp [hc, this]

/-- C6: for every buffer and length, `isStringValid` returns `true` if and only if the buffer
is not null, the byte at index `length` is 0 and none of the bytes at the indices below `length`
is 0. -/
theorem isStringValid_spec (begin : Option (List byte)) (length : Nat) :
    isStringValid ⟨begin, length⟩ = true ↔
      begin ≠ none ∧ cstring.get ⟨begin, length⟩ length = 0 ∧
        ∀ i, i < length → cstring.get ⟨begin, length⟩ i ≠ 0 :=
  isStringValid_iff begin length

/-- C7: for every NUL-terminated string `p`, `isObjectPathValid p` returns `true` if and only
if `p` is `/` or one or more segments, each a `/` followed by one or more characters of
`[A-Za-z0-9_]`; the empty string, `/abc/`, `/abc//def` and `/abc&def` are rejected, `/`, `/abc`,
`/abc/def` and `/aZ/0123_zAZa9_/_` are accepted, and a null buffer is rejected. -/
theorem isObjectPathValid_spec :
    (∀ p : List byte, isObjectPathValid (cstringOf p) = true ↔ IsObjectPath p) ∧
    isObjectPathValid (lit "") = false ∧
    isObjectPathValid (lit "/abc/") = false ∧
    isObjectPathValid (lit "/abc//def") = false ∧
    isObjectPathValid (lit "/abc&def") = false ∧
    isObjectPathValid (lit "/") = true ∧
    isObjectPathValid (lit "/abc") = true ∧
    isObjectPathValid (lit "/abc/def") = true ∧
    isObjectPathValid (lit "/aZ/0123_zAZa9_/_") = true ∧
    (∀ length : Int, isObjectPathValid ⟨none, length⟩ = false) :=
  ⟨isObjectPathValid_cstringOf, by decide, by decide, by decide, by decide, by decide, by decide,
    by decide, by decide, fun length => by simp [isObjectPathValid]⟩

/-! ## Claims on the signature validator -/

theorem cstringOf_get_length (cs : List byte) :
    (cstringOf cs).get (cstringOf cs).length.toNat = 0 := by
  simp [cstringOf, cstring.get, getD_append_length]

theorem isSignatureValid_of_single (cs : List byte) (h : Seq 0 0 1 cs) :
    isSignatureValid (cstringOf cs) .VariantSignature = true := by
  have hcnt := h.count_le
  have hp := parse_of_parseTimes_one _ _ _ _ _
    (parseTimes_of_seq h [0] cs.length (cs.length + 1 + 1) (by simp) (le_refl _))
  have hinit : Nesting.init = ⟨((0 : Nat) : Int), ((0 : Nat) : Int), 0⟩ := rfl
  have hlen : ((cs.length : Int) != 0) = true := by
    simp only [bne_iff_ne, ne_eq]; omega
  have hg := cstringOf_get_length cs
  simp only [isSignatureValid, isSignatureValidRun, hg]
  simp only [cstringOf, cstring.size, List.length_append, List.length_singleton, hinit, hp, hlen]
  simp

theorem isSignatureValid_of_signature (cs : List byte) (k : Nat) (h : Seq 0 0 k cs) :
    isSignatureValid (cstringOf cs) .FullSignature = true := by
  have hcnt := h.count_le
  have hp := parseTimes_of_seq h [0] cs.length (cs.length + 1 + 1) (by simp) (le_refl _)
  have hinit : Nesting.init = ⟨((0 : Nat) : Int), ((0 : Nat) : Int), 0⟩ := rfl
  have hg := cstringOf_get_length cs
  obtain ⟨n, hn⟩ : ∃ n, cs.length + 1 + 1 = (n + 1) + k := ⟨cs.length + 1 - k, by omega⟩
  have hl := fullLoop_of_parseTimes _ k _ _ _ _ (n + 1) hp
  rw [← hn] at hl
  simp only [isSignatureValid, isSignatureValidRun, hg]
  simp only [cstringOf, cstring.size, List.length_append, List.length_singleton, hinit, hl]
  simp [fullLoop]

theorem isSignatureValid_of_parse_false (cs : List byte) (hne : cs ≠ []) (s1 : cstring)
    (nest1 : Nesting)
    (hp : parseSingleCompleteType (cs.length + 1 + 1) (cstringOf cs) Nesting.init =
      some (false, s1, nest1)) (type : SignatureType) :
    isSignatureValid (cstringOf cs) type = false := by
  have hg := cstringOf_get_length cs
  have hlen : ((cstringOf cs).length != 0) = true := by
    simp only [cstringOf, bne_iff_ne, ne_eq, Nat.cast_eq_zero, List.length_eq_zero]
    exact hne
  have hlen2 : ((cstringOf cs).length == 0) = false := by
    simpa using hlen
  have hsize : (cstringOf cs).size = cs.length + 1 := by simp [cstringOf, cstring.size]
  have hb : (cstringOf cs).begin.isNone = false := by simp [cstringOf]
  cases type with
  | VariantSignature =>
    simp only [isSignatureValid, isSignatureValidRun, hg, hsize, hp, hlen, hb]
    simp
  | FullSignature =>
    simp only [isSignatureValid, isSignatureValidRun, hg, hsize, fullLoop, hlen2, hp, hb]
    simp

theorem parse_structs_deep (n : Nat) : ∀ (fuel : Nat) (nest : Nesting) (tail : List byte)
    (len : Int), 1 ≤ n → n ≤ fuel → 32 < nest.paren + n →
    ∃ s1 nest1, parseSingleCompleteType fuel ⟨some (List.replicate n (ch '(') ++ tail), len⟩ nest =
      some (false, s1, nest1) ∧ s1.deref = ch '(' := by
  induction n with
  | zero => intro fuel nest tail len h; omega
  | succ n ih =>
    intro fuel nest tail len _ hf hdeep
    obtain ⟨f, rfl⟩ : ∃ f, fuel = f + 1 := ⟨fuel - 1, by omega⟩
    have e1 : (ch '(' == ch 'v') = false := by decide
    simp only [List.replicate_succ, List.cons_append, parseSingleCompleteType, cstring.deref,
      cstring.get, List.getD_cons_zero, not_isBasicLetter_special, e1, Bool.false_eq_true,
      if_false, beq_self_eq_true, if_true]
    by_cases hb : nest.beginParen.1 = true
    · have hn : 1 ≤ n := by
        simp only [Nesting.beginParen, Nesting.parenMax, Bool.and_eq_true,
          decide_eq_true_eq] at hb
        push_cast at hdeep
        omega
      obtain ⟨f2, rfl⟩ : ∃ f2, f = f2 + 1 := ⟨f - 1, by omega⟩
      obtain ⟨s1, nest1, hp, hd⟩ := ih (f2 + 1) nest.beginParen.2 tail (len - 1) hn (by omega)
        (by simp only [Nesting.beginParen]; push_cast at hdeep ⊢; omega)
      refine ⟨s1, nest1, ?_, hd⟩
      simp only [hb, Bool.not_true, Bool.false_eq_true, if_false, chopFirst, Option.map_some',
        List.tail_cons, structLoop, hp, Bool.or_true, if_true]
    · refine ⟨⟨some (ch '(' :: (List.replicate n (ch '(') ++ tail)), len⟩, nest.beginParen.2, ?_,
        by simp [cstring.deref, cstring.get]⟩
      simp only [Bool.not_eq_true] at hb
      simp [hb]

theorem parse_arrays_deep (n : Nat) : ∀ (fuel : Nat) (nest : Nesting) (tail : List byte)
    (len : Int), 1 ≤ n → n ≤ fuel → 32 < nest.array + n →
    ∃ s1 nest1, parseSingleCompleteType fuel ⟨some (List.replicate n (ch 'a') ++ tail), len⟩ nest =
      some (false, s1, nest1) := by
  induction n with
  | zero => intro fuel nest tail len h; omega
  | succ n ih =>
    intro fuel nest tail len _ hf hdeep
    obtain ⟨f, rfl⟩ : ∃ f, fuel = f + 1 := ⟨fuel - 1, by omega⟩
    have e1 : (ch 'a' == ch 'v') = false := by decide
    have e2 : (ch 'a' == ch '(') = false := by decide
    have e3 : (ch 'a' == ch '{') = false := by decide
    simp only [List.replicate_succ, List.cons_append, parseSingleCompleteType, cstring.deref,
      cstring.get, List.getD_cons_zero, not_isBasicLetter_special, e1, e2, Bool.false_eq_true,
      if_false, beq_self_eq_true, if_true]
    by_cases hb : nest.beginArray.1 = true
    · have hn : 1 ≤ n := by
        simp only [Nesting.beginArray, Nesting.arrayMax, Bool.and_eq_true,
          decide_eq_true_eq] at hb
        push_cast at hdeep
        omega
      obtain ⟨n2, rfl⟩ : ∃ n2, n = n2 + 1 := ⟨n - 1, by omega⟩
      obtain ⟨s1, nest1, hp⟩ := ih f nest.beginArray.2 tail (len - 1) hn (by omega)
        (by simp only [Nesting.beginArray]; push_cast at hdeep ⊢; omega)
      refine ⟨s1, nest1, ?_⟩
      simp only [List.replicate_succ, List.cons_append] at hp
      simp only [hb, Bool.not_true, Bool.false_eq_true, if_false, chopFirst, Option.map_some',
        List.tail_cons, List.replicate_succ, List.cons_append, List.getD_cons_zero, e3, hp]
    · refine ⟨⟨some (ch 'a' :: (List.replicate n (ch 'a') ++ tail)), len⟩, nest.beginArray.2, ?_⟩
      simp only [Bool.not_eq_true] at hb
      simp [hb]

theorem seq_nestedStructs (n : Nat) : ∀ a p, p + n ≤ 32 → a + (p + n) ≤ 64 →
    Seq a p 1 (nestedStructs n) := by
  induction n with
  | zero =>
    intro a p _ _
    exact Seq.basic a p 0 (ch 'i') [] ((isBasicLetter_iff _).1 (by decide)) (Seq.nil a p)
  | succ n ih =>
    intro a p h1 h2
    have e : nestedStructs (n + 1) = ch '(' :: nestedStructs n ++ ch ')' :: [] := by
      have h1 : List.replicate (n + 1) (ch ')') = List.replicate n (ch ')') ++ [ch ')'] :=
        List.replicate_succ' ..
      simp only [nestedStructs]
      rw [h1, List.replicate_succ]
      simp
    rw [e]
    exact Seq.struct a p 0 0 _ [] (by omega) (by omega) (ih a (p + 1) (by omega) (by omega))
      (Seq.nil a p)

theorem seq_arrays (n : Nat) : ∀ a p t, a + n ≤ 32 → (a + n) + p ≤ 64 → Seq (a + n) p 1 t →
    Seq a p 1 (List.replicate n (ch 'a') ++ t) := by
  induction n with
  | zero => intro a p t _ _ h; simpa using h
  | succ n ih =>
    intro a p t h1 h2 h
    have := ih (a + 1) p t (by omega) (by omega) (by rw [Nat.add_assoc, Nat.add_comm 1]; exact h)
    have := Seq.array a p 0 _ [] (by omega) (by omega) this (Seq.nil a p)
    simpa [List.replicate_succ] using this

/-! ## Soundness of the parser: what it accepts with its counters restored -/

theorem Nesting.le_refl (n : Nesting) : Nesting.le n n := ⟨le_rfl, le_rfl, le_rfl⟩

theorem Nesting.le_trans {l m n : Nesting} (h1 : Nesting.le l m) (h2 : Nesting.le m n) :
    Nesting.le l n :=
  ⟨h1.1.trans h2.1, h1.2.1.trans h2.2.1, h1.2.2.trans h2.2.2⟩

theorem Nesting.le_antisymm {m n : Nesting} (h1 : Nesting.le m n) (h2 : Nesting.le n m) :
    m = n := by
  obtain ⟨a, p, v⟩ := m
  obtain ⟨a2, p2, v2⟩ := n
  simp only [Nesting.le] at h1 h2
  simp only [Nesting.mk.injEq]
  omega

theorem deref_cons (s : cstring) (h : s.deref ≠ 0) :
    ∃ m, s.begin = some (s.deref :: m) ∧ chopFirst s = ⟨some m, s.length - 1⟩ := by
  obtain ⟨b, len⟩ := s
  cases b with
  | none => simp [cstring.deref, cstring.get] at h
  | some m =>
    cases m with
    | nil => simp [cstring.deref, cstring.get] at h
    | cons c m => exact ⟨m, by simp [cstring.deref, cstring.get], by simp [chopFirst]⟩

theorem Advanced.refl (s : cstring) (m : List byte) (h : s.begin = some m) : Advanced s [] s := by
  obtain ⟨b, len⟩ := s
  simp only at h
  subst h
  exact ⟨m, by simp, by simp⟩

theorem Advanced.trans {s s1 s2 : cstring} {cs ds : List byte} (h1 : Advanced s cs s1)
    (h2 : Advanced s1 ds s2) : Advanced s (cs ++ ds) s2 := by
  obtain ⟨m, hm, rfl⟩ := h1
  obtain ⟨m2, hm2, rfl⟩ := h2
  simp only [Option.some.injEq] at hm2
  subst hm2
  refine ⟨m2, by simp [hm], ?_⟩
  simp only [List.length_append, Nat.cast_add, cstring.mk.injEq, true_and]
  omega

theorem Advanced.chop {s s1 : cstring} {cs : List byte} (c : byte) (m : List byte)
    (hs : s.begin = some (c :: m)) (h : Advanced ⟨some m, s.length - 1⟩ cs s1) :
    Advanced s (c :: cs) s1 := by
  obtain ⟨m2, hm2, rfl⟩ := h
  simp only [Option.some.injEq] at hm2
  subst hm2
  refine ⟨m2, by simp [hs], ?_⟩
  simp only [List.length_cons, Nat.cast_add, Nat.cast_one, cstring.mk.injEq, true_and]
  omega

theorem Seq.append {a p j k : Nat} {cs ds : List byte} (h1 : Seq a p j cs) (h2 : Seq a p k ds) :
    Seq a p (j + k) (cs ++ ds) := by
  induction h1 with
  | nil => simpa using h2
  | basic a p j c rest hc _ ih =>
    rw [show j + 1 + k = (j + k) + 1 from by omega]
    exact Seq.basic a p _ c _ hc (ih h2)
  | variant a p j rest hv _ ih =>
    rw [show j + 1 + k = (j + k) + 1 from by omega]
    exact Seq.variant a p _ _ hv (ih h2)
  | struct a p m j body rest h1 h2' hb _ _ ih =>
    rw [show j + 1 + k = (j + k) + 1 from by omega, List.append_assoc, List.cons_append]
    exact Seq.struct a p m _ body _ h1 h2' hb (ih h2)
  | array a p j t rest h1 h2' ht _ _ ih =>
    rw [show j + 1 + k = (j + k) + 1 from by omega, List.append_assoc]
    exact Seq.array a p _ t _ h1 h2' ht (ih h2)
  | dict a p j key t rest h1 h2' h3 hk ht _ _ ih =>
    rw [show j + 1 + k = (j + k) + 1 from by omega, List.append_assoc, List.cons_append]
    exact Seq.dict a p _ key t _ h1 h2' h3 hk ht (ih h2)

/-- The loop of the struct case, for a parser with `ParseSound`. -/
theorem structLoop_sound (parse : cstring → Nesting → Option ParseResult) (hp : ParseSound parse) :
    ∀ (n : Nat) (s : cstring) (nest : Nesting) (e e1 : Bool) (s1 : cstring) (nest1 : Nesting),
    structLoop parse n s nest e = some (e1, s1, nest1) →
    Nesting.le nest nest1 ∧
    (nest1 = nest → ∀ (a p : Nat) (m : List byte), nest = ⟨a, p, 0⟩ → s.begin = some m →
      ∃ k cs, Seq a p k cs ∧ Advanced s cs s1 ∧ e1 = (e && k == 0) ∧
        isStarter s1.deref = false) := by
  intro n
  induction n with
  | zero => intro s nest e e1 s1 nest1 h; simp [structLoop] at h
  | succ n ih =>
    intro s nest e e1 s1 nest1 h
    simp only [structLoop] at h
    split at h
    · simp at h
    · rename_i s2 nest2 hq
      obtain ⟨hle, hs⟩ := hp _ _ _ _ _ hq
      obtain ⟨hle2, hs2⟩ := ih _ _ _ _ _ _ h
      refine ⟨Nesting.le_trans hle hle2, ?_⟩
      intro heq a p m hform hm
      subst heq
      have e2 : nest2 = nest1 := Nesting.le_antisymm hle2 hle
      subst e2
      obtain ⟨cs, hseq, hadv⟩ := (hs rfl a p hform).1 rfl
      obtain ⟨m2, hm2, hs2b⟩ := hadv
      obtain ⟨k, ds, hseq2, hadv2, he, hst⟩ := hs2 rfl a p m2 hform (by rw [hs2b])
      refine ⟨1 + k, cs ++ ds, hseq.append hseq2, Advanced.trans ⟨m2, hm2, hs2b⟩ hadv2, ?_, hst⟩
      rw [he]
      simp
    · rename_i s2 nest2 hq
      obtain ⟨hle, hs⟩ := hp _ _ _ _ _ hq
      simp only [Option.some.injEq, Prod.mk.injEq] at h
      obtain ⟨rfl, rfl, rfl⟩ := h
      refine ⟨hle, ?_⟩
      intro heq a p m hform hm
      obtain ⟨h1, h2⟩ := (hs heq a p hform).2 rfl
      subst h1
      exact ⟨0, [], Seq.nil a p, Advanced.refl _ m hm, by simp, h2⟩

/-- The loop of `isSignatureValid`, for a parser with `ParseSound`. -/
theorem fullLoop_sound (parse : cstring → Nesting → Option ParseResult) (hp : ParseSound parse) :
    ∀ (n : Nat) (s : cstring) (nest : Nesting) (b : Bool) (s1 : cstring) (nest1 : Nesting),
    fullLoop parse n s nest = some (b, s1, nest1) →
    Nesting.le nest nest1 ∧
    (nest1 = nest → b = true → ∀ (a p : Nat) (m : List byte), nest = ⟨a, p, 0⟩ →
      s.begin = some m → ∃ k cs, Seq a p k cs ∧ Advanced s cs s1 ∧ s1.length = 0) := by
  intro n
  induction n with
  | zero => intro s nest b s1 nest1 h; simp [fullLoop] at h
  | succ n ih =>
    intro s nest b s1 nest1 h
    simp only [fullLoop] at h
    split at h
    · rename_i hl
      simp only [Option.some.injEq, Prod.mk.injEq] at h
      obtain ⟨rfl, rfl, rfl⟩ := h
      refine ⟨Nesting.le_refl _, ?_⟩
      intro _ _ a p m hform hm
      exact ⟨0, [], Seq.nil a p, Advanced.refl _ m hm, by simpa using hl⟩
    · split at h
      · simp at h
      · rename_i s2 nest2 hq
        obtain ⟨hle, hs⟩ := hp _ _ _ _ _ hq
        simp only [Option.some.injEq, Prod.mk.injEq] at h
        obtain ⟨rfl, rfl, rfl⟩ := h
        exact ⟨hle, fun _ hb => absurd hb (by simp)⟩
      · rename_i s2 nest2 hq
        obtain ⟨hle, hs⟩ := hp _ _ _ _ _ hq
        obtain ⟨hle2, hs2⟩ := ih _ _ _ _ _ h
        refine ⟨Nesting.le_trans hle hle2, ?_⟩
        intro heq hb a p m hform hm
        subst heq
        have e2 : nest2 = nest1 := Nesting.le_antisymm hle2 hle
        subst e2
        obtain ⟨cs, hseq, hadv⟩ := (hs rfl a p hform).1 rfl
        obtain ⟨m2, hm2, hs2b⟩ := hadv
        obtain ⟨k, ds, hseq2, hadv2, hl⟩ := hs2 rfl hb a p m2 hform (by rw [hs2b])
        exact ⟨1 + k, cs ++ ds, hseq.append hseq2, Advanced.trans ⟨m2, hm2, hs2b⟩ hadv2, hl⟩

theorem Nesting.le_beginVariant (n : Nesting) : Nesting.le n n.beginVariant.2 := by
  simp only [Nesting.le, Nesting.beginVariant]; omega

theorem Nesting.le_beginParen (n : Nesting) : Nesting.le n n.beginParen.2 := by
  simp only [Nesting.le, Nesting.beginParen]; omega

theorem Nesting.le_beginArray (n : Nesting) : Nesting.le n n.beginArray.2 := by
  simp only [Nesting.le, Nesting.beginArray]; omega

theorem Nesting.not_beginVariant_le (n : Nesting) : ¬ Nesting.le n.beginVariant.2 n := by
  simp only [Nesting.le, Nesting.beginVariant]; omega

theorem Nesting.not_beginParen_le (n : Nesting) : ¬ Nesting.le n.beginParen.2 n := by
  simp only [Nesting.le, Nesting.beginParen]; omega

theorem Nesting.not_beginArray_le (n : Nesting) : ¬ Nesting.le n.beginArray.2 n := by
  simp only [Nesting.le, Nesting.beginArray]; omega

theorem Nesting.le_endParen {n m : Nesting} (h : Nesting.le n.beginParen.2 m) :
    Nesting.le n m.endParen := by
  simp only [Nesting.le, Nesting.beginParen, Nesting.endParen] at *; omega

theorem Nesting.le_endArray {n m : Nesting} (h : Nesting.le n.beginArray.2 m) :
    Nesting.le n m.endArray := by
  simp only [Nesting.le, Nesting.beginArray, Nesting.endArray] at *; omega

theorem Nesting.eq_of_endParen {n m : Nesting} (h : m.endParen = n) : m = n.beginParen.2 := by
  subst h
  cases m
  simp [Nesting.beginParen, Nesting.endParen]

theorem Nesting.eq_of_endArray {n m : Nesting} (h : m.endArray = n) : m = n.beginArray.2 := by
  subst h
  cases m
  simp [Nesting.beginArray, Nesting.endArray]

theorem beginParen_form (a p : Nat) (h : (Nesting.beginParen ⟨a, p, 0⟩).1 = true) :
    p + 1 ≤ 32 ∧ a + (p + 1) ≤ 64 ∧
      (Nesting.beginParen ⟨a, p, 0⟩).2 = ⟨a, ((p + 1 : Nat) : Int), 0⟩ := by
  simp only [Nesting.beginParen, Nesting.total, Nesting.parenMax, Nesting.totalMax,
    Bool.and_eq_true, decide_eq_true_eq] at h
  refine ⟨by omega, by omega, ?_⟩
  simp [Nesting.beginParen]

theorem beginArray_form (a p : Nat) (h : (Nesting.beginArray ⟨a, p, 0⟩).1 = true) :
    a + 1 ≤ 32 ∧ (a + 1) + p ≤ 64 ∧
      (Nesting.beginArray ⟨a, p, 0⟩).2 = ⟨((a + 1 : Nat) : Int), p, 0⟩ := by
  simp only [Nesting.beginArray, Nesting.total, Nesting.arrayMax, Nesting.totalMax,
    Bool.and_eq_true, decide_eq_true_eq] at h
  refine ⟨by omega, by omega, ?_⟩
  simp [Nesting.beginArray]

theorem beginVariant_form (a p : Nat) (h : (Nesting.beginVariant ⟨a, p, 0⟩).1 = true) :
    a + p + 1 ≤ 64 := by
  simp only [Nesting.beginVariant, Nesting.total, Nesting.totalMax, decide_eq_true_eq] at h
  omega

theorem isStarter_false (c : byte) (h1 : isBasicLetter c = false) (h2 : (c == ch 'v') = false)
    (h3 : (c == ch '(') = false) (h4 : (c == ch 'a') = false) : isStarter c = false := by
  simp [isStarter, h1, h2, h3, h4]

theorem parseBasicType_true (s : cstring) (h : (parseBasicType s).1 = true) :
    isBasicLetter s.deref = true ∧ (parseBasicType s).2 = chopFirst s := by
  unfold parseBasicType at h ⊢
  split at h
  · simp at h
  · split at h
    · rename_i hneg hb
      simp [hb, hneg]
    · simp at h

/-- Every terminating call of the parser has `ParseSound`. -/
theorem parseSingleCompleteType_sound (fuel : Nat) :
    ParseSound (parseSingleCompleteType fuel) := by
  induction fuel with
  | zero => intro s nest b s1 nest1 h; simp [parseSingleCompleteType] at h
  | succ f ih =>
    intro s nest b s1 nest1 h
    simp only [parseSingleCompleteType] at h
    split at h
    · -- a basic type
      rename_i hb
      simp only [Option.some.injEq, Prod.mk.injEq] at h
      obtain ⟨rfl, rfl, rfl⟩ := h
      refine ⟨Nesting.le_refl _, fun _ a p _ => ⟨fun _ => ?_, fun hf => absurd hf (by simp)⟩⟩
      have hne : s.deref ≠ 0 := by
        intro e0; rw [e0, ch_ne_zero.1] at hb; exact absurd hb (by simp)
      obtain ⟨m, hm, hch⟩ := deref_cons s hne
      exact ⟨[s.deref], Seq.basic a p 0 _ [] ((isBasicLetter_iff _).1 hb) (Seq.nil a p),
        ⟨m, by simpa using hm, by rw [hch]; simp⟩⟩
    rename_i hnb
    split at h
    · -- a variant
      rename_i hv
      have hd : s.deref = ch 'v' := by simpa using hv
      split at h
      · simp only [Option.some.injEq, Prod.mk.injEq] at h
        obtain ⟨rfl, rfl, rfl⟩ := h
        exact ⟨Nesting.le_beginVariant _, fun heq =>
          (Nesting.not_beginVariant_le nest (by rw [heq]; exact Nesting.le_refl _)).elim⟩
      · rename_i hok
        simp only [Option.some.injEq, Prod.mk.injEq] at h
        obtain ⟨rfl, rfl, rfl⟩ := h
        rw [Nesting.endVariant_beginVariant]
        refine ⟨Nesting.le_refl _, fun _ a p hform => ⟨fun _ => ?_, fun hf => absurd hf (by simp)⟩⟩
        subst hform
        obtain ⟨m, hm, hch⟩ := deref_cons s (by rw [hd]; exact ch_ne_zero.2.1)
        rw [hd] at hm
        exact ⟨[ch 'v'], Seq.variant a p 0 [] (beginVariant_form a p (by simpa using hok))
          (Seq.nil a p), ⟨m, by simpa using hm, by rw [hch]; simp⟩⟩
    rename_i hnv
    split at h
    · -- a struct
      rename_i hv
      have hd : s.deref = ch '(' := by simpa using hv
      split at h
      · simp only [Option.some.injEq, Prod.mk.injEq] at h
        obtain ⟨rfl, rfl, rfl⟩ := h
        exact ⟨Nesting.le_beginParen _, fun heq =>
          (Nesting.not_beginParen_le nest (by rw [heq]; exact Nesting.le_refl _)).elim⟩
      · rename_i hok
        split at h
        · simp at h
        · rename_i e2 s2 nest2 hq
          obtain ⟨hle2, hs2⟩ := structLoop_sound _ ih _ _ _ _ _ _ _ hq
          split at h
          · simp only [Option.some.injEq, Prod.mk.injEq] at h
            obtain ⟨rfl, rfl, rfl⟩ := h
            exact ⟨Nesting.le_trans (Nesting.le_beginParen _) hle2, fun heq =>
              absurd (heq ▸ hle2) (Nesting.not_beginParen_le nest)⟩
          · rename_i hc
            simp only [Option.some.injEq, Prod.mk.injEq] at h
            obtain ⟨rfl, rfl, rfl⟩ := h
            refine ⟨Nesting.le_endParen hle2, fun heq a p hform =>
              ⟨fun _ => ?_, fun hf => absurd hf (by simp)⟩⟩
            have hn2 := Nesting.eq_of_endParen heq
            subst hform
            obtain ⟨hp1, hp2, hbf⟩ := beginParen_form a p (by simpa using hok)
            obtain ⟨m, hm, hch⟩ := deref_cons s (by rw [hd]; exact ch_ne_zero.2.2.1)
            rw [hd] at hm
            obtain ⟨k, body, hseq, hadv, he, -⟩ :=
              hs2 hn2 a (p + 1) m hbf (by rw [hch])
            simp only [Bool.or_eq_true, not_or, bne_iff_ne, ne_eq, Decidable.not_not,
              beq_iff_eq, Bool.not_eq_true] at hc
            obtain ⟨⟨-, hd2⟩, he2⟩ := hc
            obtain ⟨j, rfl⟩ : ∃ j, k = j + 1 := by
              cases k with
              | zero => rw [he2] at he; simp at he
              | succ j => exact ⟨j, rfl⟩
            obtain ⟨m3, hm3, hch3⟩ := deref_cons s2 (by rw [hd2]; exact ch_ne_zero.2.2.2.1)
            rw [hd2] at hm3
            rw [hch] at hadv
            have hadv3 : Advanced s2 [ch ')'] (chopFirst s2) :=
              ⟨m3, by simpa using hm3, by rw [hch3]; simp⟩
            exact ⟨ch '(' :: body ++ ch ')' :: [],
              Seq.struct a p j 0 body [] hp1 hp2 hseq (Seq.nil a p),
              Advanced.chop _ m hm (Advanced.trans hadv hadv3)⟩
    rename_i hns
    split at h
    · -- an array or a dict
      rename_i hv
      have hd : s.deref = ch 'a' := by simpa using hv
      obtain ⟨m, hm, hch⟩ := deref_cons s (by rw [hd]; exact ch_ne_zero.2.2.2.2.1)
      rw [hd] at hm
      rw [hch] at h
      split at h
      · simp only [Option.some.injEq, Prod.mk.injEq] at h
        obtain ⟨rfl, rfl, rfl⟩ := h
        exact ⟨Nesting.le_beginArray _, fun heq =>
          (Nesting.not_beginArray_le nest (by rw [heq]; exact Nesting.le_refl _)).elim⟩
      · rename_i hok
        split at h
        · -- a dict
          rename_i hdict
          obtain ⟨m1, rfl⟩ : ∃ m1, m = ch '{' :: m1 := by
            cases m with
            | nil =>
              simp only [cstring.deref, cstring.get, List.getD_nil, beq_iff_eq] at hdict
              exact absurd hdict.symm ch_ne_zero.2.2.2.2.2.1
            | cons c m1 =>
              simp only [cstring.deref, cstring.get, List.getD_cons_zero, beq_iff_eq] at hdict
              exact ⟨m1, by rw [hdict]⟩
          simp only [chopFirst, Option.map_some', List.tail_cons] at h
          have habove : ∀ n : Nesting, Nesting.le nest.beginArray.2.beginParen.2 n →
              Nesting.le nest n ∧ (n = nest → False) := by
            intro n hn
            have h1 := Nesting.le_trans (Nesting.le_beginParen nest.beginArray.2) hn
            exact ⟨Nesting.le_trans (Nesting.le_beginArray _) h1, fun heq =>
              Nesting.not_beginArray_le nest (heq ▸ h1)⟩
          split at h
          · simp only [Option.some.injEq, Prod.mk.injEq] at h
            obtain ⟨rfl, rfl, rfl⟩ := h
            obtain ⟨h1, h2⟩ := habove _ (Nesting.le_refl _)
            exact ⟨h1, fun heq => (h2 heq).elim⟩
          · rename_i hok2
            split at h
            · simp only [Option.some.injEq, Prod.mk.injEq] at h
              obtain ⟨rfl, rfl, rfl⟩ := h
              obtain ⟨h1, h2⟩ := habove _ (Nesting.le_refl _)
              exact ⟨h1, fun heq => (h2 heq).elim⟩
            · rename_i hkey
              obtain ⟨hkb1, hkb2⟩ := parseBasicType_true _ (by simpa using hkey)
              rw [hkb2] at h
              obtain ⟨key, m2, rfl⟩ : ∃ key m2, m1 = key :: m2 := by
                cases m1 with
                | nil =>
                  simp only [cstring.deref, cstring.get, List.getD_nil, ch_ne_zero.1] at hkb1
                  exact absurd hkb1 (by simp)
                | cons key m2 => exact ⟨key, m2, rfl⟩
              simp only [cstring.deref, cstring.get, List.getD_cons_zero] at hkb1
              simp only [chopFirst, Option.map_some', List.tail_cons] at h
              split at h
              · simp at h
              · rename_i s4 nest4 hq
                obtain ⟨hle4, -⟩ := ih _ _ _ _ _ hq
                simp only [Option.some.injEq, Prod.mk.injEq] at h
                obtain ⟨rfl, rfl, rfl⟩ := h
                obtain ⟨h1, h2⟩ := habove _ hle4
                exact ⟨h1, fun heq => (h2 heq).elim⟩
              · rename_i s4 nest4 hq
                obtain ⟨hle4, hs4⟩ := ih _ _ _ _ _ hq
                split at h
                · simp only [Option.some.injEq, Prod.mk.injEq] at h
                  obtain ⟨rfl, rfl, rfl⟩ := h
                  obtain ⟨h1, h2⟩ := habove _ hle4
                  exact ⟨h1, fun heq => (h2 heq).elim⟩
                · rename_i hc
                  simp only [Option.some.injEq, Prod.mk.injEq] at h
                  obtain ⟨rfl, rfl, rfl⟩ := h
                  refine ⟨Nesting.le_endArray (Nesting.le_endParen hle4), fun heq a p hform =>
                    ⟨fun _ => ?_, fun hf => absurd hf (by simp)⟩⟩
                  have hn4 := Nesting.eq_of_endParen (Nesting.eq_of_endArray heq)
                  subst hform
                  obtain ⟨ha1, ha2, haf⟩ := beginArray_form a p (by simpa using hok)
                  simp only [Bool.or_eq_true, not_or, Bool.not_eq_true', decide_eq_true_eq,
                    not_lt, Bool.not_eq_true] at hok2
                  rw [haf] at hok2 hn4 hs4
                  obtain ⟨hp1, hp2, hpf⟩ := beginParen_form (a + 1) p (by simpa using hok2.1)
                  rw [hpf] at hn4 hs4
                  obtain ⟨t, hseq, hadv⟩ := (hs4 hn4 (a + 1) (p + 1) rfl).1 rfl
                  simp only [Bool.or_eq_true, not_or, bne_iff_ne, ne_eq, Decidable.not_not,
                    beq_iff_eq] at hc
                  obtain ⟨-, hd4⟩ := hc
                  obtain ⟨m5, hm5, hch5⟩ := deref_cons s4 (by
                    rw [hd4]; exact ch_ne_zero.2.2.2.2.2.2)
                  rw [hd4] at hm5
                  have hadv5 : Advanced s4 [ch '}'] (chopFirst s4) :=
                    ⟨m5, by simpa using hm5, by rw [hch5]; simp⟩
                  refine ⟨ch 'a' :: ch '{' :: key :: t ++ ch '}' :: [],
                    Seq.dict a p 0 key t [] ha1 hp1 (by omega) ((isBasicLetter_iff _).1 hkb1) hseq
                      (Seq.nil a p), ?_⟩
                  refine Advanced.chop _ _ hm ?_
                  refine Advanced.chop (s := ⟨some (ch '{' :: key :: m2), s.length - 1⟩) _ _ rfl ?_
                  refine Advanced.chop (s := ⟨some (key :: m2), s.length - 1 - 1⟩) _ _ rfl ?_
                  exact Advanced.trans hadv hadv5
        · -- a regular array
          rename_i hnd
          split at h
          · simp at h
          · rename_i s2 nest2 hq
            obtain ⟨hle2, -⟩ := ih _ _ _ _ _ hq
            simp only [Option.some.injEq, Prod.mk.injEq] at h
            obtain ⟨rfl, rfl, rfl⟩ := h
            exact ⟨Nesting.le_trans (Nesting.le_beginArray _) hle2, fun heq =>
              absurd (heq ▸ hle2) (Nesting.not_beginArray_le nest)⟩
          · rename_i s2 nest2 hq
            obtain ⟨hle2, hs2⟩ := ih _ _ _ _ _ hq
            simp only [Option.some.injEq, Prod.mk.injEq] at h
            obtain ⟨rfl, rfl, rfl⟩ := h
            refine ⟨Nesting.le_endArray hle2, fun heq a p hform =>
              ⟨fun _ => ?_, fun hf => absurd hf (by simp)⟩⟩
            have hn2 := Nesting.eq_of_endArray heq
            subst hform
            obtain ⟨ha1, ha2, haf⟩ := beginArray_form a p (by simpa using hok)
            obtain ⟨t, hseq, hadv⟩ := (hs2 hn2 (a + 1) p haf).1 rfl
            exact ⟨ch 'a' :: t ++ [], Seq.array a p 0 t [] ha1 ha2 hseq (Seq.nil a p),
              by simpa using Advanced.chop _ m hm hadv⟩
    · -- no type starts here
      rename_i hna
      simp only [Option.some.injEq, Prod.mk.injEq] at h
      obtain ⟨rfl, rfl, rfl⟩ := h
      refine ⟨Nesting.le_refl _, fun _ a p _ => ⟨fun hf => absurd hf (by simp), fun _ => ⟨rfl, ?_⟩⟩⟩
      exact isStarter_false _ (by simpa using hnb) (by simpa using hnv) (by simpa using hns)
        (by simpa using hna)

theorem isSignatureValidRun_of_single (cs : List byte) (h : Seq 0 0 1 cs) :
    isSignatureValidRun (cs.length + 1 + 1) (cstringOf cs) .VariantSignature =
      some (true, Nesting.init) := by
  have hcnt := h.count_le
  have hp := parse_of_parseTimes_one _ _ _ _ _
    (parseTimes_of_seq h [0] cs.length (cs.length + 1 + 1) (by simp) (le_refl _))
  have hinit : Nesting.init = ⟨((0 : Nat) : Int), ((0 : Nat) : Int), 0⟩ := rfl
  have hlen : ((cs.length : Int) != 0) = true := by
    simp only [bne_iff_ne, ne_eq]; omega
  have hg := cstringOf_get_length cs
  simp only [isSignatureValidRun, hg]
  simp only [cstringOf, hinit, hp, hlen]
  simp

theorem isSignatureValidRun_of_signature (cs : List byte) (k : Nat) (h : Seq 0 0 k cs) :
    isSignatureValidRun (cs.length + 1 + 1) (cstringOf cs) .FullSignature =
      some (true, Nesting.init) := by
  have hcnt := h.count_le
  have hp := parseTimes_of_seq h [0] cs.length (cs.length + 1 + 1) (by simp) (le_refl _)
  have hinit : Nesting.init = ⟨((0 : Nat) : Int), ((0 : Nat) : Int), 0⟩ := rfl
  have hg := cstringOf_get_length cs
  obtain ⟨n, hn⟩ : ∃ n, cs.length + 1 + 1 = (n + 1) + k := ⟨cs.length + 1 - k, by omega⟩
  have hl := fullLoop_of_parseTimes _ k _ _ _ _ (n + 1) hp
  rw [← hn] at hl
  simp only [isSignatureValidRun, hg]
  simp only [cstringOf, hinit, hl]
  simp [fullLoop]

theorem cstringOf_size (cs : List byte) : (cstringOf cs).size = cs.length + 1 := by
  simp [cstringOf, cstring.size]

/-- `isSignatureValid` returns `true` with its closing asserts satisfied exactly when the run
ends with `true` and all counters at zero. -/
theorem isSignatureValid_asserts_iff (s : cstring) (type : SignatureType) :
    (isSignatureValid s type = true ∧ isSignatureValidAsserts s type = true) ↔
      isSignatureValidRun (s.size + 1) s type = some (true, Nesting.init) := by
  unfold isSignatureValid isSignatureValidAsserts
  cases hr : isSignatureValidRun (s.size + 1) s type with
  | none => simp
  | some r =>
    obtain ⟨b, a, p, v⟩ := r
    cases b <;> simp [Nesting.init, and_assoc]

theorem advanced_cstringOf {cs ds : List byte} {s1 : cstring}
    (h : Advanced (cstringOf cs) ds s1) (hl : s1.length = 0) : ds = cs := by
  obtain ⟨m, hm, rfl⟩ := h
  simp only [cstringOf, Option.some.injEq] at hm
  simp only [cstringOf] at hl
  have hlen : ds.length = cs.length := by omega
  exact ((List.append_inj hm hlen.symm).1).symm

/-- With the closing asserts satisfied, `FullSignature` mode accepts exactly the signatures of
the grammar. -/
theorem isSignatureValid_full_iff (cs : List byte) :
    (isSignatureValid (cstringOf cs) .FullSignature = true ∧
      isSignatureValidAsserts (cstringOf cs) .FullSignature = true) ↔ IsSignature cs := by
  rw [isSignatureValid_asserts_iff, cstringOf_size]
  constructor
  · intro h
    have hg := cstringOf_get_length cs
    simp only [isSignatureValidRun, hg] at h
    have hb : (cstringOf cs).begin.isNone = false := by simp [cstringOf]
    simp only [hb, bne_self_eq_false, Bool.or_false, Bool.false_eq_true, if_false] at h
    split at h
    · simp at h
    · rename_i b s1 nest1 hq
      simp only [Option.some.injEq, Prod.mk.injEq] at h
      obtain ⟨rfl, rfl⟩ := h
      obtain ⟨-, hs⟩ := fullLoop_sound _ (parseSingleCompleteType_sound _) _ _ _ _ _ _ hq
      obtain ⟨k, ds, hseq, hadv, hl⟩ := hs rfl rfl 0 0 (cs ++ [0]) rfl rfl
      rw [advanced_cstringOf hadv hl] at hseq
      exact ⟨k, hseq⟩
  · rintro ⟨k, h⟩
    exact isSignatureValidRun_of_signature cs k h

/-- With the closing asserts satisfied, `VariantSignature` mode accepts exactly the empty
signature and the single complete types of the grammar. -/
theorem isSignatureValid_variant_iff (cs : List byte) :
    (isSignatureValid (cstringOf cs) .VariantSignature = true ∧
      isSignatureValidAsserts (cstringOf cs) .VariantSignature = true) ↔
      (cs = [] ∨ IsSingleCompleteType cs) := by
  rw [isSignatureValid_asserts_iff, cstringOf_size]
  constructor
  · intro h
    by_cases hcs : cs = []
    · exact Or.inl hcs
    · right
      have hg := cstringOf_get_length cs
      have hlen : ((cstringOf cs).length != 0) = true := by
        simp only [cstringOf, bne_iff_ne, ne_eq, Nat.cast_eq_zero, List.length_eq_zero]
        exact hcs
      have hb : (cstringOf cs).begin.isNone = false := by simp [cstringOf]
      simp only [isSignatureValidRun, hg, hlen, hb, bne_self_eq_false, Bool.or_false,
        Bool.false_eq_true, if_false, if_true] at h
      split at h
      · simp at h
      · simp at h
      · rename_i s1 nest1 hq
        split at h
        · simp at h
        · rename_i hl
          simp only [Option.some.injEq, Prod.mk.injEq, true_and] at h
          subst h
          obtain ⟨-, hs⟩ := parseSingleCompleteType_sound _ _ _ _ _ _ hq
          obtain ⟨ds, hseq, hadv⟩ := (hs rfl 0 0 rfl).1 rfl
          rw [advanced_cstringOf hadv (by simpa using hl)] at hseq
          exact hseq
  · rintro (rfl | h)
    · decide
    · exact isSignatureValidRun_of_single cs h

theorem not_isSignature_unclosed_array : ¬ IsSignature ("(ia)".toList.map ch) := by
  intro h
  have h2 := (isSignatureValid_full_iff ("(ia)".toList.map ch)).2 h
  revert h2
  decide

/-! ## The claims on the signature validator -/

/-- C1: `isSignatureValid` in `FullSignature` mode is meant to accept exactly the concatenations
of single complete types within the nesting limits and to reject every signature with an
incomplete aggregate.  On `(ia)`, a struct holding an `a` with no element type, it returns
`true` although `(ia)` is not a signature of the grammar, and the counter `nest.array` is 1
where its closing `assert(!nest.array)` stands: a failed inner parse is not undone. -/
theorem isSignatureValid_accepts_unclosed_array :
    isSignatureValid (lit "(ia)") .FullSignature = true ∧
    ¬ IsSignature ("(ia)".toList.map ch) ∧
    isSignatureValidRun 6 (lit "(ia)") .FullSignature = some (true, ⟨1, 0, 0⟩) ∧
    isSignatureValidAsserts (lit "(ia)") .FullSignature = false :=
  ⟨by decide, not_isSignature_unclosed_array, by decide, by decide⟩

/-- C2 (counterexample): the empty signature is accepted in `VariantSignature` mode, and it is
not a single complete type. -/
theorem isSignatureValid_variant_accepts_empty :
    isSignatureValid (lit "") .VariantSignature = true ∧ ¬ IsSingleCompleteType [] :=
  ⟨by decide, fun h => absurd h.count_le (by simp)⟩

/-- C2 (amended): in `VariantSignature` mode `isSignatureValid` returns `true` with its three
closing assertions satisfied if and only if the signature is empty or exactly one single
complete type within the nesting limits that consumes the whole string; it returns `true` for
the empty signature and for every such type; `iqb` and `aii` are rejected, `i`, `ai` and
`a(iaia{ia{iv}})` are accepted. -/
theorem isSignatureValid_variant :
    (∀ cs : List byte,
      (isSignatureValid (cstringOf cs) .VariantSignature = true ∧
        isSignatureValidAsserts (cstringOf cs) .VariantSignature = true) ↔
      (cs = [] ∨ IsSingleCompleteType cs)) ∧
    (∀ cs : List byte, cs = [] ∨ IsSingleCompleteType cs →
      isSignatureValid (cstringOf cs) .VariantSignature = true) ∧
    isSignatureValid (lit "iqb") .VariantSignature = false ∧
    isSignatureValid (lit "aii") .VariantSignature = false ∧
    isSignatureValid (lit "i") .VariantSignature = true ∧
    isSignatureValid (lit "ai") .VariantSignature = true ∧
    isSignatureValid (lit "a(iaia\x7bia\x7biv\x7d\x7d)") .VariantSignature = true :=
  ⟨isSignatureValid_variant_iff,
    fun cs h => ((isSignatureValid_variant_iff cs).2 h).1,
    by decide, by decide, by decide, by decide, by decide⟩

theorem isSignatureValid_variant_witness :
    isSignatureValid (cstringOf [ch 'a', ch 'y']) .VariantSignature = true :=
  isSignatureValid_variant.2.1 [ch 'a', ch 'y']
    (Or.inr (Seq.array 0 0 0 [ch 'y'] [] (by decide) (by decide)
      (Seq.basic 1 0 0 (ch 'y') [] ((isBasicLetter_iff _).1 (by decide)) (Seq.nil 1 0))
      (Seq.nil 0 0)))

/-- C3: every signature that contains an empty struct `()` is meant to be rejected in both
modes.  `(ia()` contains `()` and `isSignatureValid` returns `true` for it in both modes (with
`nest.array` and `nest.paren` at 1 where the closing asserts stand); `()` and `(())` are
rejected and `(t)` is accepted. -/
theorem isSignatureValid_accepts_empty_struct :
    (∃ pre post, "(ia()".toList.map ch = pre ++ "()".toList.map ch ++ post) ∧
    isSignatureValid (lit "(ia()") .FullSignature = true ∧
    isSignatureValid (lit "(ia()") .VariantSignature = true ∧
    isSignatureValidRun 7 (lit "(ia()") .FullSignature = some (true, ⟨1, 1, 0⟩) ∧
    isSignatureValidAsserts (lit "(ia()") .FullSignature = false ∧
    (∀ type, isSignatureValid (lit "()") type = false ∧
      isSignatureValid (lit "(())") type = false ∧ isSignatureValid (lit "(t)") type = true) :=
  ⟨⟨"(ia".toList.map ch, [], by decide⟩, by decide, by decide, by decide, by decide,
    fun type => by cases type <;> decide⟩

/-- C4: every signature in which an `a{` is followed by a character that is not basic is meant
to be rejected in both modes.  In `(((ia{)))` the `a{` is followed by `)` and
`isSignatureValid` returns `true` for it in both modes; `a{vi}` is rejected. -/
theorem isSignatureValid_accepts_bad_dict_key :
    (∃ pre c post, "(((ia\x7b)))".toList.map ch = pre ++ ch 'a' :: ch '{' :: c :: post ∧
      ¬ IsBasic c) ∧
    isSignatureValid (lit "(((ia\x7b)))") .FullSignature = true ∧
    isSignatureValid (lit "(((ia\x7b)))") .VariantSignature = true ∧
    isSignatureValidAsserts (lit "(((ia\x7b)))") .FullSignature = false ∧
    (∀ type, isSignatureValid (lit "a\x7bvi\x7d") type = false) :=
  ⟨⟨"(((i".toList.map ch, ch ')', "))".toList.map ch, by decide,
      fun h => absurd ((isBasicLetter_iff _).2 h) (by decide)⟩,
    by decide, by decide, by decide, fun type => by cases type <;> decide⟩

/-- C5: for every `n ≥ 1`, `n` nested structs around an `i` are accepted (in both modes) if and
only if `n ≤ 32`, and `n` nested arrays of `i` are accepted if and only if `n ≤ 32`; 32 arrays
around 32 structs around an `i` (total depth 64) are accepted. -/
theorem isSignatureValid_nesting_limits :
    (∀ n, 1 ≤ n → ∀ type,
      (isSignatureValid (cstringOf (nestedStructs n)) type = true ↔ n ≤ 32)) ∧
    (∀ n, 1 ≤ n → ∀ type,
      (isSignatureValid (cstringOf (nestedArrays n)) type = true ↔ n ≤ 32)) ∧
    (∀ type, isSignatureValid
      (cstringOf (List.replicate 32 (ch 'a') ++ nestedStructs 32)) type = true) := by
  have hacc : ∀ cs, Seq 0 0 1 cs → ∀ type, isSignatureValid (cstringOf cs) type = true := by
    intro cs h type
    cases type with
    | FullSignature => exact isSignatureValid_of_signature cs 1 h
    | VariantSignature => exact isSignatureValid_of_single cs h
  refine ⟨?_, ?_, ?_⟩
  · intro n hn type
    constructor
    · intro h
      by_contra hgt
      obtain ⟨s1, nest1, hp, -⟩ := parse_structs_deep n ((nestedStructs n).length + 1 + 1)
        Nesting.init (ch 'i' :: List.replicate n (ch ')') ++ [0]) (nestedStructs n).length hn
        (by simp [nestedStructs]; omega) (by simp only [Nesting.init]; omega)
      have hne : nestedStructs n ≠ [] := by simp [nestedStructs]
      have := isSignatureValid_of_parse_false _ hne s1 nest1
        (by simpa [cstringOf, nestedStructs] using hp) type
      rw [this] at h
      exact absurd h (by simp)
    · intro h
      exact hacc _ (seq_nestedStructs n 0 0 (by omega) (by omega)) type
  · intro n hn type
    constructor
    · intro h
      by_contra hgt
      obtain ⟨s1, nest1, hp⟩ := parse_arrays_deep n ((nestedArrays n).length + 1 + 1)
        Nesting.init ([ch 'i'] ++ [0]) (nestedArrays n).length hn
        (by simp [nestedArrays]; omega) (by simp only [Nesting.init]; omega)
      have hne : nestedArrays n ≠ [] := by simp [nestedArrays]
      have := isSignatureValid_of_parse_false _ hne s1 nest1
        (by simpa [cstringOf, nestedArrays] using hp) type
      rw [this] at h
      exact absurd h (by simp)
    · intro h
      exact hacc _ (seq_arrays n 0 0 _ (by omega) (by omega)
        (Seq.basic _ 0 0 (ch 'i') [] ((isBasicLetter_iff _).1 (by decide)) (Seq.nil _ 0))) type
  · intro type
    exact hacc _ (seq_arrays 32 0 0 _ (by omega) (by omega)
      (seq_nestedStructs 32 32 0 (by omega) (by omega))) type

theorem isSignatureValid_nesting_limits_witness :
    (isSignatureValid (cstringOf (nestedStructs 33)) .FullSignature = true ↔ 33 ≤ 32) ∧
    (isSignatureValid (cstringOf (nestedArrays 32)) .VariantSignature = true ↔ 32 ≤ 32) :=
  ⟨isSignatureValid_nesting_limits.1 33 (by decide) .FullSignature,
    isSignatureValid_nesting_limits.2.1 32 (by decide) .VariantSignature⟩

/-! ## Claims on cursors -/

namespace ReadCursor

theorem doReadPrimitiveType_argList (c : ReadCursor) :
    c.doReadPrimitiveType.2.m_argList = c.m_argList := by
  unfold doReadPrimitiveType
  dsimp only
  repeat' split
  all_goals rfl

theorem doReadString_argList (c : ReadCursor) (n : Int) :
    (c.doReadString n).2.m_argList = c.m_argList := by
  unfold doReadString
  dsimp only
  repeat' split
  all_goals rfl

theorem outNeedMoreData_argList (c : ReadCursor) (p q : Int) :
    (c.outNeedMoreData p q).m_argList = c.m_argList := rfl

theorem beginVariantCase_argList (c : ReadCursor) (p q : Int) :
    (c.beginVariantCase p q).m_argList = c.m_argList := by
  have h : (readVariantSignature c).2.m_argList = c.m_argList := by
    unfold readVariantSignature
    split <;> rfl
  unfold beginVariantCase
  dsimp only
  repeat' split
  all_goals first | rfl | exact h

theorem pushArray_argList (c : ReadCursor) (d : Bool) (n : Nat) (e : Int) :
    (c.pushArray d n e).m_argList = c.m_argList := by
  unfold pushArray
  dsimp only
  repeat' split
  all_goals rfl

theorem enterArray_argList (c : ReadCursor) (n : Nat) (p q : Int) :
    (c.enterArray n p q).m_argList = c.m_argList := by
  unfold enterArray
  dsimp only
  repeat' split
  all_goals first | rfl | (rw [pushArray_argList])

theorem beginArrayCase_argList (c : ReadCursor) (p q : Int) :
    (c.beginArrayCase p q).m_argList = c.m_argList := by
  unfold beginArrayCase
  dsimp only
  repeat' split
  all_goals first | rfl | (rw [enterArray_argList])

theorem advanceStateAggregate_argList (c : ReadCursor) (p q : Int) :
    (c.advanceStateAggregate p q).m_argList = c.m_argList := by
  unfold advanceStateAggregate
  split
  · unfold beginStructCase; dsimp only; split <;> rfl
  · rfl
  · exact beginVariantCase_argList c p q
  · exact beginArrayCase_argList c p q
  · rfl

theorem advanceStateData_argList (c : ReadCursor) (ti : TypeInfo) (p q : Int) :
    (c.advanceStateData ti p q).m_argList = c.m_argList := by
  unfold advanceStateData
  split
  · rfl
  · split
    · exact doReadPrimitiveType_argList c
    · split
      · unfold readStringCase
        dsimp only
        split
        · exact doReadString_argList c _
        · exact doReadString_argList c _
      · exact advanceStateAggregate_argList c p q

theorem advanceStateType_argList (c : ReadCursor) (p q : Int) :
    (c.advanceStateType p q).m_argList = c.m_argList := by
  unfold advanceStateType
  dsimp only
  split
  · rfl
  · split
    · rfl
    · rw [advanceStateData_argList]

theorem advanceState_argList (c : ReadCursor) : c.advanceState.m_argList = c.m_argList := by
  unfold advanceState
  dsimp only
  repeat' split
  all_goals first | rfl | (rw [advanceStateType_argList])

theorem create_argList (al : Option ArgumentList) : (create al).m_argList = al := by
  unfold create
  cases al with
  | none => rfl
  | some a =>
    dsimp only
    rw [advanceState_argList]
    split <;> rfl

/-- On a cursor in state `InvalidData`, `advanceState` changes nothing. -/
theorem advanceState_invalid (c : ReadCursor) (h : c.m_state = .InvalidData) :
    c.advanceState = c := by
  unfold advanceState
  simp [h]

end ReadCursor

theorem ArgumentList.beginReads_spec (n : Nat) : ∀ (al : ArgumentList),
    al.m_hasWriteCursor = false →
    (al.beginReads n).1.length = n ∧ (∀ c ∈ (al.beginReads n).1, c.isValid = true) ∧
    (al.beginReads n).2.m_readCursorCount = al.m_readCursorCount + n ∧
    (al.beginReads n).2.m_hasWriteCursor = false := by
  induction n with
  | zero => intro al h; simp [ArgumentList.beginReads, h]
  | succ n ih =>
    intro al h
    have hr : al.beginRead = (ReadCursor.create
        (some { al with m_readCursorCount := al.m_readCursorCount + 1 }),
        { al with m_readCursorCount := al.m_readCursorCount + 1 }) := by
      simp [ArgumentList.beginRead, h]
    obtain ⟨h1, h2, h3, h4⟩ := ih { al with m_readCursorCount := al.m_readCursorCount + 1 } h
    simp only [ArgumentList.beginReads, hr]
    refine ⟨by simp [h1], ?_, ?_, h4⟩
    · intro c hc
      rcases List.mem_cons.1 hc with rfl | hc
      · simp [ReadCursor.isValid, ReadCursor.create_argList]
      · exact h2 c hc
    · rw [h3]; push_cast; ring

theorem WriteCursor.writeCursor_argList (al : Option ArgumentList) :
    (WriteCursor.create al).m_argList = al := rfl

/-- C9: claim arbitration on an `ArgumentList`.  `beginWrite` returns an invalid cursor (one
made from the null pointer) and leaves the `ArgumentList` as it was whenever a write cursor exists or the reader count is not
zero; `beginRead` returns an invalid cursor and leaves the `ArgumentList` (so the reader count)
as it was whenever a write cursor exists; without a write cursor `beginRead` returns a valid
cursor, and any number `n` of calls in a row return `n` valid cursors and raise the reader
count by `n`. -/
theorem claim_arbitration (al : ArgumentList) :
    ((al.m_hasWriteCursor = true ∨ al.m_readCursorCount ≠ 0) →
      al.beginWrite.1.m_argList = none ∧ al.beginWrite.1.isValid = false ∧
        al.beginWrite.2 = al) ∧
    (al.m_hasWriteCursor = true →
      al.beginRead.1.m_argList = none ∧ al.beginRead.1.isValid = false ∧ al.beginRead.2 = al) ∧
    (al.m_hasWriteCursor = false →
      al.beginRead.1.isValid = true ∧
      ∀ n : Nat, (al.beginReads n).1.length = n ∧
        (∀ c ∈ (al.beginReads n).1, c.isValid = true) ∧
        (al.beginReads n).2.m_readCursorCount = al.m_readCursorCount + n) := by
  refine ⟨?_, ?_, ?_⟩
  · intro h
    have hc : (al.m_readCursorCount == 0 && !al.m_hasWriteCursor) = false := by
      rcases h with h | h
      · simp [h]
      · simp [h]
    simp [ArgumentList.beginWrite, hc, WriteCursor.isValid, WriteCursor.writeCursor_argList]
  · intro h
    simp [ArgumentList.beginRead, h, ReadCursor.isValid, ReadCursor.create_argList]
  · intro h
    refine ⟨?_, fun n => ?_⟩
    · simp [ArgumentList.beginRead, h, ReadCursor.isValid, ReadCursor.create_argList]
    · obtain ⟨h1, h2, h3, -⟩ := ArgumentList.beginReads_spec n al h
      exact ⟨h1, h2, h3⟩

theorem claim_arbitration_witness :
    ((ArgumentList.empty.beginWrite.2).beginWrite.1.isValid = false ∧
      (ArgumentList.empty.beginWrite.2).beginWrite.2 = ArgumentList.empty.beginWrite.2) ∧
    ((ArgumentList.empty.beginWrite.2).beginRead.1.isValid = false ∧
      (ArgumentList.empty.beginWrite.2).beginRead.2 = ArgumentList.empty.beginWrite.2) ∧
    (ArgumentList.empty.beginRead.1.isValid = true ∧
      (ArgumentList.empty.beginReads 3).2.m_readCursorCount = 3) :=
  ⟨((claim_arbitration (ArgumentList.empty.beginWrite.2)).1 (Or.inl (by decide))).2,
    ((claim_arbitration (ArgumentList.empty.beginWrite.2)).2.1 (by decide)).2,
    ((claim_arbitration ArgumentList.empty).2.2 (by decide)).1,
    (((claim_arbitration ArgumentList.empty).2.2 (by decide)).2 3).2.2⟩

/-- C10: a `ReadCursor` constructed on an `ArgumentList` whose signature `isSignatureValid`
rejects in `FullSignature` mode has state `InvalidData`, also when it comes from `beginRead`;
a `ReadCursor` constructed from a refused claim (a null `ArgumentList`) has state
`InvalidData`, as has the cursor `beginRead` returns while a write cursor exists. -/
theorem readCursor_invalid_signature :
    (∀ al : ArgumentList, isSignatureValid al.m_signature .FullSignature = false →
      (ReadCursor.create (some al)).m_state = .InvalidData) ∧
    (∀ al : ArgumentList, al.m_hasWriteCursor = false →
      isSignatureValid al.m_signature .FullSignature = false →
      al.beginRead.1.m_state = .InvalidData) ∧
    (ReadCursor.create none).m_state = .InvalidData ∧
    (∀ al : ArgumentList, al.m_hasWriteCursor = true →
      al.beginRead.1.m_state = .InvalidData) := by
  have key : ∀ al : ArgumentList, isSignatureValid al.m_signature .FullSignature = false →
      (ReadCursor.create (some al)).m_state = .InvalidData := by
    intro al h
    unfold ReadCursor.create
    simp only [h, Bool.not_false, if_true]
    rw [ReadCursor.advanceState_invalid _ rfl]
  refine ⟨key, ?_, rfl, ?_⟩
  · intro al hw h
    simp only [ArgumentList.beginRead, hw, Bool.not_false, if_true]
    exact key _ h
  · intro al hw
    simp only [ArgumentList.beginRead, hw, Bool.not_true, Bool.false_eq_true, if_false]
    rfl

theorem readCursor_invalid_signature_witness :
    (ReadCursor.create (some (ArgumentList.of (lit "((i)") ⟨some [1, 0, 0, 0], 4⟩ false))).m_state =
      .InvalidData ∧
    (ArgumentList.of (lit "a") array.null false).beginRead.1.m_state = .InvalidData ∧
    (ArgumentList.empty.beginWrite.2).beginRead.1.m_state = .InvalidData :=
  ⟨readCursor_invalid_signature.1 _ (by decide),
    readCursor_invalid_signature.2.1 _ (by decide) (by decide),
    readCursor_invalid_signature.2.2.2 _ (by decide)⟩

namespace ReadCursor

theorem advanceStateFrom_mismatch (c : ReadCursor) (s : CursorState) (h : c.m_state ≠ s) :
    c.advanceStateFrom s = { c with m_state := .InvalidData } := by
  unfold advanceStateFrom
  rw [if_neg (by simpa using h)]

theorem beginArray_mismatch (c : ReadCursor) (e : Bool) (h : c.m_state ≠ .BeginArray) :
    c.beginArray e = ({ c with m_state := .InvalidData }, none) := by
  unfold beginArray
  rw [if_neg (by simpa using h)]

theorem beginDict_mismatch (c : ReadCursor) (e : Bool) (h : c.m_state ≠ .BeginDict) :
    c.beginDict e = ({ c with m_state := .InvalidData }, none) := by
  unfold beginDict
  rw [if_neg (by simpa using h)]

theorem nextArrayEntry_mismatch (c : ReadCursor) (h : c.m_state ≠ .NextArrayEntry) :
    c.nextArrayEntry = (false, { c with m_state := .InvalidData }) := by
  unfold nextArrayEntry
  rw [if_neg (by simpa using h)]

theorem nextDictEntry_mismatch (c : ReadCursor) (h : c.m_state ≠ .NextDictEntry) :
    c.nextDictEntry = (false, { c with m_state := .InvalidData }) := by
  unfold nextDictEntry
  rw [if_neg (by simpa using h)]

end ReadCursor

/-- C11: a `ReadCursor` constructed on the empty signature is in state `Finished` right after
construction, whatever the data (the empty `array()` included), and `finish` called on a
freshly constructed `WriteCursor` returns and installs a signature of length 0, whose first
byte is the terminating NUL, and data of length 0 in its `ArgumentList`. -/
theorem empty_argument_list :
    (∀ (data : array) (isByteSwapped : Bool),
      (ReadCursor.create (some (ArgumentList.of (lit "") data isByteSwapped))).m_state
        = .Finished) ∧
    (ReadCursor.create (some (ArgumentList.of (lit "") array.null false))).m_state = .Finished ∧
    (∀ al : ArgumentList, ∃ w al1,
      (WriteCursor.create (some al)).finish = some (w, al1) ∧
      al1.m_signature.length = 0 ∧ al1.m_signature.deref = 0 ∧ al1.m_data.length = 0 ∧
      w.m_argList = some al1) := by
  refine ⟨fun data sw => ?_, by decide, fun al => ?_⟩
  · rfl
  · exact ⟨_, _, rfl, rfl, rfl, rfl, rfl⟩

/-- C12: each of the ten reader transitions, called in a state other than the one it requires,
leaves the cursor in state `InvalidData` (changing nothing else), and `nextArrayEntry` and
`nextDictEntry` then return false. -/
theorem transition_wrong_state (c : ReadCursor) :
    (∀ e, c.m_state ≠ .BeginArray →
      (c.beginArray e).1 = { c with m_state := .InvalidData }) ∧
    (c.m_state ≠ .NextArrayEntry →
      c.nextArrayEntry = (false, { c with m_state := .InvalidData })) ∧
    (c.m_state ≠ .EndArray → c.endArray = { c with m_state := .InvalidData }) ∧
    (∀ e, c.m_state ≠ .BeginDict →
      (c.beginDict e).1 = { c with m_state := .InvalidData }) ∧
    (c.m_state ≠ .NextDictEntry →
      c.nextDictEntry = (false, { c with m_state := .InvalidData })) ∧
    (c.m_state ≠ .EndDict → c.endDict = { c with m_state := .InvalidData }) ∧
    (c.m_state ≠ .BeginStruct → c.beginStruct = { c with m_state := .InvalidData }) ∧
    (c.m_state ≠ .EndStruct → c.endStruct = { c with m_state := .InvalidData }) ∧
    (c.m_state ≠ .BeginVariant → c.beginVariant = { c with m_state := .InvalidData }) ∧
    (c.m_state ≠ .EndVariant → c.endVariant = { c with m_state := .InvalidData }) := by
  refine ⟨fun e h => ?_, fun h => ?_, fun h => ?_, fun e h => ?_, fun h => ?_, fun h => ?_,
    fun h => ?_, fun h => ?_, fun h => ?_, fun h => ?_⟩
  · rw [ReadCursor.beginArray_mismatch c e h]
  · exact ReadCursor.nextArrayEntry_mismatch c h
  · exact ReadCursor.advanceStateFrom_mismatch c _ h
  · rw [ReadCursor.beginDict_mismatch c e h]
  · exact ReadCursor.nextDictEntry_mismatch c h
  · exact ReadCursor.advanceStateFrom_mismatch c _ h
  · exact ReadCursor.advanceStateFrom_mismatch c _ h
  · exact ReadCursor.advanceStateFrom_mismatch c _ h
  · exact ReadCursor.advanceStateFrom_mismatch c _ h
  · exact ReadCursor.advanceStateFrom_mismatch c _ h

/-- Witness of C12 on the cursor constructed on signature `i` with data `05 00 00 00`, which is
in state `Int32`: `nextArrayEntry` returns false and the state is `InvalidData`. -/
theorem transition_wrong_state_witness :
    (ReadCursor.create (some (ArgumentList.of (lit "i") ⟨some [5, 0, 0, 0], 4⟩ false))).m_state
      = .Int32 ∧
    (ReadCursor.create (some (ArgumentList.of (lit "i") ⟨some [5, 0, 0, 0], 4⟩ false))).nextArrayEntry.1
      = false ∧
    (ReadCursor.create (some (ArgumentList.of (lit "i") ⟨some [5, 0, 0, 0], 4⟩ false))).nextArrayEntry.2.m_state
      = .InvalidData := by
  refine ⟨by decide, ?_, ?_⟩
  · rw [(transition_wrong_state _).2.1 (by decide)]
  · rw [(transition_wrong_state _).2.1 (by decide)]

/-- C13: once a `ReadCursor` is in state `InvalidData`, every sequence of calls of
`advanceState`, of the ten begin, next and end transitions and of `replaceData` leaves it in
state `InvalidData`. -/
theorem invalidData_terminal (c : ReadCursor) (h : c.m_state = .InvalidData)
    (calls : List ReaderCall) : (calls.foldl ReadCursor.call c).m_state = .InvalidData := by
  induction calls generalizing c with
  | nil => exact h
  | cons t ts ih =>
    rw [List.foldl_cons]
    apply ih
    have hne : ∀ s, s ≠ CursorState.InvalidData → c.m_state ≠ s := fun s hs => by
      rw [h]; exact fun e => hs e.symm
    cases t with
    | advanceState => show (c.advanceState).m_state = _; rw [ReadCursor.advanceState_invalid c h]; exact h
    | beginArray e => show (c.beginArray e).1.m_state = _; rw [ReadCursor.beginArray_mismatch c e (hne _ (by decide))]
    | nextArrayEntry => show c.nextArrayEntry.2.m_state = _; rw [ReadCursor.nextArrayEntry_mismatch c (hne _ (by decide))]
    | endArray => show (c.advanceStateFrom _).m_state = _; rw [ReadCursor.advanceStateFrom_mismatch c _ (hne _ (by decide))]
    | beginDict e => show (c.beginDict e).1.m_state = _; rw [ReadCursor.beginDict_mismatch c e (hne _ (by decide))]
    | nextDictEntry => show c.nextDictEntry.2.m_state = _; rw [ReadCursor.nextDictEntry_mismatch c (hne _ (by decide))]
    | endDict => show (c.advanceStateFrom _).m_state = _; rw [ReadCursor.advanceStateFrom_mismatch c _ (hne _ (by decide))]
    | beginStruct => show (c.advanceStateFrom _).m_state = _; rw [ReadCursor.advanceStateFrom_mismatch c _ (hne _ (by decide))]
    | endStruct => show (c.advanceStateFrom _).m_state = _; rw [ReadCursor.advanceStateFrom_mismatch c _ (hne _ (by decide))]
    | beginVariant => show (c.advanceStateFrom _).m_state = _; rw [ReadCursor.advanceStateFrom_mismatch c _ (hne _ (by decide))]
    | endVariant => show (c.advanceStateFrom _).m_state = _; rw [ReadCursor.advanceStateFrom_mismatch c _ (hne _ (by decide))]
    | replaceData d => exact h

/-- Witness of C13 on the cursor constructed on the invalid signature `a`: after
`replaceData`, `beginArray`, `advanceState` and `endStruct` the state is `InvalidData`. -/
theorem invalidData_terminal_witness :
    (ReadCursor.create (some (ArgumentList.of (lit "a") array.null false))).m_state
      = .InvalidData ∧
    (([ReaderCall.replaceData ⟨some [1], 1⟩, .beginArray true, .advanceState, .endStruct].foldl
      ReadCursor.call
      (ReadCursor.create (some (ArgumentList.of (lit "a") array.null false)))).m_state
      = .InvalidData) :=
  ⟨by decide, invalidData_terminal _ (by decide) _⟩

namespace ReadCursor

theorem ite_state_ne {p : Prop} [Decidable p] {a b : TypeInfo} {s : CursorState}
    (ha : a.state ≠ s) (hb : b.state ≠ s) : (if p then a else b).state ≠ s := by
  split <;> assumption

theorem getTypeInfo_state_ne (x : byte) : (getTypeInfo x).state ≠ .NeedMoreData := by
  unfold getTypeInfo
  repeat' apply ite_state_ne
  all_goals exact fun h => CursorState.noConfusion h

theorem outNeedMoreData_restores (c0 c : ReadCursor) (ssp sdp : Int) (hf : Restorable c0 c)
    (h : (outNeedMoreData c ssp sdp).m_state = .NeedMoreData) :
    outNeedMoreData c ssp sdp =
      { c0 with m_state := .NeedMoreData, m_signaturePosition := ssp, m_dataPosition := sdp } := by
  obtain ⟨h1, h2, h3, h4, h5, h6, h7⟩ := hf
  cases c
  cases c0
  simp only at h1 h2 h3 h4 h5 h6 h7
  subst h1 h2 h3 h4 h5 h6 h7
  simp only [outNeedMoreData] at h ⊢
  split at h
  · exact absurd h (by decide)
  · rename_i hn
    simp only [hn]
    rfl

theorem doReadPrimitiveType_state (c : ReadCursor) :
    (doReadPrimitiveType c).1 = c.m_state ∨ (doReadPrimitiveType c).1 = .InvalidData := by
  unfold doReadPrimitiveType
  dsimp only
  repeat' split
  all_goals first | exact Or.inl rfl | exact Or.inr rfl

theorem doReadString_needMoreData (c : ReadCursor) (n : Int) (hs : c.m_state ≠ .NeedMoreData) :
    (doReadString c n).1 = .NeedMoreData →
    (doReadString c n).2 = { c with m_dataPosition := c.m_dataPosition + n } := by
  unfold doReadString
  dsimp only
  repeat' split
  all_goals first
    | (intro _; rfl)
    | (intro h; exact CursorState.noConfusion h)
    | (intro h; exact absurd h hs)

end ReadCursor
namespace ReadCursor

theorem restorable_refl (c : ReadCursor) : Restorable c c := ⟨rfl, rfl, rfl, rfl, rfl, rfl, rfl⟩

theorem restorable_trans {c0 c1 c2 : ReadCursor} (h1 : Restorable c0 c1) (h2 : Restorable c1 c2) :
    Restorable c0 c2 := by
  obtain ⟨a1, a2, a3, a4, a5, a6, a7⟩ := h1
  obtain ⟨b1, b2, b3, b4, b5, b6, b7⟩ := h2
  exact ⟨b1.trans a1, b2.trans a2, b3.trans a3, b4.trans a4, b5.trans a5, b6.trans a6,
    b7.trans a7⟩

theorem readStringCase_needMoreData (c0 c : ReadCursor) (a : Nat) (ssp sdp : Int)
    (hf : Restorable c0 c) (hs : c.m_state ≠ .NeedMoreData)
    (h : (readStringCase c a ssp sdp).m_state = .NeedMoreData) :
    readStringCase c a ssp sdp =
      { c0 with m_state := .NeedMoreData, m_signaturePosition := ssp, m_dataPosition := sdp } := by
  unfold readStringCase at h ⊢
  dsimp only at h ⊢
  by_cases hd : (doReadString c a).1 = .NeedMoreData
  · have h2 := doReadString_needMoreData c a hs hd
    rw [if_pos (by simpa using hd)] at h ⊢
    refine outNeedMoreData_restores _ _ _ _ ?_ h
    rw [h2]
    exact hf
  · rw [if_neg (by simpa using hd)] at h
    exact absurd h hd

theorem readVariantSignature_frame (c : ReadCursor) :
    Restorable c (readVariantSignature c).2 ∧ (readVariantSignature c).2.m_state = c.m_state := by
  unfold readVariantSignature
  split
  · exact ⟨restorable_refl c, rfl⟩
  · exact ⟨⟨rfl, rfl, rfl, rfl, rfl, rfl, rfl⟩, rfl⟩

theorem beginVariantCase_needMoreData (c0 c : ReadCursor) (ssp sdp : Int)
    (hf : Restorable c0 c) (hs : c.m_state ≠ .NeedMoreData)
    (h : (beginVariantCase c ssp sdp).m_state = .NeedMoreData) :
    beginVariantCase c ssp sdp =
      { c0 with m_state := .NeedMoreData, m_signaturePosition := ssp, m_dataPosition := sdp } := by
  have hv := readVariantSignature_frame c
  unfold beginVariantCase at h ⊢
  dsimp only at h ⊢
  split at h
  · rename_i h1
    rw [if_pos h1]
    exact outNeedMoreData_restores _ _ _ _ hf h
  · rename_i h1
    rw [if_neg h1]
    split at h
    · rename_i h2
      rw [if_pos h2]
      exact outNeedMoreData_restores _ _ _ _ (restorable_trans hf hv.1) h
    · split at h
      · exact CursorState.noConfusion h
      · split at h
        · exact CursorState.noConfusion h
        · exact absurd (hv.2.symm.trans h) hs

theorem pushArray_state (c : ReadCursor) (isDict : Bool) (arrayLength : Nat) (dataEnd : Int) :
    (pushArray c isDict arrayLength dataEnd).m_state = c.m_state ∨
      (pushArray c isDict arrayLength dataEnd).m_state = .InvalidData := by
  unfold pushArray
  dsimp only
  repeat' split
  all_goals first | exact Or.inl rfl | exact Or.inr rfl

theorem enterArray_cases (c : ReadCursor) (arrayLength : Nat) (ssp sdp : Int) :
    ∃ c2, Restorable c c2 ∧ c2.m_state ≠ .NeedMoreData ∧
      (enterArray c arrayLength ssp sdp = outNeedMoreData c2 ssp sdp ∨
        ∃ isDict dataEnd, enterArray c arrayLength ssp sdp = pushArray c2 isDict arrayLength dataEnd) := by
  unfold enterArray
  dsimp only
  repeat' split
  all_goals first
    | (refine ⟨_, ?_, ?_, Or.inl rfl⟩
       · exact ⟨rfl, rfl, rfl, rfl, rfl, rfl, rfl⟩
       · exact fun h => CursorState.noConfusion h)
    | (refine ⟨_, ?_, ?_, Or.inr ⟨_, _, rfl⟩⟩
       · exact ⟨rfl, rfl, rfl, rfl, rfl, rfl, rfl⟩
       · exact fun h => CursorState.noConfusion h)

theorem enterArray_needMoreData (c0 c : ReadCursor) (arrayLength : Nat) (ssp sdp : Int)
    (hf : Restorable c0 c)
    (h : (enterArray c arrayLength ssp sdp).m_state = .NeedMoreData) :
    enterArray c arrayLength ssp sdp =
      { c0 with m_state := .NeedMoreData, m_signaturePosition := ssp, m_dataPosition := sdp } := by
  obtain ⟨c2, hr, hs, e | ⟨d, e, e2⟩⟩ := enterArray_cases c arrayLength ssp sdp
  · rw [e] at h ⊢
    exact outNeedMoreData_restores _ _ _ _ (restorable_trans hf hr) h
  · rw [e2] at h
    rcases pushArray_state c2 d arrayLength e with e3 | e3
    · exact absurd (e3.symm.trans h) hs
    · rw [e3] at h
      exact CursorState.noConfusion h

theorem beginArrayCase_needMoreData (c0 c : ReadCursor) (ssp sdp : Int)
    (hf : Restorable c0 c)
    (h : (beginArrayCase c ssp sdp).m_state = .NeedMoreData) :
    beginArrayCase c ssp sdp =
      { c0 with m_state := .NeedMoreData, m_signaturePosition := ssp, m_dataPosition := sdp } := by
  unfold beginArrayCase at h ⊢
  dsimp only at h ⊢
  split at h
  · rename_i h1
    rw [if_pos h1]
    exact enterArray_needMoreData _ _ _ _ _ hf h
  · rename_i h1
    rw [if_neg h1]
    split at h
    · rename_i h2
      rw [if_pos h2]
      exact outNeedMoreData_restores _ _ _ _ hf h
    · rename_i h2
      rw [if_neg h2]
      split at h
      · exact CursorState.noConfusion h
      · rename_i h3
        rw [if_neg h3]
        exact enterArray_needMoreData _ _ _ _ _ hf h

theorem advanceStateAggregate_needMoreData (c0 c : ReadCursor) (ssp sdp : Int)
    (hf : Restorable c0 c) (hs : c.m_state ≠ .NeedMoreData)
    (h : (advanceStateAggregate c ssp sdp).m_state = .NeedMoreData) :
    advanceStateAggregate c ssp sdp =
      { c0 with m_state := .NeedMoreData, m_signaturePosition := ssp, m_dataPosition := sdp } := by
  unfold advanceStateAggregate at h ⊢
  split
  · rename_i hst
    simp only [hst] at h
    unfold beginStructCase at h
    dsimp only at h
    split at h
    · exact CursorState.noConfusion h
    · exact absurd h hs
  · rename_i hst
    simp only [hst] at h
    exact absurd h hs
  · rename_i hst
    simp only [hst] at h
    exact beginVariantCase_needMoreData _ _ _ _ hf hs h
  · rename_i hst
    simp only [hst] at h
    exact beginArrayCase_needMoreData _ _ _ _ hf h
  · rename_i h1 h2 h3 h4
    split at h
    · exact absurd ‹_› h1
    · exact absurd ‹_› h2
    · exact absurd ‹_› h3
    · exact absurd ‹_› h4
    · exact absurd h hs

end ReadCursor
namespace ReadCursor

theorem advanceStateData_needMoreData (c0 c : ReadCursor) (ti : TypeInfo) (ssp sdp : Int)
    (hf : Restorable c0 c) (hs : c.m_state ≠ .NeedMoreData)
    (h : (advanceStateData c ti ssp sdp).m_state = .NeedMoreData) :
    advanceStateData c ti ssp sdp =
      { c0 with m_state := .NeedMoreData, m_signaturePosition := ssp, m_dataPosition := sdp } := by
  unfold advanceStateData at h ⊢
  split at h
  · rename_i h1
    rw [if_pos h1]
    exact outNeedMoreData_restores _ _ _ _ hf h
  · rename_i h1
    rw [if_neg h1]
    split at h
    · rcases doReadPrimitiveType_state c with e | e
      · exact absurd ((e.symm.trans h : c.m_state = _)) hs
      · exact CursorState.noConfusion ((e.symm.trans h : CursorState.InvalidData = _))
    · rename_i h2
      rw [if_neg h2]
      split at h
      · rename_i h3
        rw [if_pos h3]
        exact readStringCase_needMoreData _ _ _ _ _ hf hs h
      · rename_i h3
        rw [if_neg h3]
        exact advanceStateAggregate_needMoreData _ _ _ _ hf hs h

theorem advanceStateType_needMoreData (c0 c : ReadCursor) (ssp sdp : Int)
    (hf : Restorable c0 c)
    (h : (advanceStateType c ssp sdp).m_state = .NeedMoreData) :
    advanceStateType c ssp sdp =
      { c0 with m_state := .NeedMoreData, m_signaturePosition := ssp, m_dataPosition := sdp } := by
  have hti := getTypeInfo_state_ne (c.m_signature.get c.m_signaturePosition.toNat)
  unfold advanceStateType at h ⊢
  dsimp only at h ⊢
  split at h
  · exact absurd h hti
  · rename_i h1
    rw [if_neg h1]
    split at h
    · exact absurd h hti
    · rename_i h2
      rw [if_neg h2]
      exact advanceStateData_needMoreData _ _ _ _ _ hf hti h

theorem advanceState_needMoreData (c : ReadCursor) :
    c.advanceState.m_state = .NeedMoreData →
    c.advanceState = { c with m_state := .NeedMoreData } := by
  obtain ⟨al, st, nest, sig, data, sp, dp, z, stack, v⟩ := c
  unfold advanceState
  dsimp only
  split
  · rename_i h1
    intro h
    subst h
    exact absurd h1 (by decide)
  · cases stack with
    | nil =>
      dsimp only
      split
      · exact fun h => CursorState.noConfusion h
      · exact advanceStateType_needMoreData _ _ _ _ ⟨rfl, rfl, rfl, rfl, rfl, rfl, rfl⟩
    | cons top rest =>
      cases top with
      | struct =>
        dsimp only
        exact advanceStateType_needMoreData _ _ _ _ ⟨rfl, rfl, rfl, rfl, rfl, rfl, rfl⟩
      | variant prevSignature prevSignaturePosition =>
        dsimp only
        split
        · exact fun h => CursorState.noConfusion h
        · exact advanceStateType_needMoreData _ _ _ _ ⟨rfl, rfl, rfl, rfl, rfl, rfl, rfl⟩
      | array isDict dataEnd containedTypeBegin =>
        dsimp only
        repeat' split
        all_goals first
          | exact fun h => CursorState.noConfusion h
          | exact advanceStateType_needMoreData _ _ _ _ ⟨rfl, rfl, rfl, rfl, rfl, rfl, rfl⟩

end ReadCursor

/-- C14: whenever a call of `ReadCursor::advanceState` ends in state `NeedMoreData`, the cursor
after the call is the cursor before the call with only the state replaced: signature position,
data position, current signature, data, nesting counters, `m_zeroLengthArrayNesting`, aggregate
stack and value member are all as before. -/
theorem advanceState_needMoreData_frame (c : ReadCursor)
    (h : c.advanceState.m_state = .NeedMoreData) :
    c.advanceState = { c with m_state := .NeedMoreData } ∧
    c.advanceState.m_signaturePosition = c.m_signaturePosition ∧
    c.advanceState.m_dataPosition = c.m_dataPosition ∧
    c.advanceState.m_signature = c.m_signature ∧
    c.advanceState.m_nesting = c.m_nesting ∧
    c.advanceState.m_zeroLengthArrayNesting = c.m_zeroLengthArrayNesting ∧
    c.advanceState.m_aggregateStack = c.m_aggregateStack := by
  have e := ReadCursor.advanceState_needMoreData c h
  refine ⟨e, ?_, ?_, ?_, ?_, ?_, ?_⟩ <;> rw [e]

/-- Witness of C14: the cursor constructed on signature `(i)` with no data is in state
`BeginStruct`, and its `advanceState` ends in `NeedMoreData` for want of the four bytes of the
`i`. -/
theorem advanceState_needMoreData_frame_witness :
    (ReadCursor.create (some (ArgumentList.of (lit "(i)") ⟨some [], 0⟩ false))).m_state
      = .BeginStruct ∧
    (ReadCursor.create (some (ArgumentList.of (lit "(i)") ⟨some [], 0⟩ false))).advanceState
      = { ReadCursor.create (some (ArgumentList.of (lit "(i)") ⟨some [], 0⟩ false)) with
          m_state := .NeedMoreData } :=
  ⟨by decide, (advanceState_needMoreData_frame _ (by decide)).1⟩

namespace ReadCursor

theorem advanceState_of_reachesType (c : ReadCursor) (h : c.reachesType = true) :
    c.advanceState =
      advanceStateType { c with m_signaturePosition := c.m_signaturePosition + 1 }
        c.m_signaturePosition c.m_dataPosition := by
  obtain ⟨al, st, nest, sig, data, sp, dp, z, stack, v⟩ := c
  unfold reachesType at h
  unfold advanceState
  dsimp only at h ⊢
  rw [Bool.and_eq_true] at h
  obtain ⟨h1, h2⟩ := h
  rw [if_neg (by simpa using h1)]
  cases stack with
  | nil =>
    dsimp only at h2 ⊢
    rw [if_neg (by simpa using h2)]
  | cons top rest =>
    cases top with
    | struct => rfl
    | variant prevSignature prevSignaturePosition =>
      dsimp only at h2 ⊢
      rw [if_neg (by simpa using h2)]
    | array isDict dataEnd containedTypeBegin =>
      dsimp only at h2 ⊢
      rw [Bool.and_eq_true] at h2
      obtain ⟨h3, h4⟩ := h2
      rw [Bool.not_eq_true'] at h3
      rw [if_neg (by rw [h3]; exact Bool.false_ne_true), if_neg (by simpa using h4)]

theorem getTypeInfo_b : getTypeInfo (ch 'b') = ⟨.Boolean, 4, true, false⟩ := by decide

theorem advanceStateType_boolean (c : ReadCursor) (ssp sdp : Int)
    (hb : c.m_signature.get c.m_signaturePosition.toNat = ch 'b')
    (hz : c.m_zeroLengthArrayNesting = 0)
    (h0 : 0 ≤ align (u32 c.m_dataPosition) 4)
    (ha : align (u32 c.m_dataPosition) 4 + 4 ≤ c.m_data.length) :
    advanceStateType c ssp sdp =
      readPrimitiveCase
        { c with m_state := .Boolean, m_dataPosition := align (u32 c.m_dataPosition) 4 } 4 := by
  unfold advanceStateType
  dsimp only
  rw [hb, getTypeInfo_b]
  dsimp only
  rw [if_neg (by decide), hz]
  rw [if_neg (by decide)]
  unfold advanceStateData
  dsimp only
  rw [if_neg, if_pos rfl]
  simp only [Bool.or_false, Bool.true_and, Bool.or_eq_true, decide_eq_true_eq, not_or, not_lt]
  constructor
  · omega
  · omega

end ReadCursor

/-- C16: when a call of `advanceState` goes on to a `b` in the signature (`reachesType`)
outside a zero-length array and the four bytes at the 4-aligned data position lie within the
data, the resulting state is `Boolean` with value false if the 32-bit value read is 0,
`Boolean` with value true if it is 1, and `InvalidData` for every other value. -/
theorem read_boolean (c : ReadCursor) (hr : c.reachesType = true)
    (hb : c.m_signature.get (c.m_signaturePosition + 1).toNat = ch 'b')
    (hz : c.m_zeroLengthArrayNesting = 0)
    (h0 : 0 ≤ align (u32 c.m_dataPosition) 4)
    (ha : align (u32 c.m_dataPosition) 4 + 4 ≤ c.m_data.length) :
    (readUnsigned 4 c.m_data (align (u32 c.m_dataPosition) 4) c.isByteSwapped = 0 →
      c.advanceState.m_state = .Boolean ∧ c.advanceState.m_value = .Boolean false) ∧
    (readUnsigned 4 c.m_data (align (u32 c.m_dataPosition) 4) c.isByteSwapped = 1 →
      c.advanceState.m_state = .Boolean ∧ c.advanceState.m_value = .Boolean true) ∧
    (1 < readUnsigned 4 c.m_data (align (u32 c.m_dataPosition) 4) c.isByteSwapped →
      c.advanceState.m_state = .InvalidData) := by
  rw [ReadCursor.advanceState_of_reachesType c hr,
    ReadCursor.advanceStateType_boolean
      { c with m_signaturePosition := c.m_signaturePosition + 1 } _ _ hb hz h0 ha]
  have hsw : ReadCursor.isByteSwapped
      { c with m_state := .Boolean, m_signaturePosition := c.m_signaturePosition + 1,
               m_dataPosition := align (u32 c.m_dataPosition) 4 }
        = c.isByteSwapped := rfl
  refine ⟨fun h => ?_, fun h => ?_, fun h => ?_⟩
  · simp only [ReadCursor.readPrimitiveCase, ReadCursor.doReadPrimitiveType, hsw, h]
    exact ⟨rfl, rfl⟩
  · simp only [ReadCursor.readPrimitiveCase, ReadCursor.doReadPrimitiveType, hsw, h]
    exact ⟨rfl, rfl⟩
  · simp only [ReadCursor.readPrimitiveCase, ReadCursor.doReadPrimitiveType, hsw, if_pos h]

/-- Witness of C16: the cursor constructed on signature `(b)` with data `01 00 00 00` stands
in `BeginStruct`; its next `advanceState`, which `beginStruct` calls, reads the `b` and ends in
state `Boolean` with value true. -/
theorem read_boolean_witness :
    (ReadCursor.create
      (some (ArgumentList.of (lit "(b)") ⟨some [1, 0, 0, 0], 4⟩ false))).beginStruct.m_state
      = .Boolean ∧
    (ReadCursor.create
      (some (ArgumentList.of (lit "(b)") ⟨some [1, 0, 0, 0], 4⟩ false))).advanceState.m_state
      = .Boolean ∧
    (ReadCursor.create
      (some (ArgumentList.of (lit "(b)") ⟨some [1, 0, 0, 0], 4⟩ false))).advanceState.m_value
      = .Boolean true :=
  ⟨by decide,
    (read_boolean _ (by decide) (by decide) (by decide) (by decide) (by decide)).2.1 (by decide)⟩

namespace ReadCursor

theorem getTypeInfo_a : getTypeInfo (ch 'a') = ⟨.BeginArray, 4, false, false⟩ := by decide

theorem advanceStateType_array (c : ReadCursor) (ssp sdp : Int)
    (ha : c.m_signature.get c.m_signaturePosition.toNat = ch 'a')
    (hav : align (u32 c.m_dataPosition) 4 ≤ c.m_data.length) :
    advanceStateType c ssp sdp =
      beginArrayCase
        { c with m_state := .BeginArray, m_dataPosition := align (u32 c.m_dataPosition) 4 }
        ssp sdp := by
  unfold advanceStateType
  dsimp only
  rw [ha, getTypeInfo_a]
  dsimp only
  rw [if_neg (by decide), if_neg (by simp)]
  unfold advanceStateData
  dsimp only
  rw [if_neg (by simpa using hav), if_neg (by decide), if_neg (by decide)]
  rfl

theorem beginArrayCase_length (c : ReadCursor) (ssp sdp : Int)
    (hz : c.m_zeroLengthArrayNesting = 0) (hav : c.m_dataPosition + 4 ≤ c.m_data.length) :
    beginArrayCase c ssp sdp =
      if readUnsigned 4 c.m_data c.m_dataPosition c.isByteSwapped > 67108864 then
        { c with m_state := .InvalidData }
      else
        enterArray { c with m_dataPosition := c.m_dataPosition + 4 }
          (readUnsigned 4 c.m_data c.m_dataPosition c.isByteSwapped) ssp sdp := by
  unfold beginArrayCase
  dsimp only
  rw [hz, if_neg (by decide), if_neg (by omega)]

theorem enterArray_push (c : ReadCursor) (arrayLength : Nat) (ssp sdp : Int)
    (hz : c.m_zeroLengthArrayNesting = 0)
    (hav : (align (u32 c.m_dataPosition)
        (getTypeInfo (c.m_signature.get (c.m_signaturePosition + 1).toNat)).alignment
          + (arrayLength : Int)) % 4294967296 ≤ c.m_data.length)
    (hn : c.m_nesting.beginArray.1 = true)
    (hp : (getTypeInfo (c.m_signature.get (c.m_signaturePosition + 1).toNat)).state = .BeginDict →
      c.m_nesting.beginArray.2.beginParen.1 = true) :
    (enterArray c arrayLength ssp sdp).m_state =
      (if (getTypeInfo (c.m_signature.get (c.m_signaturePosition + 1).toNat)).state == .BeginDict
        then .BeginDict else .BeginArray) ∧
    (enterArray c arrayLength ssp sdp).m_aggregateStack =
      .array ((getTypeInfo (c.m_signature.get (c.m_signaturePosition + 1).toNat)).state == .BeginDict)
        ((align (u32 c.m_dataPosition)
          (getTypeInfo (c.m_signature.get (c.m_signaturePosition + 1).toNat)).alignment
            + (arrayLength : Int)) % 4294967296)
        (if (getTypeInfo (c.m_signature.get (c.m_signaturePosition + 1).toNat)).state == .BeginDict
          then c.m_signaturePosition + 1 else c.m_signaturePosition) :: c.m_aggregateStack := by
  have h00 : ((0 : Int) != 0) = false := rfl
  unfold enterArray
  dsimp only
  simp only [hz, h00, Bool.false_eq_true, if_false]
  rw [if_neg (by omega)]
  unfold pushArray
  dsimp only
  by_cases hd : (getTypeInfo (c.m_signature.get (c.m_signaturePosition + 1).toNat)).state
      = .BeginDict
  · have hd2 : ((getTypeInfo (c.m_signature.get (c.m_signaturePosition + 1).toNat)).state
        == CursorState.BeginDict) = true := by rw [hd]; rfl
    simp only [hd2, if_true, hn, hp hd, Bool.and_self, Bool.not_true, Bool.false_eq_true,
      if_false, and_self]
  · have hd2 : ((getTypeInfo (c.m_signature.get (c.m_signaturePosition + 1).toNat)).state
        == CursorState.BeginDict) = false := by simpa using hd
    simp only [hd2, Bool.false_eq_true, if_false, hn, Bool.not_true, and_self]

end ReadCursor
/-- C17: when a call of `advanceState` goes on to an `a` in the signature (`reachesType`)
outside a zero-length array and the four bytes of the length field at the 4-aligned data
position lie within the data, then a length above 67108864 gives state `InvalidData` with the
aggregate stack and the nesting counters as before the call, and a length of at most 67108864
is handed to the rest of the array case (`enterArray`), which has no check of the size: if the
array data announced lie within the data and the nesting limits leave room, the state is
`BeginArray` (or `BeginDict` before a `{`) and an array frame is pushed. -/
theorem array_length_limit (c : ReadCursor) (hr : c.reachesType = true)
    (ha : c.m_signature.get (c.m_signaturePosition + 1).toNat = ch 'a')
    (hz : c.m_zeroLengthArrayNesting = 0)
    (hav : align (u32 c.m_dataPosition) 4 + 4 ≤ c.m_data.length) :
    (67108864 < readUnsigned 4 c.m_data (align (u32 c.m_dataPosition) 4) c.isByteSwapped →
      c.advanceState.m_state = .InvalidData ∧
      c.advanceState.m_aggregateStack = c.m_aggregateStack ∧
      c.advanceState.m_nesting = c.m_nesting) ∧
    (readUnsigned 4 c.m_data (align (u32 c.m_dataPosition) 4) c.isByteSwapped ≤ 67108864 →
      c.advanceState =
        ReadCursor.enterArray
          { c with m_state := .BeginArray, m_signaturePosition := c.m_signaturePosition + 1,
                   m_dataPosition := align (u32 c.m_dataPosition) 4 + 4 }
          (readUnsigned 4 c.m_data (align (u32 c.m_dataPosition) 4) c.isByteSwapped)
          c.m_signaturePosition c.m_dataPosition) ∧
    (readUnsigned 4 c.m_data (align (u32 c.m_dataPosition) 4) c.isByteSwapped ≤ 67108864 →
      (align (u32 (align (u32 c.m_dataPosition) 4 + 4))
          (getTypeInfo (c.m_signature.get (c.m_signaturePosition + 1 + 1).toNat)).alignment
        + (readUnsigned 4 c.m_data (align (u32 c.m_dataPosition) 4) c.isByteSwapped : Int))
          % 4294967296 ≤ c.m_data.length →
      c.m_nesting.beginArray.1 = true →
      ((getTypeInfo (c.m_signature.get (c.m_signaturePosition + 1 + 1).toNat)).state = .BeginDict →
        c.m_nesting.beginArray.2.beginParen.1 = true) →
      c.advanceState.m_state =
        (if (getTypeInfo (c.m_signature.get (c.m_signaturePosition + 1 + 1).toNat)).state
            == .BeginDict then .BeginDict else .BeginArray) ∧
      c.advanceState.m_aggregateStack =
        .array
          ((getTypeInfo (c.m_signature.get (c.m_signaturePosition + 1 + 1).toNat)).state
            == .BeginDict)
          ((align (u32 (align (u32 c.m_dataPosition) 4 + 4))
              (getTypeInfo (c.m_signature.get (c.m_signaturePosition + 1 + 1).toNat)).alignment
            + (readUnsigned 4 c.m_data (align (u32 c.m_dataPosition) 4) c.isByteSwapped : Int))
              % 4294967296)
          (if (getTypeInfo (c.m_signature.get (c.m_signaturePosition + 1 + 1).toNat)).state
              == .BeginDict then c.m_signaturePosition + 1 + 1 else c.m_signaturePosition + 1)
          :: c.m_aggregateStack) := by
  have e : c.advanceState =
      if readUnsigned 4 c.m_data (align (u32 c.m_dataPosition) 4) c.isByteSwapped > 67108864 then
        { c with m_state := .InvalidData, m_signaturePosition := c.m_signaturePosition + 1,
                 m_dataPosition := align (u32 c.m_dataPosition) 4 }
      else
        ReadCursor.enterArray
          { c with m_state := .BeginArray, m_signaturePosition := c.m_signaturePosition + 1,
                   m_dataPosition := align (u32 c.m_dataPosition) 4 + 4 }
          (readUnsigned 4 c.m_data (align (u32 c.m_dataPosition) 4) c.isByteSwapped)
          c.m_signaturePosition c.m_dataPosition := by
    rw [ReadCursor.advanceState_of_reachesType c hr,
      ReadCursor.advanceStateType_array
        { c with m_signaturePosition := c.m_signaturePosition + 1 } _ _ ha (by dsimp only; omega)]
    exact ReadCursor.beginArrayCase_length
      { c with m_state := .BeginArray, m_signaturePosition := c.m_signaturePosition + 1,
               m_dataPosition := align (u32 c.m_dataPosition) 4 } _ _ hz hav
  refine ⟨fun h => ?_, fun h => ?_, fun h hd hn hp => ?_⟩
  · rw [e, if_pos h]
    exact ⟨rfl, rfl, rfl⟩
  · rw [e, if_neg (by omega)]
  · rw [e, if_neg (by omega)]
    exact ReadCursor.enterArray_push _ _ _ _ hz hd hn hp

/-- Witness of C17: the cursor constructed on signature `(ai)` stands in `BeginStruct`; with
the length field `01 00 00 04` (67108865) its next `advanceState` ends in `InvalidData` with
the one struct frame on the stack, and with the length field `04 00 00 00` and four bytes of
array data it ends in `BeginArray` with an array frame pushed. -/
theorem array_length_limit_witness :
    ((ReadCursor.create
      (some (ArgumentList.of (lit "(ai)") ⟨some [1, 0, 0, 4], 4⟩ false))).advanceState.m_state
        = .InvalidData ∧
      (ReadCursor.create
        (some (ArgumentList.of (lit "(ai)") ⟨some [1, 0, 0, 4], 4⟩ false))).advanceState.m_aggregateStack
        = [.struct] ∧
      (ReadCursor.create
        (some (ArgumentList.of (lit "(ai)") ⟨some [1, 0, 0, 4], 4⟩ false))).advanceState.m_nesting
        = ⟨0, 1, 0⟩) ∧
    (ReadCursor.create
      (some (ArgumentList.of (lit "(ai)") ⟨some [4, 0, 0, 0, 7, 0, 0, 0], 8⟩ false))).advanceState.m_state
        = .BeginArray :=
  ⟨(array_length_limit
      (ReadCursor.create (some (ArgumentList.of (lit "(ai)") ⟨some [1, 0, 0, 4], 4⟩ false)))
      (by decide) (by decide) (by decide) (by decide)).1 (by decide),
    by decide⟩

/-- C15: the reader run on `(i)` with all its data goes `BeginStruct`, `Int32` (value 5),
`EndStruct`, `Finished`.  Started on the empty prefix of the data it is in `BeginStruct`, and
`beginStruct` ends in `NeedMoreData`; after `replaceData` with the whole data, calling
`beginStruct` again, the transition that produced `NeedMoreData`, ends in `InvalidData`.  No
transition retries: in state `NeedMoreData` each of the ten begin, next and end transitions
ends in `InvalidData`. -/
theorem needMoreData_retry_invalidData :
    ((ReadCursor.create (some structOfInt)).m_state = .BeginStruct ∧
      (ReadCursor.create (some structOfInt)).beginStruct.m_state = .Int32 ∧
      (ReadCursor.create (some structOfInt)).beginStruct.readScalar.1 = .Int32 5 ∧
      (ReadCursor.create (some structOfInt)).beginStruct.readScalar.2.m_state = .EndStruct ∧
      (ReadCursor.create (some structOfInt)).beginStruct.readScalar.2.endStruct.m_state
        = .Finished) ∧
    ((ReadCursor.create (some structOfIntNoData)).m_state = .BeginStruct ∧
      (ReadCursor.create (some structOfIntNoData)).beginStruct.m_state = .NeedMoreData ∧
      (((ReadCursor.create (some structOfIntNoData)).beginStruct.replaceData
          structOfInt.m_data).beginStruct).m_state = .InvalidData) ∧
    (∀ (c : ReadCursor) (t : ReaderCall), c.m_state = .NeedMoreData → t.required ≠ none →
      (c.call t).m_state = .InvalidData) := by
  refine ⟨by decide, by decide, fun c t h ht => ?_⟩
  have hne : ∀ s, s ≠ CursorState.NeedMoreData → c.m_state ≠ s := fun s hs => by
    rw [h]; exact fun e => hs e.symm
  cases t with
  | advanceState => exact absurd rfl ht
  | replaceData d => exact absurd rfl ht
  | beginArray e =>
    show (c.beginArray e).1.m_state = _
    rw [ReadCursor.beginArray_mismatch c e (hne _ (by decide))]
  | nextArrayEntry =>
    show c.nextArrayEntry.2.m_state = _
    rw [ReadCursor.nextArrayEntry_mismatch c (hne _ (by decide))]
  | beginDict e =>
    show (c.beginDict e).1.m_state = _
    rw [ReadCursor.beginDict_mismatch c e (hne _ (by decide))]
  | nextDictEntry =>
    show c.nextDictEntry.2.m_state = _
    rw [ReadCursor.nextDictEntry_mismatch c (hne _ (by decide))]
  | endArray =>
    show (c.advanceStateFrom _).m_state = _
    rw [ReadCursor.advanceStateFrom_mismatch c _ (hne _ (by decide))]
  | endDict =>
    show (c.advanceStateFrom _).m_state = _
    rw [ReadCursor.advanceStateFrom_mismatch c _ (hne _ (by decide))]
  | beginStruct =>
    show (c.advanceStateFrom _).m_state = _
    rw [ReadCursor.advanceStateFrom_mismatch c _ (hne _ (by decide))]
  | endStruct =>
    show (c.advanceStateFrom _).m_state = _
    rw [ReadCursor.advanceStateFrom_mismatch c _ (hne _ (by decide))]
  | beginVariant =>
    show (c.advanceStateFrom _).m_state = _
    rw [ReadCursor.advanceStateFrom_mismatch c _ (hne _ (by decide))]
  | endVariant =>
    show (c.advanceStateFrom _).m_state = _
    rw [ReadCursor.advanceStateFrom_mismatch c _ (hne _ (by decide))]

/-- C18: the reader constructed on signature `s` with the data of the string `a` (length field
1, `a`, NUL) is in state `InvalidData`, not `String`; so it is on `o` with the object path `/`
and on `g` with the signature `i`.  `doReadString` counts the terminating NUL into the length
it validates: the data `01 00 00 00 'a' 'b' 00`, whose length field does not match, are
accepted as the string `ab` of length 2. -/
theorem readString_rejects_valid_string :
    (ReadCursor.create (some stringA)).m_state = .InvalidData ∧
    (ReadCursor.create (some objectPathRoot)).m_state = .InvalidData ∧
    (ReadCursor.create (some signatureI)).m_state = .InvalidData ∧
    (ReadCursor.create (some stringMalformed)).m_state = .String ∧
    (ReadCursor.create (some stringMalformed)).m_value = .String ⟨some [97, 98, 0], 2⟩ := by
  decide

/-- C19: the reader constructed on signature `vi` with a variant of inline signature `(ygd)`
is in state `InvalidData`, not `BeginVariant`, and so it is on signature `v` with a variant of
inline signature `i`: the inline signature is validated with its terminating NUL counted into
its length, which `isSignatureValid` rejects, although `(ygd)` itself is a valid variant
signature. -/
theorem variant_inline_signature_rejected :
    (ReadCursor.create (some variantThenInt)).m_state = .InvalidData ∧
    (ReadCursor.create (some variantOfInt)).m_state = .InvalidData ∧
    isSignatureValid (lit "(ygd)") .VariantSignature = true ∧
    isSignatureValid ⟨some [40, 121, 103, 100, 41, 0], 6⟩ .VariantSignature = false := by
  decide

/-- C20: on the empty array of `ai`, `beginArray` reports `isEmpty` true and leaves state
`NextArrayEntry`, and `nextArrayEntry` returns true but leaves the cursor as it is, in state
`NextArrayEntry` and not in `Int32`: every further call returns true again and the array
never ends.  On the array of the two elements 1 and 2, `isEmpty` is false and `nextArrayEntry`
returns true twice, each time in state `Int32` with the element read, and then false with
state `EndArray`, from where `endArray` ends in `Finished`. -/
theorem nextArrayEntry_empty_array_stuck :
    ((ReadCursor.create (some emptyIntArray)).m_state = .BeginArray ∧
      ((ReadCursor.create (some emptyIntArray)).beginArray true).2 = some true ∧
      ((ReadCursor.create (some emptyIntArray)).beginArray true).1.m_state = .NextArrayEntry ∧
      ((ReadCursor.create (some emptyIntArray)).beginArray true).1.nextArrayEntry
        = (true, ((ReadCursor.create (some emptyIntArray)).beginArray true).1)) ∧
    ((ReadCursor.create (some twoIntArray)).m_state = .BeginArray ∧
      ((ReadCursor.create (some twoIntArray)).beginArray true).2 = some false ∧
      ((ReadCursor.create (some twoIntArray)).beginArray true).1.nextArrayEntry.1 = true ∧
      ((ReadCursor.create (some twoIntArray)).beginArray true).1.nextArrayEntry.2.m_state
        = .Int32 ∧
      ((ReadCursor.create (some twoIntArray)).beginArray true).1.nextArrayEntry.2.readScalar.1
        = .Int32 1 ∧
      ((ReadCursor.create (some twoIntArray)).beginArray
        true).1.nextArrayEntry.2.readScalar.2.nextArrayEntry.1 = true ∧
      ((ReadCursor.create (some twoIntArray)).beginArray
        true).1.nextArrayEntry.2.readScalar.2.nextArrayEntry.2.readScalar.1 = .Int32 2 ∧
      ((ReadCursor.create (some twoIntArray)).beginArray
        true).1.nextArrayEntry.2.readScalar.2.nextArrayEntry.2.readScalar.2.nextArrayEntry.1
        = false ∧
      ((ReadCursor.create (some twoIntArray)).beginArray
        true).1.nextArrayEntry.2.readScalar.2.nextArrayEntry.2.readScalar.2.nextArrayEntry.2.m_state
        = .EndArray ∧
      ((ReadCursor.create (some twoIntArray)).beginArray
        true).1.nextArrayEntry.2.readScalar.2.nextArrayEntry.2.readScalar.2.nextArrayEntry.2.endArray.m_state
        = .Finished) := by
  decide

/-! ## Claims on the writer -/

set_option maxRecDepth 4000

theorem WriteCursor.store_eq (buffer : List byte) (pos : Nat) (bs : List byte) :
    WriteCursor.store buffer pos bs =
      buffer.take pos ++ (bs.take (buffer.length - pos)) ++ buffer.drop (pos + bs.length) := by
  induction buffer generalizing pos bs with
  | nil => simp [WriteCursor.store]
  | cons b buffer ih =>
    cases pos with
    | zero =>
      cases bs with
      | nil => simp [WriteCursor.store]
      | cons x bs =>
        have := ih 0 bs
        simp only [WriteCursor.store, this]
        simp
    | succ pos =>
      have := ih pos bs
      simp only [WriteCursor.store, this]
      simp [Nat.add_right_comm]

/-- C21: the round trip of the test, `doRoundtrip`, passes on the argument list `i` and on the
array of two `int32`, but not on the valid argument list with signature `yi` and data
`01 00 00 00 05 00 00 00`: the loop ends with `finish` and the copy has signature `yi`, but its
data are `01 00 00 00 00 00 00 00`, the `int32` 5 is lost.  On the string `a` a `TEST` of the loop fails, and on
the empty array the loop does not get to `finish` within 100 rounds. -/
theorem roundtrip_loses_data :
    doRoundtrip oneInt 10 0 = true ∧
    doRoundtrip twoIntArray 20 0 = true ∧
    doRoundtrip byteThenInt 10 0 = false ∧
    ((roundtripCopy byteThenInt 10 0).copy.map
        (fun copy => (stringsEqual byteThenInt.m_signature copy.m_signature,
          copy.m_data.length, copy.m_data.bytes 8))
      = some (true, 8, [1, 0, 0, 0, 0, 0, 0, 0])) ∧
    byteThenInt.m_data.bytes 8 = [1, 0, 0, 0, 5, 0, 0, 0] ∧
    roundtripCopy stringA 10 0 = .testFailed ∧
    roundtripCopy emptyIntArray 100 0 = .unfinished := by
  decide

namespace WriteCursor

theorem writer_advanceState_invalid (c : WriteCursor) (f : List byte) (st : CursorState)
    (u : Int) (h : c.m_state = .InvalidData) : advanceState c f st u = c := by
  unfold advanceState
  rw [if_pos (by rw [h]; rfl)]

theorem beginArrayOrDict_invalid (c : WriteCursor) (isDict isEmpty : Bool)
    (h : c.m_state = .InvalidData) : (beginArrayOrDict c isDict isEmpty).m_state = .InvalidData := by
  unfold beginArrayOrDict
  dsimp only
  repeat' split
  all_goals first
    | rfl
    | (rw [writer_advanceState_invalid] <;> exact h)

theorem nextArrayOrDictEntry_invalid (c : WriteCursor) (isDict : Bool)
    (h : c.m_state = .InvalidData) : (nextArrayOrDictEntry c isDict).m_state = .InvalidData := by
  unfold nextArrayOrDictEntry
  repeat' split
  all_goals first | rfl | exact h

theorem call_invalid (c : WriteCursor) (t : WriterCall) (h : c.m_state = .InvalidData) :
    (c.call t).m_state = .InvalidData := by
  cases t <;>
    first
    | exact beginArrayOrDict_invalid c _ _ h
    | exact nextArrayOrDictEntry_invalid c _ h
    | (show (advanceState _ _ _ _).m_state = _
       rw [writer_advanceState_invalid] <;> exact h)

theorem call_invalid_advance (c : WriteCursor) (t : WriterCall) (h : c.m_state = .InvalidData)
    (ht : t.isAdvance = true) : c.call t = { c with m_value := (c.call t).m_value } := by
  cases t <;>
    first
    | exact Bool.noConfusion ht
    | (show advanceState _ _ _ _ = { c with m_value := (advanceState _ _ _ _).m_value }
       rw [writer_advanceState_invalid]
       exact h)

end WriteCursor

/-- C22: once a `WriteCursor` is in state `InvalidData`, every write, begin, next and end
operation leaves the state `InvalidData`, and the operations that go to `advanceState` at once
change nothing but the value member they assign.  But `beginArray(true)` and `beginDict(true)`
still add 1 to `m_zeroLengthArrayNesting`, and `nextArrayEntry` still sets
`m_signaturePosition` back to the start of the element type: on the writer that `endStruct()`
has just put in `InvalidData`, `beginArray(true)` changes `m_zeroLengthArrayNesting` from 0
to 1, and after `beginArray(false)`, `writeByte(1)`, `endStruct()` (state `InvalidData`)
`nextArrayEntry()` changes `m_signaturePosition` from 3 to 1. -/
theorem writer_invalidData_not_inert :
    (∀ (c : WriteCursor) (t : WriterCall), c.m_state = .InvalidData →
      (c.call t).m_state = .InvalidData) ∧
    (∀ (c : WriteCursor) (t : WriterCall), c.m_state = .InvalidData → t.isAdvance = true →
      c.call t = { c with m_value := (c.call t).m_value }) ∧
    (freshWriter.endStruct.m_state = .InvalidData ∧
      freshWriter.endStruct.m_zeroLengthArrayNesting = 0 ∧
      (freshWriter.endStruct.beginArray true).m_zeroLengthArrayNesting = 1 ∧
      (freshWriter.endStruct.beginDict true).m_zeroLengthArrayNesting = 1) ∧
    (((freshWriter.beginArray false).writeByte 1).endStruct.m_state = .InvalidData ∧
      ((freshWriter.beginArray false).writeByte 1).endStruct.m_signaturePosition = 3 ∧
      ((freshWriter.beginArray false).writeByte 1).endStruct.nextArrayEntry.m_signaturePosition
        = 1) := by
  refine ⟨WriteCursor.call_invalid, WriteCursor.call_invalid_advance, by decide, by decide⟩

/-- C23: `finish` takes no account of the state or of open aggregates.  After `beginStruct()`,
`writeByte(1)` it installs the signature `(y` of length 2 and one byte of data and leaves the
writer in state `Byte`; on the writer that `writeByte(1)`, `endStruct()` has put in
`InvalidData` it installs the signature `y)` of length 2 and one byte of data. -/
theorem finish_installs_unfinished :
    (freshWriter.beginStruct.writeByte 1).m_state = .Byte ∧
    ((freshWriter.beginStruct.writeByte 1).finish.map
        (fun r => (r.1.m_state, r.2.m_signature.length,
          (List.range 3).map r.2.m_signature.get, r.2.m_data.length, r.2.m_data.bytes 1))
      = some (.Byte, 2, [ch '(', ch 'y', 0], 1, [1])) ∧
    (freshWriter.writeByte 1).endStruct.m_state = .InvalidData ∧
    ((freshWriter.writeByte 1).endStruct.finish.map
        (fun r => (r.1.m_state, r.2.m_signature.length,
          (List.range 3).map r.2.m_signature.get, r.2.m_data.length, r.2.m_data.bytes 1))
      = some (.InvalidData, 2, [ch 'y', ch ')', 0], 1, [1])) := by
  refine ⟨by decide, by decide, by decide, by decide⟩

/-- C24: `finish` never assigns the state: the writer has after `finish` the state it had
before.  After `writeByte(1)` that is `Byte`, on a fresh writer it is `AnyData`, and after
`beginStruct()`, `writeByte(1)`, `endStruct()` it is `AnyData`; it is not `Finished`. -/
theorem finish_keeps_state :
    (∀ (c w : WriteCursor) (al : ArgumentList), c.finish = some (w, al) →
      w.m_state = c.m_state) ∧
    (freshWriter.writeByte 1).finish.map (fun r => r.1.m_state) = some .Byte ∧
    freshWriter.finish.map (fun r => r.1.m_state) = some .AnyData ∧
    (freshWriter.beginStruct.writeByte 1).endStruct.finish.map (fun r => r.1.m_state)
      = some .AnyData := by
  refine ⟨fun c w al h => ?_, by decide, by decide, by decide⟩
  unfold WriteCursor.finish at h
  split at h
  · exact Option.noConfusion h
  · dsimp only at h
    split at h
    · exact Option.noConfusion h
    · injection h with h
      injection h with h1 h2
      rw [← h1]

/-- C25: the writer counts an array as a variant.  After 32 nested `beginArray(false)`,
`nextArrayEntry()` the writer is in `AnyData`, and a 33rd `beginArray(false)` leaves it in
`AnyData`, not in `InvalidData`, with the counters array 0, paren 0, variant 33; only the total
limit stops arrays, at the 65th.  After 32 nested dicts `beginStruct()` and
`beginArray(false)` give `InvalidData`, and after 64 nested `beginVariant()` (frames read
with 0) a 65th gives `InvalidData`. -/
theorem writer_array_nesting_limit :
    ((freshWriter.nestArrays 32).m_state = .AnyData ∧
      ((freshWriter.nestArrays 32).beginArray false).m_state = .AnyData ∧
      ((freshWriter.nestArrays 32).beginArray false).m_nesting = ⟨0, 0, 33⟩ ∧
      (freshWriter.nestArrays 64).m_state = .AnyData ∧
      ((freshWriter.nestArrays 64).beginArray false).m_state = .InvalidData) ∧
    ((freshWriter.nestDicts 32).m_state = .Int32 ∧
      (freshWriter.nestDicts 32).beginStruct.m_state = .InvalidData ∧
      ((freshWriter.nestDicts 32).beginArray false).m_state = .InvalidData) ∧
    ((freshWriter.nestVariants 64 0).m_state = .AnyData ∧
      ((freshWriter.nestVariants 64 0).beginVariant 0).m_state = .InvalidData) := by
  decide

/-- C26: the writer accepts an array without a type.  `beginArray(isEmpty)`, `endArray()`
leaves it in `AnyData`, not in `InvalidData`, for `isEmpty` false and true, with or without a
`nextArrayEntry()` in between; so does `beginArray(false)`, `writeByte(1)`, `endArray()`.
`finish` then installs the signature `a` of the array without a type, which
`isSignatureValid` rejects. -/
theorem writer_accepts_empty_array :
    (freshWriter.beginArray false).endArray.m_state = .AnyData ∧
    (freshWriter.beginArray true).endArray.m_state = .AnyData ∧
    (freshWriter.beginArray false).nextArrayEntry.endArray.m_state = .AnyData ∧
    (freshWriter.beginArray true).nextArrayEntry.endArray.m_state = .AnyData ∧
    ((freshWriter.beginArray false).writeByte 1).endArray.m_state = .AnyData ∧
    ((freshWriter.beginArray false).endArray.finish.map
        (fun r => (r.2.m_signature.length, (List.range 2).map r.2.m_signature.get,
          isSignatureValid r.2.m_signature .FullSignature))
      = some (1, [ch 'a', 0], false)) := by
  refine ⟨by decide, by decide, by decide, by decide, by decide, by decide⟩

/-- C27: the writer accepts a second type in an array entry.  After `beginArray(false)`,
`nextArrayEntry()`, `writeByte(1)` a second write without `nextArrayEntry()`, `writeByte(2)`
or `writeInt32(2)` or `writeString("a")`, leaves the state of the value written, not
`InvalidData`; only a third write gives `InvalidData`. -/
theorem writer_accepts_second_type :
    (((freshWriter.beginArray false).nextArrayEntry.writeByte 1).writeByte 2).m_state = .Byte ∧
    (((freshWriter.beginArray false).nextArrayEntry.writeByte 1).writeInt32 2).m_state
      = .Int32 ∧
    (((freshWriter.beginArray false).nextArrayEntry.writeByte 1).writeString (lit "a")).m_state
      = .String ∧
    (((freshWriter.beginArray false).nextArrayEntry.writeString (lit "a")).writeByte 2).m_state
      = .Byte ∧
    ((((freshWriter.beginArray false).nextArrayEntry.writeByte 1).writeByte 2).writeByte
      3).m_state = .InvalidData := by
  decide

/-- C29: the writer rejects every dict at `endDict()` and accepts a third type.
`beginDict(false)`, `writeByte(1)`, `writeByte(2)`, `endDict()` gives `InvalidData`, as do
`beginDict(false)`, `endDict()` and `beginDict(false)`, `nextDictEntry()`, `writeByte(1)`,
`endDict()`; a third `writeByte(3)` after key and value leaves state `Byte`, not
`InvalidData`, only a fourth write gives `InvalidData`. -/
theorem writer_dict_close :
    (((freshWriter.beginDict false).writeByte 1).writeByte 2).m_state = .Byte ∧
    (((freshWriter.beginDict false).writeByte 1).writeByte 2).endDict.m_state = .InvalidData ∧
    (freshWriter.beginDict false).endDict.m_state = .InvalidData ∧
    ((freshWriter.beginDict false).nextDictEntry.writeByte 1).endDict.m_state = .InvalidData ∧
    ((((freshWriter.beginDict false).writeByte 1).writeByte 2).writeByte 3).m_state = .Byte ∧
    (((((freshWriter.beginDict false).writeByte 1).writeByte 2).writeByte 3).writeByte
      4).m_state = .InvalidData := by
  decide

namespace WriteCursor

/-- The members that the signature part of `advanceState` leaves alone. -/
theorem extendSignature_frame (f : List byte) (c : WriteCursor) :
    (extendSignature f c).m_state = c.m_state ∧
    (extendSignature f c).m_aggregateStack = c.m_aggregateStack ∧
    (extendSignature f c).m_value = c.m_value ∧
    (extendSignature f c).m_nesting = c.m_nesting ∧
    (extendSignature f c).m_signaturePosition = c.m_signaturePosition + f.length := by
  induction f generalizing c with
  | nil => exact ⟨rfl, rfl, rfl, rfl, by simp [extendSignature]⟩
  | cons b rest ih =>
    obtain ⟨h1, h2, h3, h4, h5⟩ := ih
      { c with m_signature :=
                 { c.m_signature with
                   begin := c.m_signature.begin.map (fun m => m.set c.m_signaturePosition.toNat b) },
               m_signaturePosition := c.m_signaturePosition + 1 }
    refine ⟨h1, h2, h3, h4, ?_⟩
    show (extendSignature rest _).m_signaturePosition = _
    rw [h5]
    simp only [List.length_cons, Nat.cast_add, Nat.cast_one]
    omega

theorem matchSignature_frame (f : List byte) (c : WriteCursor)
    (h : (matchSignature f c).1 = true) :
    (matchSignature f c).2.m_state = c.m_state ∧
    (matchSignature f c).2.m_aggregateStack = c.m_aggregateStack ∧
    (matchSignature f c).2.m_value = c.m_value ∧
    (matchSignature f c).2.m_nesting = c.m_nesting ∧
    (matchSignature f c).2.m_signaturePosition = c.m_signaturePosition + f.length := by
  induction f generalizing c with
  | nil => exact ⟨rfl, rfl, rfl, rfl, by simp [matchSignature]⟩
  | cons b rest ih =>
    unfold matchSignature at h ⊢
    dsimp only at h ⊢
    split
    · rename_i hb
      rw [if_pos hb] at h
      obtain ⟨h1, h2, h3, h4, h5⟩ := ih _ h
      refine ⟨h1, h2, h3, h4, ?_⟩
      rw [h5]
      simp only [List.length_cons, Nat.cast_add, Nat.cast_one]
      omega
    · rename_i hb
      rw [if_neg hb] at h
      exact Bool.noConfusion h

theorem advanceStateSignature_frame (c : WriteCursor) (f : List byte) (p s : Bool)
    (h : (advanceStateSignature c f p s).1 = true) :
    (advanceStateSignature c f p s).2.m_state = c.m_state ∧
    (advanceStateSignature c f p s).2.m_aggregateStack = c.m_aggregateStack ∧
    (advanceStateSignature c f p s).2.m_value = c.m_value ∧
    (advanceStateSignature c f p s).2.m_nesting = c.m_nesting ∧
    (advanceStateSignature c f p s).2.m_signaturePosition = c.m_signaturePosition + f.length := by
  unfold advanceStateSignature at h ⊢
  dsimp only at h ⊢
  split
  · rename_i hw
    rw [if_pos hw] at h
    split
    · rename_i h1
      rw [if_pos h1] at h
      exact Bool.noConfusion h
    · split
      · rename_i h1 h2
        rw [if_neg h1, if_pos h2] at h
        exact Bool.noConfusion h
      · exact extendSignature_frame f c
  · rename_i hw
    rw [if_neg hw] at h
    split
    · rename_i h1
      rw [if_pos h1] at h
      exact Bool.noConfusion h
    · rename_i h1
      rw [if_neg h1] at h
      exact matchSignature_frame f c h

/-- When the cursor is at the end of its signature, the signature part succeeds if the
fragment fits and the aggregate rules allow it. -/
theorem advanceStateSignature_writing (c : WriteCursor) (f : List byte) (p s : Bool)
    (hw : c.m_signaturePosition = c.m_signature.length)
    (hl : c.m_signaturePosition + (f.length : Int) ≤ 255)
    (hr : c.aggregateRulesOk p s = true) :
    (advanceStateSignature c f p s).1 = true := by
  unfold advanceStateSignature
  dsimp only
  rw [if_pos (by simpa using hw), if_neg, if_neg]
  · rw [hr]; decide
  · simpa [maxSignatureLength] using hl

theorem endVariant_accepts (c : WriteCursor) (ps : cstring) (pp : Int) (idx : Nat) (u : Int)
    (rest : List WriteAggregateInfo)
    (hs : c.m_state ≠ .InvalidData)
    (hstack : c.m_aggregateStack = .variant ps pp idx u :: rest)
    (hw : c.m_signaturePosition = c.m_signature.length)
    (hl : c.m_signaturePosition ≤ 255) :
    c.endVariant.m_state = .AnyData := by
  have hrules : aggregateRulesOk { c with m_state := .EndVariant } false false = true := by
    unfold aggregateRulesOk
    dsimp only
    rw [hstack]
    dsimp only
    split <;> rfl
  have hok := advanceStateSignature_writing { c with m_state := .EndVariant } [] false false hw
    (by simpa using hl) hrules
  obtain ⟨f1, f2, -, -, -⟩ :=
    advanceStateSignature_frame { c with m_state := .EndVariant } [] false false hok
  unfold endVariant advanceState
  rw [if_neg (by simpa using hs)]
  dsimp only
  rw [show (([] : List byte).length != 0) = false from rfl]
  simp only [Bool.false_eq_true, if_false]
  rw [if_neg (by rw [hok]; decide)]
  unfold advanceStateAggregate
  rw [f1]
  dsimp only
  unfold endVariantCase
  dsimp only
  rw [f2, hstack]

end WriteCursor

/-- C30: the writer accepts a variant without a type and a second type in a variant.
`beginVariant()`, `endVariant()` leaves state `AnyData`, not `InvalidData`, whatever the
indeterminate value `u` read from the variant frame.  With that value 0: `beginVariant()`,
`writeByte(1)`, `endVariant()` leaves `AnyData`; `beginVariant()`, `writeByte(1)`,
`writeByte(2)` leaves `Byte`, not `InvalidData` (with the value -1 it gives `InvalidData`);
and inside `beginArray(true)` the empty variant is accepted. -/
theorem writer_accepts_empty_variant :
    (∀ u : Int, (freshWriter.beginVariant u).endVariant.m_state = .AnyData) ∧
    ((freshWriter.beginVariant 0).writeByte 1).endVariant.m_state = .AnyData ∧
    (((freshWriter.beginVariant 0).writeByte 1).writeByte 2).m_state = .Byte ∧
    (((freshWriter.beginVariant (-1)).writeByte 1).writeByte 2).m_state = .InvalidData ∧
    ((freshWriter.beginArray true).beginVariant 0).endVariant.m_state = .AnyData := by
  refine ⟨fun u => ?_, by decide, by decide, by decide, by decide⟩
  exact WriteCursor.endVariant_accepts (freshWriter.beginVariant u) _ _ _ u [] (by
    show (freshWriter.beginVariant u).m_state ≠ .InvalidData
    rw [show (freshWriter.beginVariant u).m_state = .AnyData from rfl]
    decide) rfl rfl (by
    rw [show (freshWriter.beginVariant u).m_signaturePosition = 0 from rfl]
    decide)

namespace WriteCursor

theorem doWritePrimitiveType_state (c : WriteCursor) (a : Nat)
    (h : c.m_state = .Byte ∨ c.m_state = .Boolean ∨ c.m_state = .Int16 ∨ c.m_state = .Uint16 ∨
      c.m_state = .Int32 ∨ c.m_state = .Uint32 ∨ c.m_state = .Int64 ∨ c.m_state = .Uint64 ∨
      c.m_state = .Double ∨ c.m_state = .UnixFd) :
    (doWritePrimitiveType c a).1 = c.m_state := by
  unfold doWritePrimitiveType primitiveBytes
  rcases h with h | h | h | h | h | h | h | h | h | h <;> rw [h]

/-- A write of a primitive type at the end of the signature, where the fragment fits and the
aggregate rules allow it, leaves the state of the type written. -/
theorem advanceState_primitive (c : WriteCursor) (x : byte) (st : CursorState) (u : Int)
    (hs : c.m_state ≠ .InvalidData)
    (hp : (getTypeInfo x).isPrimitive = true)
    (hst : st = .Byte ∨ st = .Boolean ∨ st = .Int16 ∨ st = .Uint16 ∨ st = .Int32 ∨
      st = .Uint32 ∨ st = .Int64 ∨ st = .Uint64 ∨ st = .Double ∨ st = .UnixFd)
    (hw : c.m_signaturePosition = c.m_signature.length)
    (hl : c.m_signaturePosition + 1 ≤ 255)
    (hr : aggregateRulesOk { c with m_state := st } true (getTypeInfo x).isString = true) :
    (advanceState c [x] st u).m_state = st := by
  have hok := advanceStateSignature_writing { c with m_state := st } [x] true
    (getTypeInfo x).isString hw (by simpa using hl) hr
  obtain ⟨f1, -, -, -, -⟩ :=
    advanceStateSignature_frame { c with m_state := st } [x] true (getTypeInfo x).isString hok
  unfold advanceState
  rw [if_neg (by simpa using hs)]
  dsimp only
  rw [show (([x] : List byte).length != 0) = true from rfl]
  simp only [if_true, List.headD_cons, hp]
  rw [if_neg (by rw [hok]; decide)]
  exact (doWritePrimitiveType_state _ _ (by rw [f1]; exact hst)).trans f1

/-- A write of a string type with valid content at the end of the signature, where the
fragment fits and the aggregate rules allow it, leaves the state of the type written. -/
theorem advanceState_string (c : WriteCursor) (x : byte) (st : CursorState) (u : Int)
    (hs : c.m_state ≠ .InvalidData)
    (hp : (getTypeInfo x).isPrimitive = false)
    (hq : (getTypeInfo x).isString = true)
    (hv : (st = .String ∧ isStringValid c.m_value.stringOf = true) ∨
      (st = .ObjectPath ∧ isObjectPathValid c.m_value.stringOf = true) ∨
      (st = .Signature ∧ isSignatureValid c.m_value.stringOf .FullSignature = true))
    (hw : c.m_signaturePosition = c.m_signature.length)
    (hl : c.m_signaturePosition + 1 ≤ 255)
    (hr : aggregateRulesOk { c with m_state := st } false true = true) :
    (advanceState c [x] st u).m_state = st := by
  have hok := advanceStateSignature_writing { c with m_state := st } [x] false true hw
    (by simpa using hl) hr
  obtain ⟨f1, -, f3, -, -⟩ :=
    advanceStateSignature_frame { c with m_state := st } [x] false true hok
  unfold advanceState
  rw [if_neg (by simpa using hs)]
  dsimp only
  rw [show (([x] : List byte).length != 0) = true from rfl]
  simp only [if_true, List.headD_cons, hp, hq, Bool.false_eq_true, if_false]
  rw [if_neg (by rw [hok]; decide)]
  show (doWriteString _ _).1 = st
  unfold doWriteString
  dsimp only
  rw [f1, f3]
  dsimp only
  rcases hv with ⟨e, v⟩ | ⟨e, v⟩ | ⟨e, v⟩ <;> subst e <;> simp [v]

end WriteCursor

namespace WriteCursor

theorem key_rules_basic (c : WriteCursor) (db : Int) (rest : List WriteAggregateInfo)
    (hstack : c.m_aggregateStack = .array true db c.m_signaturePosition :: rest)
    (st : CursorState) (p s : Bool) (hps : (p || s) = true) :
    aggregateRulesOk { c with m_state := st } p s = true := by
  unfold aggregateRulesOk
  dsimp only
  rw [hstack]
  dsimp only
  rw [hps, if_neg (by simp), if_neg (by omega)]

theorem key_rules_aggregate (c : WriteCursor) (db : Int) (rest : List WriteAggregateInfo)
    (hstack : c.m_aggregateStack = .array true db c.m_signaturePosition :: rest)
    (st : CursorState) :
    aggregateRulesOk { c with m_state := st } false false = false := by
  unfold aggregateRulesOk
  dsimp only
  rw [hstack]
  dsimp only
  rw [if_pos (by simp)]

/-- A type that is neither primitive nor a string, written as the key of a dict at the end of
the signature, gives `InvalidData`. -/
theorem advanceState_key_aggregate (c : WriteCursor) (f : List byte) (st : CursorState)
    (u : Int) (db : Int) (rest : List WriteAggregateInfo)
    (hstack : c.m_aggregateStack = .array true db c.m_signaturePosition :: rest)
    (hw : c.m_signaturePosition = c.m_signature.length)
    (hf : f.length ≠ 0)
    (hp : (getTypeInfo (f.headD 0)).isPrimitive = false)
    (hq : (getTypeInfo (f.headD 0)).isString = false) :
    (advanceState c f st u).m_state = .InvalidData := by
  unfold advanceState
  split
  · rename_i h
    simpa using h
  · dsimp only
    rw [if_pos (bne_iff_ne.mpr hf), hp, hq]
    have hr : (advanceStateSignature { c with m_state := st } f false false)
        = (false, invalid { c with m_state := st }) := by
      unfold advanceStateSignature
      dsimp only
      rw [if_pos (by simpa using hw)]
      split
      · rfl
      · rw [key_rules_aggregate c db rest hstack st]
        rfl
    rw [hr]
    rfl

theorem beginArrayOrDict_key (c : WriteCursor) (isDict isEmpty : Bool) (db : Int)
    (rest : List WriteAggregateInfo)
    (hstack : c.m_aggregateStack = .array true db c.m_signaturePosition :: rest)
    (hw : c.m_signaturePosition = c.m_signature.length) :
    (beginArrayOrDict c isDict isEmpty).m_state = .InvalidData := by
  unfold beginArrayOrDict
  dsimp only
  repeat' split
  all_goals first
    | rfl
    | exact advanceState_key_aggregate _ _ _ _ db rest hstack hw (by decide) (by decide)
        (by decide)

theorem nextDictEntry_key (c : WriteCursor) (db : Int) (rest : List WriteAggregateInfo)
    (hstack : c.m_aggregateStack = .array true db c.m_signaturePosition :: rest) :
    c.nextDictEntry = c := by
  obtain ⟨al, st, nest, sig, sp, data, dp, z, el, vs, stack, v⟩ := c
  dsimp only at hstack
  subst hstack
  simp [nextDictEntry, nextArrayOrDictEntry, WriteAggregateInfo.aggregateType]

theorem call_key_basic (c : WriteCursor) (t : WriterCall) (db : Int)
    (rest : List WriteAggregateInfo)
    (hs : c.m_state ≠ .InvalidData)
    (hstack : c.m_aggregateStack = .array true db c.m_signaturePosition :: rest)
    (hw : c.m_signaturePosition = c.m_signature.length)
    (hl : c.m_signaturePosition < 255)
    (ht : t.isBasicWrite = true) (hv : t.hasValidContent = true) :
    (c.call t).m_state ≠ .InvalidData := by
  have hl1 : c.m_signaturePosition + 1 ≤ 255 := by omega
  cases t with
  | writeByte b =>
    show (advanceState { c with m_value := .Byte b } [ch 'y'] .Byte 0).m_state ≠ _
    rw [advanceState_primitive { c with m_value := .Byte b } (ch 'y') .Byte 0 hs (by decide)
      (by simp) hw hl1 (key_rules_basic _ db rest hstack _ _ _ (by decide))]
    decide
  | writeBoolean b =>
    show (advanceState { c with m_value := .Boolean b } [ch 'b'] .Boolean 0).m_state ≠ _
    rw [advanceState_primitive { c with m_value := .Boolean b } (ch 'b') .Boolean 0 hs (by decide)
      (by simp) hw hl1 (key_rules_basic _ db rest hstack _ _ _ (by decide))]
    decide
  | writeInt16 i =>
    show (advanceState { c with m_value := .Int16 i } [ch 'n'] .Int16 0).m_state ≠ _
    rw [advanceState_primitive { c with m_value := .Int16 i } (ch 'n') .Int16 0 hs (by decide)
      (by simp) hw hl1 (key_rules_basic _ db rest hstack _ _ _ (by decide))]
    decide
  | writeUint16 i =>
    show (advanceState { c with m_value := .Uint16 i } [ch 'q'] .Uint16 0).m_state ≠ _
    rw [advanceState_primitive { c with m_value := .Uint16 i } (ch 'q') .Uint16 0 hs (by decide)
      (by simp) hw hl1 (key_rules_basic _ db rest hstack _ _ _ (by decide))]
    decide
  | writeInt32 i =>
    show (advanceState { c with m_value := .Int32 i } [ch 'i'] .Int32 0).m_state ≠ _
    rw [advanceState_primitive { c with m_value := .Int32 i } (ch 'i') .Int32 0 hs (by decide)
      (by simp) hw hl1 (key_rules_basic _ db rest hstack _ _ _ (by decide))]
    decide
  | writeUint32 i =>
    show (advanceState { c with m_value := .Uint32 i } [ch 'u'] .Uint32 0).m_state ≠ _
    rw [advanceState_primitive { c with m_value := .Uint32 i } (ch 'u') .Uint32 0 hs (by decide)
      (by simp) hw hl1 (key_rules_basic _ db rest hstack _ _ _ (by decide))]
    decide
  | writeInt64 i =>
    show (advanceState { c with m_value := .Int64 i } [ch 'x'] .Int64 0).m_state ≠ _
    rw [advanceState_primitive { c with m_value := .Int64 i } (ch 'x') .Int64 0 hs (by decide)
      (by simp) hw hl1 (key_rules_basic _ db rest hstack _ _ _ (by decide))]
    decide
  | writeUint64 i =>
    show (advanceState { c with m_value := .Uint64 i } [ch 't'] .Uint64 0).m_state ≠ _
    rw [advanceState_primitive { c with m_value := .Uint64 i } (ch 't') .Uint64 0 hs (by decide)
      (by simp) hw hl1 (key_rules_basic _ db rest hstack _ _ _ (by decide))]
    decide
  | writeDouble bits =>
    show (advanceState { c with m_value := .Double bits } [ch 'd'] .Double 0).m_state ≠ _
    rw [advanceState_primitive { c with m_value := .Double bits } (ch 'd') .Double 0 hs (by decide)
      (by simp) hw hl1 (key_rules_basic _ db rest hstack _ _ _ (by decide))]
    decide
  | writeUnixFd fd =>
    show (advanceState { c with m_value := .Uint32 fd } [ch 'h'] .UnixFd 0).m_state ≠ _
    rw [advanceState_primitive { c with m_value := .Uint32 fd } (ch 'h') .UnixFd 0 hs (by decide)
      (by simp) hw hl1 (key_rules_basic _ db rest hstack _ _ _ (by decide))]
    decide
  | writeString s =>
    show (advanceState { c with m_value := .String s } [ch 's'] .String 0).m_state ≠ _
    rw [advanceState_string { c with m_value := .String s } (ch 's') .String 0 hs (by decide)
      (by decide) (Or.inl ⟨rfl, hv⟩) hw hl1 (key_rules_basic _ db rest hstack _ _ _ (by decide))]
    decide
  | writeObjectPath s =>
    show (advanceState { c with m_value := .String s } [ch 'o'] .ObjectPath 0).m_state ≠ _
    rw [advanceState_string { c with m_value := .String s } (ch 'o') .ObjectPath 0 hs (by decide)
      (by decide) (Or.inr (Or.inl ⟨rfl, hv⟩)) hw hl1 (key_rules_basic _ db rest hstack _ _ _ (by decide))]
    decide
  | writeSignature s =>
    show (advanceState { c with m_value := .String s } [ch 'g'] .Signature 0).m_state ≠ _
    rw [advanceState_string { c with m_value := .String s } (ch 'g') .Signature 0 hs (by decide)
      (by decide) (Or.inr (Or.inr ⟨rfl, hv⟩)) hw hl1 (key_rules_basic _ db rest hstack _ _ _ (by decide))]
    decide
  | beginArray e => exact Bool.noConfusion ht
  | nextArrayEntry => exact Bool.noConfusion ht
  | endArray => exact Bool.noConfusion ht
  | beginDict e => exact Bool.noConfusion ht
  | nextDictEntry => exact Bool.noConfusion ht
  | endDict => exact Bool.noConfusion ht
  | beginStruct => exact Bool.noConfusion ht
  | endStruct => exact Bool.noConfusion ht
  | beginVariant u => exact Bool.noConfusion ht
  | endVariant => exact Bool.noConfusion ht

end WriteCursor

namespace WriteCursor

/-- A `writeByte` at top level, outside every aggregate, with room in the signature: the
writer stays at top level with one more character. -/
theorem writeByte_top (c : WriteCursor) (b : byte) (n : Int)
    (hs : c.m_state ≠ .InvalidData) (hst : c.m_aggregateStack = [])
    (hp : c.m_signaturePosition = n) (hlen : c.m_signature.length = n)
    (hz : c.m_zeroLengthArrayNesting = 0) (hn : c.m_nesting = Nesting.init)
    (hl : n + 1 ≤ 255) :
    (c.writeByte b).m_state ≠ .InvalidData ∧ (c.writeByte b).m_aggregateStack = [] ∧
    (c.writeByte b).m_signaturePosition = n + 1 ∧ (c.writeByte b).m_signature.length = n + 1 ∧
    (c.writeByte b).m_zeroLengthArrayNesting = 0 ∧ (c.writeByte b).m_nesting = Nesting.init := by
  obtain ⟨al, st, nest, sig, sp, data, dp, z, el, vs, stack, v⟩ := c
  dsimp only at hs hst hp hlen hz hn
  subst hst hp hz hn
  have hy : getTypeInfo (ch 'y') = ⟨.Byte, 1, true, false⟩ := by decide
  have hs1 : (st == CursorState.InvalidData) = false := by simpa using hs
  simp [writeByte, advanceState, advanceStateSignature, aggregateRulesOk, extendSignature,
    doWritePrimitiveType, primitiveBytes, hy, hs1, hlen, maxSignatureLength, hl]

/-- After `k` calls of `writeByte(0)` at top level the signature has `k` more characters. -/
theorem writeBytes_top (k : Nat) (c : WriteCursor) (n : Int)
    (hs : c.m_state ≠ .InvalidData) (hst : c.m_aggregateStack = [])
    (hp : c.m_signaturePosition = n) (hlen : c.m_signature.length = n)
    (hz : c.m_zeroLengthArrayNesting = 0) (hn : c.m_nesting = Nesting.init)
    (hl : n + k ≤ 255) :
    (writeBytes k c).m_state ≠ .InvalidData ∧ (writeBytes k c).m_aggregateStack = [] ∧
    (writeBytes k c).m_signaturePosition = n + k ∧ (writeBytes k c).m_signature.length = n + k ∧
    (writeBytes k c).m_zeroLengthArrayNesting = 0 ∧ (writeBytes k c).m_nesting = Nesting.init := by
  induction k generalizing c n with
  | zero => exact ⟨hs, hst, by simpa using hp, by simpa using hlen, hz, hn⟩
  | succ k ih =>
    obtain ⟨h1, h2, h3, h4, h5, h6⟩ :=
      writeByte_top c 0 n hs hst hp hlen hz hn (by push_cast at hl; omega)
    obtain ⟨g1, g2, g3, g4, g5, g6⟩ :=
      ih (c.writeByte 0) (n + 1) h1 h2 h3 h4 h5 h6 (by push_cast at hl; omega)
    refine ⟨g1, g2, ?_, ?_, g5, g6⟩
    · show (writeBytes k (c.writeByte 0)).m_signaturePosition = _
      rw [g3]; push_cast; omega
    · show (writeBytes k (c.writeByte 0)).m_signature.length = _
      rw [g4]; push_cast; omega

/-- A `beginDict(false)` at top level with room for the two characters of a dict in the
signature: the writer stands at the key of the dict, two characters further. -/
theorem beginDict_top (c : WriteCursor) (n : Int)
    (hs : c.m_state ≠ .InvalidData) (hst : c.m_aggregateStack = [])
    (hp : c.m_signaturePosition = n) (hlen : c.m_signature.length = n)
    (hz : c.m_zeroLengthArrayNesting = 0) (hn : c.m_nesting = Nesting.init)
    (hl : n + 2 ≤ 255) :
    (c.beginDict false).m_state = .DictKey ∧
    (c.beginDict false).m_aggregateStack = [.array true c.m_dataPosition (n + 2)] ∧
    (c.beginDict false).m_signaturePosition = n + 2 ∧
    (c.beginDict false).m_signature.length = n + 2 := by
  obtain ⟨al, st, nest, sig, sp, data, dp, z, el, vs, stack, v⟩ := c
  dsimp only at hs hst hp hlen hz hn
  subst hst hp hz hn
  have ha : getTypeInfo (ch 'a') = ⟨.BeginArray, 4, false, false⟩ := by decide
  have hs1 : (st == CursorState.InvalidData) = false := by simpa using hs
  simp [beginDict, beginArrayOrDict, advanceState, advanceStateSignature, aggregateRulesOk,
    extendSignature, advanceStateAggregate, beginArrayCase, Nesting.beginVariant,
    Nesting.beginParen, Nesting.init, Nesting.total, Nesting.parenMax, Nesting.totalMax,
    ha, hs1, hlen, maxSignatureLength, hl]
  omega

/-- At the end of a signature that has no room for the fragment, every operation that adds to
the signature gives `InvalidData`. -/
theorem advanceState_signature_full (c : WriteCursor) (f : List byte) (st : CursorState)
    (u : Int)
    (hw : c.m_signaturePosition = c.m_signature.length)
    (hl : 255 < c.m_signaturePosition + (f.length : Int)) :
    (advanceState c f st u).m_state = .InvalidData := by
  unfold advanceState
  split
  · rename_i h
    simpa using h
  · dsimp only
    have hr : (advanceStateSignature { c with m_state := st } f
        (if f.length != 0 then getTypeInfo (f.headD 0)
          else ⟨.InvalidData, 1, false, false⟩).isPrimitive
        (if f.length != 0 then getTypeInfo (f.headD 0)
          else ⟨.InvalidData, 1, false, false⟩).isString)
        = (false, invalid { c with m_state := st }) := by
      unfold advanceStateSignature
      dsimp only
      rw [if_pos (by simpa using hw), if_pos]
      simp only [maxSignatureLength, Nat.cast_ofNat, Bool.not_eq_true', decide_eq_false_iff_not,
        not_le]
      exact hl
    rw [hr]
    rfl

end WriteCursor

namespace WriteCursor

theorem extendSignature_length (f : List byte) (c : WriteCursor) :
    (extendSignature f c).m_signature.length = c.m_signature.length := by
  induction f generalizing c with
  | nil => rfl
  | cons b rest ih => exact ih _

/-- The case `BeginDict` either gives `InvalidData` or pushes the dict frame at the signature
position and leaves the signature as it is. -/
theorem beginArrayCase_dict (c : WriteCursor) (hst : c.m_state = .BeginDict)
    (h : (beginArrayCase c).m_state ≠ .InvalidData) :
    (beginArrayCase c).m_signaturePosition = c.m_signaturePosition ∧
    (beginArrayCase c).m_signature = c.m_signature ∧
    (beginArrayCase c).m_aggregateStack
      = .array true c.m_dataPosition c.m_signaturePosition :: c.m_aggregateStack := by
  obtain ⟨al, st, nest, sig, sp, data, dp, z, el, vs, stack, v⟩ := c
  dsimp only at hst
  subst hst
  revert h
  unfold beginArrayCase
  dsimp only
  split
  · intro h; exact absurd rfl h
  · split
    · intro h; exact absurd rfl h
    · intro _
      simp

/-- A `beginDict` that is accepted at the end of the signature leaves the writer at the key of
the dict: the innermost frame is the dict frame, its `containedTypeBegin` is the signature
position, and the signature ends there. -/
theorem beginDict_stands_at_key (w : WriteCursor) (isEmpty : Bool)
    (hw : w.m_signaturePosition = w.m_signature.length)
    (h : (w.beginDict isEmpty).m_state ≠ .InvalidData) :
    (w.beginDict isEmpty).m_signaturePosition = (w.beginDict isEmpty).m_signature.length ∧
    ∃ db, (w.beginDict isEmpty).m_aggregateStack
      = .array true db (w.beginDict isEmpty).m_signaturePosition :: w.m_aggregateStack := by
  have key : ∀ c : WriteCursor, c.m_signaturePosition = c.m_signature.length →
      (advanceState c [ch 'a', ch '\x7b'] .BeginDict 0).m_state ≠ .InvalidData →
      (advanceState c [ch 'a', ch '\x7b'] .BeginDict 0).m_signaturePosition
        = (advanceState c [ch 'a', ch '\x7b'] .BeginDict 0).m_signature.length ∧
      ∃ db, (advanceState c [ch 'a', ch '\x7b'] .BeginDict 0).m_aggregateStack
        = .array true db (advanceState c [ch 'a', ch '\x7b'] .BeginDict 0).m_signaturePosition
          :: c.m_aggregateStack := by
    intro c hc
    have ha : getTypeInfo (ch 'a') = ⟨.BeginArray, 4, false, false⟩ := by decide
    unfold advanceState
    split
    · rename_i h1
      intro h2
      exact absurd (by simpa using h1) h2
    · dsimp only
      rw [show (([ch 'a', ch '\x7b'] : List byte).length != 0) = true from rfl]
      simp only [if_true, List.headD_cons, ha, Bool.false_eq_true, if_false]
      by_cases hr : (advanceStateSignature { c with m_state := .BeginDict }
          [ch 'a', ch '\x7b'] false false).1 = true
      · obtain ⟨f1, f2, -, -, f5⟩ := advanceStateSignature_frame _ _ _ _ hr
        have flen : (advanceStateSignature { c with m_state := .BeginDict }
            [ch 'a', ch '\x7b'] false false).2.m_signature.length
            = c.m_signature.length + 2 := by
          revert hr
          unfold advanceStateSignature
          dsimp only
          rw [if_pos (by simpa using hc)]
          repeat' split
          · intro h; exact Bool.noConfusion h
          · intro h; exact Bool.noConfusion h
          · intro _
            show (extendSignature _ _).m_signature.length + _ = _
            rw [extendSignature_length]
            rfl
        rw [if_neg (by rw [hr]; decide)]
        intro h2
        have hagg : advanceStateAggregate (advanceStateSignature { c with m_state := .BeginDict }
            [ch 'a', ch '\x7b'] false false).2 0
            = beginArrayCase (advanceStateSignature { c with m_state := .BeginDict }
            [ch 'a', ch '\x7b'] false false).2 := by
          unfold advanceStateAggregate
          rw [f1]
        rw [hagg] at h2 ⊢
        obtain ⟨g1, g2, g3⟩ := beginArrayCase_dict _ f1 h2
        refine ⟨?_, (advanceStateSignature { c with m_state := .BeginDict }
          [ch 'a', ch '\x7b'] false false).2.m_dataPosition, ?_⟩
        · rw [g1, g2, f5, flen]
          show c.m_signaturePosition + _ = _
          rw [hc]
          rfl
        · rw [g3, g1, f2]
      · rw [if_pos (by simpa using hr)]
        intro h2
        exfalso
        apply h2
        revert hr
        unfold advanceStateSignature
        dsimp only
        rw [if_pos (by simpa using hc)]
        repeat' split
        · intro _; rfl
        · intro _; rfl
        · intro h; exact absurd rfl h
  revert h
  unfold beginDict beginArrayOrDict
  dsimp only
  split
  · intro h; exact absurd rfl h
  · split
    · intro h; exact absurd rfl h
    · rw [if_pos rfl]
      split
      · exact key _ hw
      · exact key _ hw

end WriteCursor

/-- C28, where the claim fails: after 253 calls of `writeByte(0)` the call `beginDict(false)`
is accepted, the writer is in state `DictKey` and its signature has 255 characters, the
maximum.  The basic writes `writeByte(1)` and `writeString("a")` as the key then give
`InvalidData`: their type character does not fit the signature. -/
theorem writer_dict_key_rejected_at_limit :
    ((WriteCursor.writeBytes 253 freshWriter).beginDict false).m_state = .DictKey ∧
    ((WriteCursor.writeBytes 253 freshWriter).beginDict false).m_signaturePosition = 255 ∧
    (((WriteCursor.writeBytes 253 freshWriter).beginDict false).writeByte 1).m_state
      = .InvalidData ∧
    (((WriteCursor.writeBytes 253 freshWriter).beginDict false).writeString (lit "a")).m_state
      = .InvalidData := by
  obtain ⟨h1, h2, h3, h4, h5, h6⟩ := WriteCursor.writeBytes_top 253 freshWriter 0
    (by decide) (by decide) (by decide) (by decide) (by decide) (by decide) (by decide)
  obtain ⟨g1, -, g3, g4⟩ := WriteCursor.beginDict_top (WriteCursor.writeBytes 253 freshWriter)
    (0 + (253 : Nat)) h1 h2 h3 h4 h5 h6 (by decide)
  generalize (WriteCursor.writeBytes 253 freshWriter).beginDict false = d at g1 g3 g4 ⊢
  have hw : d.m_signaturePosition = d.m_signature.length := g3.trans g4.symm
  have hp : d.m_signaturePosition = 255 := by rw [g3]; rfl
  refine ⟨g1, hp, ?_, ?_⟩
  · exact WriteCursor.advanceState_signature_full { d with m_value := .Byte 1 } [ch 'y'] .Byte 0
      hw (by show (255 : Int) < d.m_signaturePosition + _; rw [hp]; decide)
  · exact WriteCursor.advanceState_signature_full { d with m_value := .String (lit "a") }
      [ch 's'] .String 0 hw (by show (255 : Int) < d.m_signaturePosition + _; rw [hp]; decide)

/-- C28, amended: let the writer stand at the key of a dict it has begun: not in
`InvalidData`, the innermost frame a dict frame whose `containedTypeBegin` is the signature
position, at the end of its signature; so it stands after every `beginDict` that is accepted
at the end of the signature (`beginDict_stands_at_key`).  Then, at once or after
`nextDictEntry()` (which changes nothing), each of `beginVariant`, `beginStruct`,
`beginArray` and `beginDict` as the key gives `InvalidData`, and every write of a basic value with valid content (`writeByte` ..
`writeUnixFd`, `writeString`, `writeObjectPath`, `writeSignature`) leaves a state other than
`InvalidData`, provided that the signature written so far has fewer than 255 characters and
that the bytes the write stores lie inside the block of the scratch buffer. -/
theorem writer_dict_key_basic (c : WriteCursor) (db : Int) (rest : List WriteAggregateInfo)
    (hs : c.m_state ≠ .InvalidData)
    (hstack : c.m_aggregateStack = .array true db c.m_signaturePosition :: rest)
    (hw : c.m_signaturePosition = c.m_signature.length) :
    ∀ k : WriteCursor, k = c ∨ k = c.nextDictEntry →
      (∀ u : Int, (k.beginVariant u).m_state = .InvalidData) ∧
      k.beginStruct.m_state = .InvalidData ∧
      (∀ isEmpty : Bool, (k.beginArray isEmpty).m_state = .InvalidData) ∧
      (∀ isEmpty : Bool, (k.beginDict isEmpty).m_state = .InvalidData) ∧
      (∀ t : WriterCall, t.isBasicWrite = true → t.hasValidContent = true →
        k.m_signaturePosition < 255 → k.staysInBuffer (k.call t) = true →
        (k.call t).m_state ≠ .InvalidData) := by
  intro k hk
  have hkc : k = c := by
    rcases hk with e | e
    · exact e
    · rw [e, WriteCursor.nextDictEntry_key c db rest hstack]
  subst hkc
  refine ⟨fun u => ?_, ?_, fun e => ?_, fun e => ?_, fun t ht hv hl _ => ?_⟩
  · exact WriteCursor.advanceState_key_aggregate k _ _ u db rest hstack hw (by decide)
      (by decide) (by decide)
  · exact WriteCursor.advanceState_key_aggregate k _ _ 0 db rest hstack hw (by decide)
      (by decide) (by decide)
  · exact WriteCursor.beginArrayOrDict_key k false e db rest hstack hw
  · exact WriteCursor.beginArrayOrDict_key k true e db rest hstack hw
  · exact WriteCursor.call_key_basic k t db rest hs hstack hw hl ht hv

/-- Witness of C28: the fresh writer after `beginDict(false)` stands at the key of its dict
with two characters of signature and an empty scratch buffer; `beginStruct()` as the key gives
`InvalidData`, and after `nextDictEntry()` the key `writeString("a")`, which stores five bytes,
leaves state `String`. -/
theorem writer_dict_key_basic_witness :
    (freshWriter.beginDict false).m_state = .DictKey ∧
    (freshWriter.beginDict false).beginStruct.m_state = .InvalidData ∧
    (freshWriter.beginDict false).nextDictEntry.m_signaturePosition < 255 ∧
    (freshWriter.beginDict false).nextDictEntry.staysInBuffer
      ((freshWriter.beginDict false).nextDictEntry.writeString (lit "a")) = true ∧
    ((freshWriter.beginDict false).nextDictEntry.writeString (lit "a")).m_state
      ≠ .InvalidData ∧
    ((freshWriter.beginDict false).nextDictEntry.writeString (lit "a")).m_state = .String :=
  have hfit : (freshWriter.beginDict false).nextDictEntry.staysInBuffer
      ((freshWriter.beginDict false).nextDictEntry.writeString (lit "a")) = true := by
    have hb : (freshWriter.beginDict false).nextDictEntry.m_data.begin
        = some (List.replicate 16384 0) := rfl
    have hp : ((freshWriter.beginDict false).nextDictEntry.writeString (lit "a")).m_dataPosition
        = 5 := by decide
    unfold WriteCursor.staysInBuffer
    rw [hb, hp]
    simp only [Option.getD_some, List.length_replicate]
    decide
  ⟨by decide,
    (writer_dict_key_basic (freshWriter.beginDict false) 0 [] (by decide) (by decide)
      (by decide) _ (Or.inl rfl)).2.1,
    by decide, hfit,
    (writer_dict_key_basic (freshWriter.beginDict false) 0 [] (by decide) (by decide)
      (by decide) _ (Or.inr rfl)).2.2.2.2 (.writeString (lit "a")) rfl (by decide) (by decide)
      hfit,
    by decide⟩

/-- C36: `isSignatureValid` returns true on `(ia()`, a struct with an `a` without element type
and an unclosed inner struct, and the counters of `nest` are then array 1, paren 1, variant 0
where the three closing assertions stand: `assert(!nest.array)` and `assert(!nest.paren)`
fail.  On `a(ia)` it returns true with array 1. -/
theorem isSignatureValid_asserts_fail :
    isSignatureValid (lit "(ia()") .FullSignature = true ∧
    isSignatureValidRun 7 (lit "(ia()") .FullSignature = some (true, ⟨1, 1, 0⟩) ∧
    isSignatureValidAsserts (lit "(ia()") .FullSignature = false ∧
    isSignatureValid (lit "a(ia)") .VariantSignature = true ∧
    isSignatureValidRun 7 (lit "a(ia)") .VariantSignature = some (true, ⟨1, 0, 0⟩) ∧
    isSignatureValidAsserts (lit "a(ia)") .VariantSignature = false := by
  decide

theorem getTypeInfo_outside_alphabet (c : byte) (hc : c ∉ signatureAlphabet) :
    (getTypeInfo c).isPrimitive = true ∧ (getTypeInfo c).isString = false := by
  have h : signatureAlphabet = [121, 98, 110, 113, 105, 117, 120, 116, 100, 115, 111, 103, 104,
      118, 40, 41, 97, 123, 125] := by decide
  rw [h] at hc
  simp only [List.mem_cons, List.mem_singleton, not_or, List.not_mem_nil, or_false] at hc
  obtain ⟨h1, h2, h3, h4, h5, h6, h7, h8, h9, h10, h11, h12, h13, h14, h15, h16, h17, h18, h19⟩ := hc
  obtain ⟨e1, e2, e3, e4, e5, e6, e7, e8, e9, e10, e11, e12, e13, e14, e15, e16, e17, e18, e19, -⟩ := ch_vals
  simp [getTypeInfo, *]

/-- C39, where the claim fails: for the byte 0, which is outside the signature alphabet,
`getTypeInfo` reports `isPrimitive = true` (with state `InvalidData`). -/
theorem getTypeInfo_unknown_isPrimitive :
    (0 : byte) ∉ signatureAlphabet ∧ (getTypeInfo 0).isPrimitive = true ∧
    (getTypeInfo 0).state = .InvalidData := by
  decide

/-- C39, amended: `getTypeInfo` reports `isStringLike = true` exactly for `s`, `o`, `g`, and
`isPrimitive = false` exactly for `s`, `o`, `g` and the aggregate characters `v ( ) a { }`:
`isPrimitive` is true for the ten fixed-size type characters `y b n q i u x t d h` and for
every byte outside the signature alphabet.  The two flags are never both true. -/
theorem getTypeInfo_flags :
    (∀ c : byte, (getTypeInfo c).isString = true ↔ c ∈ "sog".toList.map ch) ∧
    (∀ c : byte, (getTypeInfo c).isPrimitive = false ↔ c ∈ "sogv()a\x7b\x7d".toList.map ch) ∧
    (∀ c ∈ "ybnqiuxtdh".toList.map ch,
      (getTypeInfo c).isPrimitive = true ∧ (getTypeInfo c).isString = false) ∧
    (∀ c : byte, c ∉ signatureAlphabet →
      (getTypeInfo c).isPrimitive = true ∧ (getTypeInfo c).isString = false) ∧
    (∀ c : byte, ¬((getTypeInfo c).isPrimitive = true ∧ (getTypeInfo c).isString = true)) := by
  have hin : ∀ c ∈ signatureAlphabet,
      ((getTypeInfo c).isString = true ↔ c ∈ "sog".toList.map ch) ∧
      ((getTypeInfo c).isPrimitive = false ↔ c ∈ "sogv()a\x7b\x7d".toList.map ch) ∧
      ¬((getTypeInfo c).isPrimitive = true ∧ (getTypeInfo c).isString = true) := by decide
  have hsub1 : ∀ c ∈ "sog".toList.map ch, c ∈ signatureAlphabet := by decide
  have hsub2 : ∀ c ∈ "sogv()a\x7b\x7d".toList.map ch, c ∈ signatureAlphabet := by decide
  refine ⟨fun c => ?_, fun c => ?_, by decide, getTypeInfo_outside_alphabet, fun c => ?_⟩
  · by_cases hc : c ∈ signatureAlphabet
    · exact (hin c hc).1
    · have := getTypeInfo_outside_alphabet c hc
      constructor
      · intro h; rw [this.2] at h; exact Bool.noConfusion h
      · intro h; exact absurd (hsub1 c h) hc
  · by_cases hc : c ∈ signatureAlphabet
    · exact (hin c hc).2.1
    · have := getTypeInfo_outside_alphabet c hc
      constructor
      · intro h; rw [this.1] at h; exact Bool.noConfusion h
      · intro h; exact absurd (hsub2 c h) hc
  · by_cases hc : c ∈ signatureAlphabet
    · exact (hin c hc).2.2
    · have := getTypeInfo_outside_alphabet c hc
      intro h
      rw [this.2] at h
      exact Bool.noConfusion h.2

/-- C31: for a writer with `m_zeroLengthArrayNesting` greater than 0, `beginArray(false)` and
`beginDict(false)` set the state `InvalidData` and change nothing else, while
`beginArray(true)` and `beginDict(true)` pass the checks of `beginArrayOrDict`: they add 1 to
`m_zeroLengthArrayNesting` and go on to `advanceState`. -/
theorem writer_empty_container_nesting (c : WriteCursor) (h : 0 < c.m_zeroLengthArrayNesting) :
    c.beginArray false = { c with m_state := .InvalidData } ∧
    c.beginDict false = { c with m_state := .InvalidData } ∧
    c.beginArray true =
      WriteCursor.advanceState
        { c with m_zeroLengthArrayNesting := c.m_zeroLengthArrayNesting + 1 }
        [ch 'a'] .BeginArray 0 ∧
    c.beginDict true =
      WriteCursor.advanceState
        { c with m_zeroLengthArrayNesting := c.m_zeroLengthArrayNesting + 1 }
        [ch 'a', ch '{'] .BeginDict 0 := by
  have hz : (c.m_zeroLengthArrayNesting == 0) = false := by
    simp only [beq_eq_false_iff_ne, ne_eq]
    omega
  refine ⟨?_, ?_, ?_, ?_⟩ <;>
    simp [WriteCursor.beginArray, WriteCursor.beginDict, WriteCursor.beginArrayOrDict, hz,
      WriteCursor.invalid]

/-- Witness of C31: the fresh writer after `beginArray(true)` has `m_zeroLengthArrayNesting`
1; `beginArray(false)` and `beginDict(false)` give `InvalidData`, `beginArray(true)` and
`beginDict(true)` do not. -/
theorem writer_empty_container_nesting_witness :
    (freshWriter.beginArray true).m_zeroLengthArrayNesting = 1 ∧
    (freshWriter.beginArray true).beginArray false
      = { freshWriter.beginArray true with m_state := .InvalidData } ∧
    ((freshWriter.beginArray true).beginArray true).m_state = .AnyData ∧
    ((freshWriter.beginArray true).beginDict true).m_state = .DictKey :=
  ⟨by decide, (writer_empty_container_nesting (freshWriter.beginArray true) (by decide)).1,
    by decide, by decide⟩

/-! ## Claims on `align` -/

theorem land_mask (x k : Nat) (hx : x < 2 ^ 32) (hk : k ≤ 32) :
    Nat.land x (2 ^ 32 - 2 ^ k) = x - x % 2 ^ k := by
  apply Nat.eq_of_testBit_eq
  intro j
  have e1 : 2 ^ 32 - 2 ^ k = 2 ^ k * (2 ^ (32 - k) - 1) := by
    rw [Nat.mul_sub, ← Nat.pow_add, Nat.add_sub_cancel' hk, Nat.mul_one]
  have e2 : x - x % 2 ^ k = 2 ^ k * (x / 2 ^ k) := by
    have := Nat.div_add_mod x (2 ^ k)
    omega
  show (x &&& (2 ^ 32 - 2 ^ k)).testBit j = _
  rw [Nat.testBit_and, e1, e2, Nat.testBit_mul_pow_two, Nat.testBit_mul_pow_two,
    Nat.testBit_two_pow_sub_one, ← Nat.shiftRight_eq_div_pow, Nat.testBit_shiftRight]
  by_cases hj : k ≤ j
  · have hkj : k + (j - k) = j := by omega
    simp only [ge_iff_le, hj, decide_True, Bool.true_and, hkj]
    by_cases hj2 : j - k < 32 - k
    · simp [hj2]
    · simp only [hj2, decide_False, Bool.and_false]
      have h32 : 32 ≤ j := by omega
      have := Nat.testBit_lt_two_pow (lt_of_lt_of_le hx (Nat.pow_le_pow_right (by decide) h32))
      rw [this]
  · simp [hj]

theorem align_eq (i a : Nat) (ha : a = 1 ∨ a = 2 ∨ a = 4 ∨ a = 8) (h : i + a - 1 < 2 ^ 31) :
    align i a = (((i + a - 1) / a * a : Nat) : Int) := by
  have hm : ∀ k : Nat, k ≤ 3 → a = 2 ^ k → i32 (u32 ((a : Int) - 1)) = ((a - 1 : Nat) : Int) →
      u32 (-(((a - 1 : Nat) : Int)) - 1) = 2 ^ 32 - 2 ^ k →
      align i a = (((i + a - 1) / a * a : Nat) : Int) := by
    intro k hk hak h1 h2
    have hapos : 0 < a := by rw [hak]; exact Nat.pow_pos (by decide)
    unfold align
    simp only [h1, h2]
    have h3 : u32 ((i : Int) + ((a - 1 : Nat) : Int)) = i + a - 1 := by
      unfold u32
      omega
    rw [h3, land_mask _ k (by omega) (by omega), ← hak]
    have h4 : i + a - 1 - (i + a - 1) % a = (i + a - 1) / a * a := by
      have := Nat.div_add_mod (i + a - 1) a
      have := Nat.mul_comm a ((i + a - 1) / a)
      omega
    rw [h4]
    have h5 : (i + a - 1) / a * a ≤ i + a - 1 := Nat.div_mul_le_self _ _
    unfold i32
    rw [if_pos (by omega)]
    congr 1
    omega
  rcases ha with e | e | e | e <;> subst e
  · exact hm 0 (by decide) (by decide) (by decide) (by decide)
  · exact hm 1 (by decide) (by decide) (by decide) (by decide)
  · exact hm 2 (by decide) (by decide) (by decide) (by decide)
  · exact hm 3 (by decide) (by decide) (by decide) (by decide)

/-- C40: for every index `i` and every alignment `a` of 1, 2, 4, 8 with `i + a - 1 < 2^31`,
`align i a` is a multiple of `a`, is at least `i`, and is at most every multiple of `a` that
is at least `i`: it is the smallest multiple of `a` greater than or equal to `i`.  Hence
`align i a - i < a`, `align` is idempotent, and `align` is monotone in `i`. -/
theorem align_spec (i a : Nat) (ha : a = 1 ∨ a = 2 ∨ a = 4 ∨ a = 8) (h : i + a - 1 < 2 ^ 31) :
    (a : Int) ∣ align i a ∧ (i : Int) ≤ align i a ∧
    (∀ m : Int, (a : Int) ∣ m → (i : Int) ≤ m → align i a ≤ m) ∧
    align i a - i < a ∧
    align (align i a).toNat a = align i a ∧
    (∀ j : Nat, j + a - 1 < 2 ^ 31 → i ≤ j → align i a ≤ align j a) := by
  have e := align_eq i a ha h
  have hidem : ((i + a - 1) / a * a + a - 1) < 2 ^ 31 := by
    rcases ha with e | e | e | e <;> subst e <;> omega
  have e2 := align_eq ((i + a - 1) / a * a) a ha hidem
  refine ⟨?_, ?_, ?_, ?_, ?_, ?_⟩
  · rw [e]
    exact ⟨((i + a - 1) / a : Nat), by push_cast; ring⟩
  · rw [e]
    rcases ha with e | e | e | e <;> subst e <;> omega
  · rintro m ⟨q, rfl⟩ hm
    rw [e]
    rcases ha with e | e | e | e <;> subst e <;> omega
  · rw [e]
    rcases ha with e | e | e | e <;> subst e <;> omega
  · rw [e, Int.toNat_ofNat, e2]
    rcases ha with e | e | e | e <;> subst e <;> omega
  · intro j hj hij
    rw [e, align_eq j a ha hj]
    rcases ha with e | e | e | e <;> subst e <;> omega

/-- Witness of C40 at index 5 and alignment 4: `align 5 4` is 8. -/
theorem align_spec_witness :
    5 + 4 - 1 < 2 ^ 31 ∧ align 5 4 = 8 ∧ (4 : Int) ∣ align 5 4 ∧ ((5 : Nat) : Int) ≤ align 5 4 ∧
    align 5 4 - ((5 : Nat) : Int) < ((4 : Nat) : Int) :=
  ⟨by decide, by decide, (align_spec 5 4 (by decide) (by decide)).1,
    (align_spec 5 4 (by decide) (by decide)).2.1,
    (align_spec 5 4 (by decide) (by decide)).2.2.2.1⟩

/-! ## Claims on what the writer installs -/

/-- The function `finish` is `finishFrom` on a buffer of zeros. -/
theorem WriteCursor.finish_eq_finishFrom (c : WriteCursor) :
    c.finish = c.finishFrom (List.replicate 16384 0) := rfl

/-- C32: after `beginArray(true)`, `writeByte(7)`, `endArray()` the writer's `finish` installs
the signature `ay` and five bytes of data: the length field with value 1 and the byte 7, not
the length field with value 0 alone; with `writeInt32(7)` it installs eight bytes, the length
field with value 4 and the four bytes of 7.  The values written while walking the element type
of the empty array are recorded. -/
theorem writer_records_data_in_empty_array :
    installed ((freshWriter.beginArray true).writeByte 7).endArray.finish 3 8
      = some ((2, [ch 'a', ch 'y', 0]), (5, [1, 0, 0, 0, 7, 0, 0, 0])) ∧
    installed ((freshWriter.beginArray true).writeInt32 7).endArray.finish 3 8
      = some ((2, [ch 'a', ch 'i', 0]), (8, [4, 0, 0, 0, 7, 0, 0, 0])) := by
  refine ⟨by decide, by decide⟩

/-- C33: after `writeByte(9)`, `writeInt32(0x01020304)` the writer's `finish` installs the
signature `yi` and the eight bytes `09 00 00 00 01 00 00 00`: the bytes at offset 4 are not
the encoding `04 03 02 01` of the value written.  `writeInt32` stored it at offsets 1 to 4 of
the scratch buffer, `finish` reads offsets 4 to 7.  The other order, `writeInt32`,
`writeByte`, comes out right. -/
theorem writer_misplaces_aligned_value :
    installed ((freshWriter.writeByte 9).writeInt32 16909060).finish 3 8
      = some ((2, [ch 'y', ch 'i', 0]), (8, [9, 0, 0, 0, 1, 0, 0, 0])) ∧
    ((freshWriter.writeByte 9).writeInt32 16909060).m_data.bytes 8 = [9, 4, 3, 2, 1, 0, 0, 0] ∧
    installed ((freshWriter.writeInt32 16909060).writeByte 9).finish 3 8
      = some ((2, [ch 'i', ch 'y', 0]), (5, [4, 3, 2, 1, 9, 0, 0, 0])) := by
  refine ⟨by decide, by decide, by decide⟩

/-- C34: after `writeString("a")` the writer's `finish` installs the signature `s` and five
bytes of data, the length field 1 and `a`, without the terminating NUL: a `writeByte(7)` behind
the string lands at offset 5, where the NUL belongs.  `writeSignature("i")` installs the
1-byte length 1 and `i`, two bytes, again without NUL.  Content that the matching validator
rejects gives `InvalidData`. -/
theorem writer_string_without_nul :
    installed (freshWriter.writeString (lit "a")).finish 2 8
      = some ((1, [ch 's', 0]), (5, [1, 0, 0, 0, ch 'a', 0, 0, 0])) ∧
    installed ((freshWriter.writeString (lit "a")).writeByte 7).finish 3 8
      = some ((2, [ch 's', ch 'y', 0]), (6, [1, 0, 0, 0, ch 'a', 7, 0, 0])) ∧
    installed (freshWriter.writeSignature (lit "i")).finish 2 4
      = some ((1, [ch 'g', 0]), (2, [1, ch 'i', 0, 0])) ∧
    (freshWriter.writeString ⟨some [ch 'a', 0, ch 'b', 0], 3⟩).m_state = .InvalidData ∧
    (freshWriter.writeObjectPath (lit "a")).m_state = .InvalidData ∧
    (freshWriter.writeSignature (lit "a")).m_state = .InvalidData := by
  refine ⟨by decide, by decide, by decide, by decide, by decide, by decide⟩

/-- C35: for the array of the two `int64` 1 and 2 (`beginArray(false)`, `nextArrayEntry()`,
`writeInt64(1)`, `nextArrayEntry()`, `writeInt64(2)`, `endArray()`) `finish` writes the length
field 16 at offset 0 and the elements from offset 8 on, 24 bytes in all, but it never writes
the four padding bytes at offsets 4 to 7: they keep what the buffer held, `aa` for a buffer
that `malloc` returned filled with the byte `aa`, and are zero only if `malloc` returned
zeros.  For two `int16` the length field is 4 and no padding occurs. -/
theorem writer_array_padding_unwritten :
    installed
        ((((((freshWriter.beginArray false).nextArrayEntry).writeInt64 1).nextArrayEntry).writeInt64
          2).endArray.finishFrom (List.replicate 16384 170)) 3 24
      = some ((2, [ch 'a', ch 'x', 0]),
          (24, [16, 0, 0, 0, 170, 170, 170, 170,
                1, 0, 0, 0, 0, 0, 0, 0, 2, 0, 0, 0, 0, 0, 0, 0])) ∧
    installed
        ((((((freshWriter.beginArray false).nextArrayEntry).writeInt64 1).nextArrayEntry).writeInt64
          2).endArray.finish) 3 24
      = some ((2, [ch 'a', ch 'x', 0]),
          (24, [16, 0, 0, 0, 0, 0, 0, 0, 1, 0, 0, 0, 0, 0, 0, 0, 2, 0, 0, 0, 0, 0, 0, 0])) ∧
    installed
        ((((((freshWriter.beginArray false).nextArrayEntry).writeInt16 1).nextArrayEntry).writeInt16
          2).endArray.finishFrom (List.replicate 16384 170)) 3 8
      = some ((2, [ch 'a', ch 'n', 0]), (8, [4, 0, 0, 0, 1, 0, 2, 0])) := by
  refine ⟨by decide, by decide, by decide⟩

/-! ## Claims on the reads and the nesting counters of the reader -/

/-- C37: the reader reads the byte behind the payload.  On the signature `s` with the six data
bytes of the string `a` the constructor runs `doReadString(4)` on the cursor
`atFirstType stringA`, which reads the bytes 0 to 3 and then, in `isStringValid`, the byte at
index 6, the length of the data.  With the length prefix `0xFFFFFFFF` and four data bytes
`stringLength` wraps to 0 and the byte at index 4 is read; the cursor ends in state `String`.
For the variant whose inline signature `i` ends at the last of three data bytes the case
`BeginVariant` reads the byte at index 3. -/
theorem reader_reads_past_data :
    (ReadCursor.create (some stringA) =
        (ReadCursor.atFirstType stringA).readStringCase 4 (-1) 0 ∧
      (ReadCursor.atFirstType stringA).doReadStringReads 4 = [0, 1, 2, 3, 6] ∧
      (ReadCursor.atFirstType stringA).m_data.length = 6) ∧
    (ReadCursor.create (some stringLengthMax) =
        (ReadCursor.atFirstType stringLengthMax).readStringCase 4 (-1) 0 ∧
      (ReadCursor.atFirstType stringLengthMax).doReadStringReads 4 = [0, 1, 2, 3, 4] ∧
      (ReadCursor.atFirstType stringLengthMax).m_data.length = 4 ∧
      (ReadCursor.create (some stringLengthMax)).m_state = .String) ∧
    (ReadCursor.create (some variantSignatureOnly) =
        (ReadCursor.atFirstType variantSignatureOnly).beginVariantCase (-1) 0 ∧
      (ReadCursor.atFirstType variantSignatureOnly).beginVariantCaseReads = [0, 3] ∧
      (ReadCursor.atFirstType variantSignatureOnly).m_data.length = 3) := by
  refine ⟨⟨by decide, by decide, by decide⟩, ⟨by decide, by decide, by decide, by decide⟩,
    ⟨by decide, by decide, by decide⟩⟩

/-- C38: on the signature `(ia)`, which `isSignatureValid` accepts, with the data of the
`int32` 5 and of an array of 4 bytes, the counters agree with the stack in the states
`BeginStruct`, `Int32`, `BeginArray` and `NextArrayEntry`; the call `nextArrayEntry()` then
returns `true` with the reader in state `EndStruct`, the counters `array = 1`, `paren = 0` and
the stack holding the one struct frame: the case `EndStruct` of `advanceState` has popped the
array frame and counted down `paren`. -/
theorem reader_nesting_disagrees :
    isSignatureValid (lit "(ia)") .FullSignature = true ∧
    ((ReadCursor.create (some structUnclosedArray)).m_state = .BeginStruct ∧
      (ReadCursor.create (some structUnclosedArray)).nestingAgrees = true) ∧
    ((ReadCursor.create (some structUnclosedArray)).beginStruct.m_state = .Int32 ∧
      (ReadCursor.create (some structUnclosedArray)).beginStruct.nestingAgrees = true) ∧
    ((ReadCursor.create (some structUnclosedArray)).beginStruct.readScalar.2.m_state
        = .BeginArray ∧
      (ReadCursor.create (some structUnclosedArray)).beginStruct.readScalar.2.m_aggregateStack
        = [.array false 12 2, .struct] ∧
      (ReadCursor.create (some structUnclosedArray)).beginStruct.readScalar.2.nestingAgrees
        = true) ∧
    (((ReadCursor.create (some structUnclosedArray)).beginStruct.readScalar.2.beginArray
        true).1.m_state = .NextArrayEntry ∧
      ((ReadCursor.create (some structUnclosedArray)).beginStruct.readScalar.2.beginArray
        true).1.nestingAgrees = true) ∧
    (((ReadCursor.create (some structUnclosedArray)).beginStruct.readScalar.2.beginArray
        true).1.nextArrayEntry.1 = true ∧
      ((ReadCursor.create (some structUnclosedArray)).beginStruct.readScalar.2.beginArray
        true).1.nextArrayEntry.2.m_state = .EndStruct ∧
      ((ReadCursor.create (some structUnclosedArray)).beginStruct.readScalar.2.beginArray
        true).1.nextArrayEntry.2.m_nesting = ⟨1, 0, 0⟩ ∧
      ((ReadCursor.create (some structUnclosedArray)).beginStruct.readScalar.2.beginArray
        true).1.nextArrayEntry.2.m_aggregateStack = [.struct] ∧
      ((ReadCursor.create (some structUnclosedArray)).beginStruct.readScalar.2.beginArray
        true).1.nextArrayEntry.2.nestingAgrees = false) := by
  refine ⟨by decide, ⟨by decide, by decide⟩, ⟨by decide, by decide⟩,
    ⟨by decide, by decide, by decide⟩, ⟨by decide, by decide⟩,
    ⟨by decide, by decide, by decide, by decide, by decide⟩⟩

end Dferry
